import Mathlib

/-! Shallow embedding of the bucket-based memory allocator of src/malloc.c.

Machine integers are modelled as `Nat` with explicit reductions modulo
2^64 (`size_t` / `uintptr_t` arithmetic), 2^48 (the header's `size`
bitfield) and 2^15 (the header's `mapping` bitfield).  Memory is modelled
as maps from addresses to header records and to footer words; payload
bytes are not modelled, so the `memset` in `calloc_` and the `memcpy` in
`realloc_` (which act only on payload bytes) have no model counterpart.
The OS page source (`mmap`) is an explicit oracle argument: each facade
call receives the optional address that `mmap` would return for its (at
most one) `get_mapping` call.  The sibling `next`/`prev` pointers of the
circular bucket lists are represented by keeping each bucket as the
`List` of block addresses found by traversing the circular list from the
sentinel; the size-0 sentinel itself is the (unique) end of the list. -/

namespace MallocModel

/-- Modulus of `size_t` / `uintptr_t` / `uint64_t` arithmetic. -/
def U64 : Nat := 2 ^ 64

/-- Modulus of the 48-bit `size` bitfield of `header_t`. -/
def SIZE48 : Nat := 2 ^ 48

/-- Modulus of the 15-bit `mapping` bitfield of `header_t`. -/
def MAP15 : Nat := 2 ^ 15

/-- Reduce a value modulo 2^64, as unsigned 64-bit arithmetic does. -/
def wrap64 (n : Nat) : Nat := n % U64

/-- Unsigned 64-bit subtraction `a - b` with two's-complement wraparound. -/
def sub64 (a b : Nat) : Nat := (a + (U64 - b % U64)) % U64

/-- Linux errno value for invalid argument. -/
def EINVAL : Nat := 22

/-- Linux errno value for out of memory. -/
def ENOMEM : Nat := 12

/-- MEM_UNIT from malloc.c: the 8-byte allocation granule. -/
def MEM_UNIT : Nat := 8

/-- METADATA_OFFSET from malloc.c: `sizeof (uint64_t)` = 8 bytes. -/
def METADATA_OFFSET : Nat := 8

/-- FOOTER_SIZE: `sizeof (footer_t)` = 8 bytes. -/
def FOOTER_SIZE : Nat := 8

/-- HEADER_SIZE: `sizeof (header_t)` = 8 (bitfield word) + 8 (`next`) + 8 (`prev`). -/
def HEADER_SIZE : Nat := 24

/-- MIN_ALLOC from malloc.c: `sizeof (header_t) + sizeof (footer_t)` = 32. -/
def MIN_ALLOC : Nat := HEADER_SIZE + FOOTER_SIZE

/-- The page size assumed throughout (`sysconf(_SC_PAGESIZE)` = 4096). -/
def PAGE_SIZE : Nat := 4096

/-- MMAP_UNIT from malloc.c: `(1 << 5) * sysconf(_SC_PAGESIZE)` = 131072. -/
def MMAP_UNIT : Nat := 32 * PAGE_SIZE

/-- NUM_BUCKETS from malloc.c. -/
def NUM_BUCKETS : Nat := 166

/-- Capacity of the mapping registry: `1 << LOG2_NUM_MAPPINGS` = 2^15. -/
def NUM_MAPPINGS : Nat := MAP15

/-- The bitfield word of `header_t`: size (48 bits), mapping (15 bits),
free flag (1 bit).  The `next`/`prev` sibling pointers are represented by
the bucket lists, not stored here. -/
structure Header where
  size : Nat
  mapping : Nat
  free : Bool
deriving DecidableEq, Repr

/-- The allocator's global state: `initialized` flag, the 166 bucket
sentinels (each bucket given as the list of block addresses in circular
order after the sentinel), the header and footer words of managed memory,
and the mapping registry `mappings[1 << 15][2]` with its running index. -/
structure AllocState where
  inited : Bool
  buckets : Nat → List Nat
  headers : Nat → Option Header
  footers : Nat → Option Nat
  mappingIndex : Nat
  mappingLo : Nat → Nat
  mappingHi : Nat → Nat
  errno : Nat

/-- Read the header word at an address.  Unwritten memory reads as zero,
matching the zero-fill guarantee of fresh anonymous mappings. -/
def getHeader (s : AllocState) (a : Nat) : Header :=
  (s.headers a).getD ⟨0, 0, false⟩

/-- Read the `size` bitfield of the header at address `a`. -/
def blockSize (s : AllocState) (a : Nat) : Nat := (getHeader s a).size

/-- Read a footer word.  Unwritten memory reads as zero. -/
def getFooter (s : AllocState) (a : Nat) : Nat := (s.footers a).getD 0

/-- Write the `size` bitfield of the header at `a` (truncated to 48 bits). -/
def setHeaderSize (s : AllocState) (a v : Nat) : AllocState :=
  { s with headers := fun x => if x = a then some { getHeader s a with size := v % SIZE48 } else s.headers x }

/-- Write the `mapping` bitfield of the header at `a` (truncated to 15 bits). -/
def setHeaderMapping (s : AllocState) (a v : Nat) : AllocState :=
  { s with headers := fun x => if x = a then some { getHeader s a with mapping := v % MAP15 } else s.headers x }

/-- Write the `free` bitfield of the header at `a`. -/
def setHeaderFree (s : AllocState) (a : Nat) (v : Bool) : AllocState :=
  { s with headers := fun x => if x = a then some { getHeader s a with free := v } else s.headers x }

/-- Write the footer word at address `a`. -/
def setFooter (s : AllocState) (a v : Nat) : AllocState :=
  { s with footers := fun x => if x = a then some (v % U64) else s.footers x }

/-- update_size from malloc.c:
`block->size = ((footer_t*) ((uintptr_t) block + size) - 1)->size = size;`. -/
def update_size (s : AllocState) (a sz : Nat) : AllocState :=
  setHeaderSize (setFooter s (sub64 (wrap64 (a + sz)) FOOTER_SIZE) sz) a sz

/-- The top-bit scan loop of bucket_index_from_size:
`for (log2 = log2_1024; size >> (log2 + 1) > 0; log2++);`, with enough
fuel (64) to be exact for every `size < 2^64`. -/
def log2scan (size : Nat) : Nat → Nat → Nat
  | 0, l => l
  | fuel + 1, l => if 0 < size >>> (l + 1) then log2scan size fuel (l + 1) else l

/-- bucket_index_from_size from malloc.c. -/
def bucket_index_from_size (size : Nat) : Nat :=
  if size < 1024 then size / MEM_UNIT
  else log2scan size 64 10 + (1024 / MEM_UNIT - 10)

/-- round_up_power_of_two from malloc.c:
`(number + (power - 1)) & ~(power - 1)` in `size_t` arithmetic, for
`power` a power of two. -/
def round_up_power_of_two (number power : Nat) : Nat :=
  wrap64 (number + (power - 1)) / power * power

/-- aligned from malloc.c: round up to the 8-byte granule, add header word
and footer, and clamp to MIN_ALLOC. -/
def aligned (size : Nat) : Nat :=
  let r := round_up_power_of_two size MEM_UNIT
  let r2 := wrap64 (r + (METADATA_OFFSET + FOOTER_SIZE))
  if MIN_ALLOC ≤ r2 then r2 else MIN_ALLOC

/-- The walk of insert_into_bucket: advance `pre_insertion_block` while
the next node's size is neither 0 (the sentinel) nor greater than the
inserted block's size, then link the block in at that point. -/
def insert_walk (s : AllocState) (a w : Nat) : List Nat → List Nat
  | [] => [a]
  | b :: rest =>
    if blockSize s b = 0 ∨ w < blockSize s b then a :: b :: rest
    else b :: insert_walk s a w rest

/-- insert_into_bucket from malloc.c: sorted insertion (oldest-first on
ties) followed by `block_to_insert->free = true`. -/
def insert_into_bucket (s : AllocState) (a i : Nat) : AllocState :=
  let w := blockSize s a
  let s1 := { s with buckets := fun j => if j = i then insert_walk s a w (s.buckets i) else s.buckets j }
  setHeaderFree s1 a true

/-- insert_into_buckets from malloc.c. -/
def insert_into_buckets (s : AllocState) (a : Nat) : AllocState :=
  insert_into_bucket s a (bucket_index_from_size (blockSize s a))

/-- remove_from_bucket from malloc.c: unlink the node from the circular
list holding it (a no-op for a node in no bucket). -/
def remove_from_bucket (s : AllocState) (a : Nat) : AllocState :=
  { s with buckets := fun j => (s.buckets j).erase a }

/-- split_after from malloc.c: carve a free tail of size
`block->size - size` at `block + size`, inheriting the mapping index. -/
def split_after (s : AllocState) (a sz : Nat) : AllocState :=
  let nb := wrap64 (a + sz)
  let s1 := update_size s nb (sub64 (blockSize s a) sz)
  let s2 := setHeaderMapping s1 nb (getHeader s1 a).mapping
  insert_into_buckets s2 nb

/-- adjusted_block from malloc.c: return the block unchanged when the
tail would be smaller than MIN_ALLOC, else split and shrink. -/
def adjusted_block (s : AllocState) (a sz : Nat) : Nat × AllocState :=
  if blockSize s a < wrap64 (sz + MIN_ALLOC) then (a, s)
  else
    let s1 := split_after s a sz
    let s2 := update_size s1 a sz
    (a, s2)

/-- The scan loop of get_block_from_bucket:
`for (; block->size > 0; block = block->next) if (block->size >= size) ...`. -/
def bucket_loop (s : AllocState) (w : Nat) : List Nat → Option Nat
  | [] => none
  | b :: rest =>
    if 0 < blockSize s b then
      if w ≤ blockSize s b then some b else bucket_loop s w rest
    else none

/-- get_block_from_bucket from malloc.c: on a hit, remove the node from
its bucket, then return `adjusted_block(block, size)`. -/
def get_block_from_bucket (s : AllocState) (i w : Nat) : Option (Nat × AllocState) :=
  match bucket_loop s w (s.buckets i) with
  | none => none
  | some b => some (adjusted_block (remove_from_bucket s b) b w)

/-- The bucket loop of get_block_from_buckets:
`for (uint8_t i = bucket_index_from_size(size); i < NUM_BUCKETS; i++)`,
given enough fuel (166) to cover the whole range. -/
def gbfb_loop (s : AllocState) (w : Nat) : Nat → Nat → Option (Nat × AllocState)
  | 0, _ => none
  | fuel + 1, i =>
    if i < NUM_BUCKETS then
      match get_block_from_bucket s i w with
      | some r => some r
      | none => gbfb_loop s w fuel (i + 1)
    else none

/-- get_block_from_buckets from malloc.c. -/
def get_block_from_buckets (s : AllocState) (w : Nat) : Option (Nat × AllocState) :=
  gbfb_loop s w NUM_BUCKETS (bucket_index_from_size w)

/-- get_mapping from malloc.c.  `ans` is the oracle result of `mmap`
(`none` for MAP_FAILED).  On MAP_FAILED, errno is set to ENOMEM.  A
mapping contiguous with the previous one is fused into it; otherwise a
full registry makes the call fail with NO errno assignment (only a
diagnostic is printed to stderr). -/
def get_mapping (s : AllocState) (sz : Nat) (ans : Option Nat) : Option Nat × AllocState :=
  match ans with
  | none => (none, { s with errno := ENOMEM })
  | some m =>
    if 0 < s.mappingIndex ∧ m = s.mappingHi (s.mappingIndex - 1) then
      (some m, { s with
        mappingIndex := s.mappingIndex - 1,
        mappingHi := fun j => if j = s.mappingIndex - 1 then wrap64 (s.mappingHi (s.mappingIndex - 1) + sz) else s.mappingHi j })
    else if s.mappingIndex = NUM_MAPPINGS then
      (none, s)
    else
      (some m, { s with
        mappingLo := fun j => if j = s.mappingIndex then m else s.mappingLo j,
        mappingHi := fun j => if j = s.mappingIndex then wrap64 (m + sz) else s.mappingHi j })

/-- get_block_from_os from malloc.c: round the request up to MMAP_UNIT
(EINVAL on overflow), obtain a mapping, size the covering block, stamp
its mapping index (`main_block->mapping = mapping_index++`), and split
off the requested head via adjusted_block. -/
def get_block_from_os (s : AllocState) (w : Nat) (ans : Option Nat) : Option Nat × AllocState :=
  let requested := round_up_power_of_two w MMAP_UNIT
  if requested < w then (none, { s with errno := EINVAL })
  else
    match get_mapping s requested ans with
    | (none, s1) => (none, s1)
    | (some m, s1) =>
      let s2 := update_size s1 m requested
      let s3 := setHeaderMapping s2 m s1.mappingIndex
      let s4 := { s3 with mappingIndex := s3.mappingIndex + 1 }
      let r := adjusted_block s4 m w
      (some r.1, r.2)

/-- initialize_buckets from malloc.c: make each of the 166 sentinels a
self-linked circular list (an empty bucket) and set the flag. -/
def init_buckets (s : AllocState) : AllocState :=
  { s with inited := true, buckets := fun _ => [] }

/-- malloc_ from malloc.c. -/
def malloc_ (s : AllocState) (size : Nat) (ans : Option Nat) : Option Nat × AllocState :=
  let aligned_size := aligned size
  if size = 0 ∨ aligned_size < size then (none, { s with errno := EINVAL })
  else
    let s1 := if s.inited then s else init_buckets s
    match get_block_from_buckets s1 aligned_size with
    | some (a, s2) => (some (wrap64 (a + METADATA_OFFSET)), setHeaderFree s2 a false)
    | none =>
      match get_block_from_os s1 aligned_size ans with
      | (none, s2) => (none, s2)
      | (some a, s2) => (some (wrap64 (a + METADATA_OFFSET)), setHeaderFree s2 a false)

/-- coalesce from malloc.c: unlink both neighbours, grow the lower one by
the size of the higher, and re-insert. -/
def coalesce (s : AllocState) (lower higher : Nat) : AllocState :=
  let s1 := remove_from_bucket s lower
  let s2 := remove_from_bucket s1 higher
  let s3 := update_size s2 lower (blockSize s2 lower + blockSize s2 higher)
  insert_into_buckets s3 lower

/-- free_ from malloc.c.  `none` models the null pointer. -/
def free_ (s : AllocState) (ptr : Option Nat) : AllocState :=
  match ptr with
  | none => s
  | some p =>
    let a := sub64 p METADATA_OFFSET
    let s1 := insert_into_buckets s a
    let nb := wrap64 (a + blockSize s1 a)
    let s2 :=
      if nb < s1.mappingHi (getHeader s1 a).mapping ∧ (getHeader s1 nb).free then
        coalesce s1 a nb
      else s1
    if a = s2.mappingLo (getHeader s2 a).mapping then s2
    else
      let prev := sub64 a (getFooter s2 (sub64 a FOOTER_SIZE))
      if (getHeader s2 prev).free then coalesce s2 prev a else s2

/-- calloc_ from malloc.c.  The zero-fill `memset` touches only payload
bytes, which the model does not carry. -/
def calloc_ (s : AllocState) (num size : Nat) (ans : Option Nat) : Option Nat × AllocState :=
  if num = 0 ∨ (U64 - 1) / num < size then (none, { s with errno := EINVAL })
  else
    let total_size := wrap64 (num * size)
    malloc_ s total_size ans

/-- realloc_ from malloc.c.  The `memcpy` of the old payload into the new
block touches only payload bytes, which the model does not carry. -/
def realloc_ (s : AllocState) (ptr : Option Nat) (size : Nat) (ans : Option Nat) : Option Nat × AllocState :=
  match ptr with
  | none => malloc_ (free_ s none) size ans
  | some p =>
    if size = 0 then malloc_ (free_ s (some p)) size ans
    else
      let a := sub64 p METADATA_OFFSET
      let old_size := sub64 (sub64 (blockSize s a) METADATA_OFFSET) FOOTER_SIZE
      if size ≤ old_size then
        let r := adjusted_block s a (aligned size)
        (some (wrap64 (r.1 + METADATA_OFFSET)), r.2)
      else
        let r := malloc_ s size ans
        (r.1, free_ r.2 (some p))

/-- The process-load state: everything zero-initialised. -/
def initialState : AllocState :=
  { inited := false, buckets := fun _ => [], headers := fun _ => none,
    footers := fun _ => none, mappingIndex := 0, mappingLo := fun _ => 0,
    mappingHi := fun _ => 0, errno := 0 }

/-- Cold-start scenario: first facade call `malloc_(8)` with the page
source returning address 4096 (page size 4096, MMAP_UNIT 131072). -/
def coldMalloc8 : Option Nat × AllocState := malloc_ initialState 8 (some 4096)

/-- Release of the pointer returned by the cold `malloc_(8)`. -/
def afterFree : AllocState := free_ coldMalloc8.2 coldMalloc8.1

/-- Second `malloc_(8)` after the release (no OS call is needed). -/
def secondMalloc8 : Option Nat × AllocState := malloc_ afterFree 8 none

/-- Failing-resize scenario: grow the cold 8-byte allocation to 131072
bytes while the page source refuses to map (mmap returns MAP_FAILED). -/
def reallocFail : Option Nat × AllocState := realloc_ coldMalloc8.2 coldMalloc8.1 131072 none

/-- Resize-to-zero scenario on the cold 8-byte allocation. -/
def resizeZero : Option Nat × AllocState := realloc_ coldMalloc8.2 coldMalloc8.1 0 none

/-- A state whose mapping registry is at its 2^15-entry capacity, with a
recognizable prior errno value (5) and all buckets empty. -/
def fullState : AllocState :=
  { inited := true, buckets := fun _ => [], headers := fun _ => none,
    footers := fun _ => none, mappingIndex := NUM_MAPPINGS, mappingLo := fun _ => 0,
    mappingHi := fun _ => 0, errno := 5 }

/-- Acquire attempt on the full registry; the page source grants address
8, which is not adjacent to the previous mapping's high bound (0). -/
def fullStateMalloc : Option Nat × AllocState := malloc_ fullState 50 (some 8)

/-- A small search state for witnesses: one free block of size 32 at
address 500, filed in bucket 4 = bucket_index_from_size 32. -/
def searchState : AllocState :=
  { initialState with
    inited := true,
    buckets := fun i => if i = 4 then [500] else [],
    headers := fun x => if x = 500 then some ⟨32, 0, true⟩ else none }

/-- Exact traversal of the physical blocks of a mapping: `ChainSeq s a c L`
says that starting at address `a` and repeatedly stepping by the block
size recorded in the header reaches exactly `c`, visiting the block
addresses `L` on the way. -/
inductive ChainSeq (s : AllocState) : Nat → Nat → List Nat → Prop
  | nil (a : Nat) : ChainSeq s a a []
  | cons (a c : Nat) (L : List Nat) (hpos : 0 < blockSize s a)
      (hrest : ChainSeq s (a + blockSize s a) c L) : ChainSeq s a c (a :: L)

/-- Structural well-formedness of one managed block of mapping `j`: its
size is at least MIN_ALLOC and a multiple of 8, its header carries the
mapping index, and its footer duplicates the size. -/
def blockOKbase (s : AllocState) (j a : Nat) : Prop :=
  MIN_ALLOC ≤ blockSize s a ∧ MEM_UNIT ∣ blockSize s a ∧
  (getHeader s a).mapping = j ∧
  s.footers (a + blockSize s a - FOOTER_SIZE) = some (blockSize s a)

/-- A block's free flag is set exactly when the block sits in the bucket
of its size class. -/
def blockBucketOK (s : AllocState) (a : Nat) : Prop :=
  (getHeader s a).free = true ↔ a ∈ s.buckets (bucket_index_from_size (blockSize s a))

/-- Well-formedness of registered mapping `j`: positive page-aligned-ish
bounds within the 48-bit address space, and a block chain covering the
mapping exactly, each block structurally sound and bucket-consistent. -/
def mapOK (s : AllocState) (j : Nat) : Prop :=
  0 < s.mappingLo j ∧ s.mappingLo j < s.mappingHi j ∧ s.mappingHi j ≤ SIZE48 ∧
  ∃ L, ChainSeq s (s.mappingLo j) (s.mappingHi j) L ∧
    (∀ a ∈ L, blockOKbase s j a) ∧ (∀ a ∈ L, blockBucketOK s a)

/-- Well-formedness of the buckets: members are blocks of registered
mappings filed under the bucket of their size class, each bucket is
sorted by size (non-decreasing) and has no duplicates. -/
def bucketsOK (s : AllocState) : Prop :=
  ∀ i, (∀ a ∈ s.buckets i,
          bucket_index_from_size (blockSize s a) = i ∧
          ∃ j L, j < s.mappingIndex ∧ ChainSeq s (s.mappingLo j) (s.mappingHi j) L ∧ a ∈ L) ∧
       (s.buckets i).Pairwise (fun x y => blockSize s x ≤ blockSize s y) ∧
       (s.buckets i).Nodup

/-- Well-formedness of the mapping registry: within capacity and with
pairwise disjoint address ranges. -/
def mappingsOK (s : AllocState) : Prop :=
  s.mappingIndex ≤ NUM_MAPPINGS ∧
  (∀ j k, j < s.mappingIndex → k < s.mappingIndex → ¬ j = k →
    s.mappingHi j ≤ s.mappingLo k ∨ s.mappingHi k ≤ s.mappingLo j)

/-- Memory outside every registered mapping has never been written: a
fresh anonymous mapping therefore reads as zero there. -/
def freshHeadersOK (s : AllocState) : Prop :=
  ∀ x, (∀ j, j < s.mappingIndex → x < s.mappingLo j ∨ s.mappingHi j ≤ x) → s.headers x = none

/-- The allocator's global invariant (everything except the eager
coalescing property, which `realloc_`'s in-place shrink can break). -/
def Inv (s : AllocState) : Prop :=
  (s.inited = false → s.mappingIndex = 0) ∧
  (∀ j, j < s.mappingIndex → mapOK s j) ∧
  bucketsOK s ∧ mappingsOK s ∧ freshHeadersOK s

/-- Two physically adjacent blocks are not both free. -/
def nonAdjFree (s : AllocState) (a b : Nat) : Prop :=
  (getHeader s a).free = false ∨ (getHeader s b).free = false

/-- The eager-coalescing invariant: along every mapping's block chain, no
two neighbouring blocks are both free. -/
def AdjInv (s : AllocState) : Prop :=
  ∀ j, j < s.mappingIndex → ∀ L, ChainSeq s (s.mappingLo j) (s.mappingHi j) L →
    L.Chain' (nonAdjFree s)

/-- The address is a managed block of some registered mapping. -/
def validBlock (s : AllocState) (a : Nat) : Prop :=
  ∃ j L, j < s.mappingIndex ∧ ChainSeq s (s.mappingLo j) (s.mappingHi j) L ∧ a ∈ L

/-- The client contract of `free_`/`realloc_`: the pointer is null or was
returned by an acquire and not yet released (its block is allocated). -/
def validFreeArg (s : AllocState) (p : Option Nat) : Prop :=
  p = none ∨ ∃ a, p = some (a + METADATA_OFFSET) ∧ validBlock s a ∧ (getHeader s a).free = false

/-- mapOK with the bucket-consistency requirement waived at the single
block address `e` (used for the block being carved mid-`malloc_`). -/
def mapOKx (s : AllocState) (e j : Nat) : Prop :=
  0 < s.mappingLo j ∧ s.mappingLo j < s.mappingHi j ∧ s.mappingHi j ≤ SIZE48 ∧
  ∃ L, ChainSeq s (s.mappingLo j) (s.mappingHi j) L ∧
    (∀ a ∈ L, blockOKbase s j a) ∧ (∀ a ∈ L, ¬ a = e → blockBucketOK s a)

/-- The allocator invariant with block `e` in limbo: `e` sits in no
bucket, and its free flag is not required to match bucket membership. -/
def InvExcept (s : AllocState) (e : Nat) : Prop :=
  (s.inited = false → s.mappingIndex = 0) ∧
  (∀ j, j < s.mappingIndex → mapOKx s e j) ∧
  bucketsOK s ∧ mappingsOK s ∧ freshHeadersOK s ∧
  (∀ i, ¬ e ∈ s.buckets i)

/-- The size `malloc_ n` hands to `mmap` when the buckets miss. -/
def mallocReq (n : Nat) : Nat := round_up_power_of_two (aligned n) MMAP_UNIT

/-- The page-source contract (spec section 4.7): a granted region is a
fresh range of writable pages — nonzero, within the 48-bit address space,
and disjoint from every registered mapping. -/
def oracleOK (s : AllocState) (req : Nat) (ans : Option Nat) : Prop :=
  ∀ m, ans = some m → 0 < m ∧ m + req ≤ SIZE48 ∧
    ∀ j, j < s.mappingIndex → m + req ≤ s.mappingLo j ∨ s.mappingHi j ≤ m

/-- The states reachable from process load through facade calls by a
contract-abiding client against a well-behaved page source. -/
inductive Reachable : AllocState → Prop
  | init : Reachable initialState
  | step_malloc (s : AllocState) (n : Nat) (ans : Option Nat) (hs : Reachable s)
      (hok : oracleOK s (mallocReq n) ans) : Reachable (malloc_ s n ans).2
  | step_free (s : AllocState) (p : Option Nat) (hs : Reachable s)
      (hp : validFreeArg s p) : Reachable (free_ s p)
  | step_calloc (s : AllocState) (num sz : Nat) (ans : Option Nat) (hs : Reachable s)
      (hok : oracleOK s (mallocReq (wrap64 (num * sz))) ans) :
      Reachable (calloc_ s num sz ans).2
  | step_realloc (s : AllocState) (p : Option Nat) (n : Nat) (ans : Option Nat) (hs : Reachable s)
      (hok : oracleOK s (mallocReq n) ans) (hp : validFreeArg s p) :
      Reachable (realloc_ s p n ans).2

/-- The shrink scenario: `acquire(64)` on a cold allocator, then
`resize(p, 8)` shrinking the block in place. -/
def coldMalloc64 : Option Nat × AllocState := malloc_ initialState 64 (some 4096)

/-- The state after the in-place shrink `resize(p, 8)`. -/
def shrunk : Option Nat × AllocState := realloc_ coldMalloc64.2 coldMalloc64.1 8 none

/-- Advertised size-class ranges, written from the spec's table (which
matches the comment block of malloc.c): class `i ≤ 127` holds exactly the
size 8·i; class `128 ≤ i ≤ 165` holds the sizes in
[2^(i−121)·8, 2^(i−120)·8). -/
def bucketRangeSpec (i s : Nat) : Prop :=
  (i ≤ 127 ∧ s = 8 * i) ∨ (128 ≤ i ∧ i ≤ 165 ∧ 2 ^ (i - 121) * 8 ≤ s ∧ s < 2 ^ (i - 120) * 8)

instance (i s : Nat) : Decidable (bucketRangeSpec i s) := by
  unfold bucketRangeSpec
  infer_instance

/-- The top-bit scan computes the base-2 logarithm once it starts at an
exponent below the logarithm and has fuel to reach it. -/
theorem log2scan_spec (sz : Nat) :
    ∀ fuel l, 2 ^ l ≤ sz → sz < 2 ^ (l + fuel + 1) → log2scan sz fuel l = Nat.log 2 sz := by
  intro fuel
  induction fuel with
  | zero =>
    intro l h1 h2
    have h2' : sz < 2 ^ (l + 1) := by simpa using h2
    exact (Nat.log_eq_of_pow_le_of_lt_pow h1 h2').symm
  | succ fuel ih =>
    intro l h1 h2
    show (if 0 < sz >>> (l + 1) then log2scan sz fuel (l + 1) else l) = _
    by_cases hc : 2 ^ (l + 1) ≤ sz
    · have hpos : 0 < sz >>> (l + 1) := by
        rw [Nat.shiftRight_eq_div_pow]
        exact (Nat.one_le_div_iff (by positivity)).mpr hc
      rw [if_pos hpos]
      have heq : l + 1 + fuel + 1 = l + (fuel + 1) + 1 := by omega
      exact ih (l + 1) hc (by rw [heq]; exact h2)
    · have hz : ¬ 0 < sz >>> (l + 1) := by
        rw [Nat.shiftRight_eq_div_pow, Nat.div_eq_of_lt (lt_of_not_ge hc)]
        exact lt_irrefl 0
      rw [if_neg hz]
      exact (Nat.log_eq_of_pow_le_of_lt_pow h1 (lt_of_not_ge hc)).symm

/-- bucket_index_from_size on sizes at least 1024 is 118 + ⌊log₂ size⌋. -/
theorem bucket_index_from_size_large (sz : Nat) (h1 : 1024 ≤ sz) (h2 : sz < 2 ^ 64) :
    bucket_index_from_size sz = Nat.log 2 sz + 118 := by
  have hn : ¬ sz < 1024 := not_lt.mpr h1
  have h10 : 2 ^ 10 ≤ sz := by norm_num at h1 ⊢; omega
  have hup : sz < 2 ^ (10 + 64 + 1) := lt_of_lt_of_le h2 (by norm_num)
  simp [bucket_index_from_size, hn, MEM_UNIT, log2scan_spec sz 64 10 h10 hup]

/-- Dividing by 8 lowers the base-2 logarithm by 3. -/
theorem log2_div_eight (sz : Nat) : Nat.log 2 (sz / 8) = Nat.log 2 sz - 3 := by
  have h8 : sz / 8 = sz / 2 / 2 / 2 := by
    rw [Nat.div_div_eq_div_mul, Nat.div_div_eq_div_mul]
  rw [h8, Nat.log_div_base, Nat.log_div_base, Nat.log_div_base]
  omega

/-- C5, counterexample: at size 4 (a positive size that is not a multiple
of 8), bucket_index(4) = 0, and 4 does not lie in the advertised range of
class 0 (whose only member is the size 0): the partition statement fails
for sizes that are not multiples of 8. -/
theorem claim_C5_counterexample :
    ¬ bucketRangeSpec (bucket_index_from_size 4) 4 := by decide

/-- C5, amended: for every block size s that is a positive multiple of 8
below 2^48 (every size the allocator ever files in a bucket),
bucket_index_from_size s equals s/8 when s < 1024 and 121 + ⌊log₂(s/8)⌋
otherwise, and s falls inside the advertised range of its class. -/
theorem claim_C5_amended (s : Nat) (hpos : 0 < s) (hdvd : 8 ∣ s) (hlt : s < 2 ^ 48) :
    bucket_index_from_size s = (if s < 1024 then s / 8 else 121 + Nat.log 2 (s / 8)) ∧
    bucketRangeSpec (bucket_index_from_size s) s := by
  by_cases hsmall : s < 1024
  · have hidx : bucket_index_from_size s = s / 8 := by
      simp [bucket_index_from_size, MEM_UNIT, hsmall]
    constructor
    · rw [hidx, if_pos hsmall]
    · left
      refine ⟨?_, ?_⟩
      · rw [hidx]; omega
      · rw [hidx, Nat.mul_div_cancel' hdvd]
  · have h1 : 1024 ≤ s := le_of_not_lt hsmall
    have h64 : s < 2 ^ 64 := lt_of_lt_of_le hlt (by norm_num)
    have hidx : bucket_index_from_size s = Nat.log 2 s + 118 :=
      bucket_index_from_size_large s h1 h64
    have hlog10 : 10 ≤ Nat.log 2 s := by
      have := Nat.le_log_of_pow_le (by norm_num) (show 2 ^ 10 ≤ s by norm_num; omega)
      exact this
    have hlog47 : Nat.log 2 s ≤ 47 := by
      have := Nat.log_lt_of_lt_pow (Nat.pos_iff_ne_zero.mp hpos) hlt
      omega
    constructor
    · rw [hidx, if_neg hsmall, log2_div_eight]
      omega
    · right
      have hlow : 2 ^ (Nat.log 2 s + 118 - 121) * 8 ≤ s := by
        have he : Nat.log 2 s + 118 - 121 + 3 = Nat.log 2 s := by omega
        calc 2 ^ (Nat.log 2 s + 118 - 121) * 8
            = 2 ^ (Nat.log 2 s + 118 - 121) * 2 ^ 3 := by norm_num
          _ = 2 ^ (Nat.log 2 s + 118 - 121 + 3) := by rw [pow_add]
          _ = 2 ^ Nat.log 2 s := by rw [he]
          _ ≤ s := Nat.pow_log_le_self 2 (Nat.pos_iff_ne_zero.mp hpos)
      have hhigh : s < 2 ^ (Nat.log 2 s + 118 - 120) * 8 := by
        have he : Nat.log 2 s + 118 - 120 + 3 = Nat.log 2 s + 1 := by omega
        calc s < 2 ^ (Nat.log 2 s + 1) := Nat.lt_pow_succ_log_self (by norm_num) s
          _ = 2 ^ (Nat.log 2 s + 118 - 120 + 3) := by rw [he]
          _ = 2 ^ (Nat.log 2 s + 118 - 120) * 2 ^ 3 := by rw [pow_add]
          _ = 2 ^ (Nat.log 2 s + 118 - 120) * 8 := by norm_num
      rw [hidx]
      exact ⟨by omega, by omega, hlow, hhigh⟩

/-- C5, witness: the amended claim instantiated at s = 4096. -/
theorem claim_C5_witness :
    (0 < 4096 ∧ (8 : Nat) ∣ 4096 ∧ 4096 < 2 ^ 48) ∧
    (bucket_index_from_size 4096 = (if 4096 < 1024 then 4096 / 8 else 121 + Nat.log 2 (4096 / 8)) ∧
     bucketRangeSpec (bucket_index_from_size 4096) 4096) :=
  ⟨⟨by decide, by decide, by decide⟩,
   claim_C5_amended 4096 (by decide) (by decide) (by decide)⟩

/-- The scan of a single bucket misses exactly when every node is too
small, provided no node carries the sentinel size 0 (which would stop the
scan early). -/
theorem bucket_loop_none_iff (s : AllocState) (w : Nat) (L : List Nat)
    (hpos : ∀ a ∈ L, 0 < blockSize s a) :
    bucket_loop s w L = none ↔ ∀ a ∈ L, blockSize s a < w := by
  induction L with
  | nil => simp [bucket_loop]
  | cons b rest ih =>
    have hb : 0 < blockSize s b := hpos b (List.mem_cons_self b rest)
    have hrest : ∀ a ∈ rest, 0 < blockSize s a :=
      fun a ha => hpos a (List.mem_cons_of_mem b ha)
    show (if 0 < blockSize s b then
            if w ≤ blockSize s b then some b else bucket_loop s w rest
          else none) = none ↔ _
    rw [if_pos hb]
    by_cases hwb : w ≤ blockSize s b
    · rw [if_pos hwb]
      simp only [List.mem_cons]
      constructor
      · intro h; exact absurd h (by simp)
      · intro h; exact absurd (h b (Or.inl rfl)) (not_lt.mpr hwb)
    · rw [if_neg hwb, ih hrest]
      simp only [List.mem_cons]
      constructor
      · intro h a ha
        rcases ha with rfl | ha
        · exact lt_of_not_ge hwb
        · exact h a ha
      · intro h a ha; exact h a (Or.inr ha)

/-- When the scan of a single bucket hits, the hit is the first node of
adequate size: all nodes before it are smaller than the request. -/
theorem bucket_loop_some (s : AllocState) (w : Nat) (L : List Nat) (a : Nat) :
    bucket_loop s w L = some a →
    w ≤ blockSize s a ∧
      ∃ pre post, L = pre ++ a :: post ∧ ∀ b ∈ pre, blockSize s b < w := by
  induction L with
  | nil => intro h; exact absurd h (by simp [bucket_loop])
  | cons b rest ih =>
    intro h
    rw [show bucket_loop s w (b :: rest) =
          (if 0 < blockSize s b then
            if w ≤ blockSize s b then some b else bucket_loop s w rest
          else none) from rfl] at h
    by_cases hb : 0 < blockSize s b
    · rw [if_pos hb] at h
      by_cases hwb : w ≤ blockSize s b
      · rw [if_pos hwb] at h
        cases h
        exact ⟨hwb, [], rest, rfl, by simp⟩
      · rw [if_neg hwb] at h
        obtain ⟨h1, pre, post, hsplit, hpre⟩ := ih h
        refine ⟨h1, b :: pre, post, by rw [hsplit]; rfl, ?_⟩
        intro c hc
        rcases List.mem_cons.mp hc with rfl | hc
        · exact lt_of_not_ge hwb
        · exact hpre c hc
    · rw [if_neg hb] at h
      exact absurd h (by simp)

/-- The outer bucket scan misses exactly when every bucket from the start
index up to 165 lacks an adequate node. -/
theorem gbfb_loop_none_iff (s : AllocState) (w : Nat)
    (hpos : ∀ i a, a ∈ s.buckets i → 0 < blockSize s a) :
    ∀ fuel i, NUM_BUCKETS ≤ i + fuel →
      (gbfb_loop s w fuel i = none ↔
        ∀ j, i ≤ j → j < NUM_BUCKETS → ∀ a ∈ s.buckets j, blockSize s a < w) := by
  intro fuel
  induction fuel with
  | zero =>
    intro i hcov
    simp only [gbfb_loop, true_iff]
    intro j h1 h2
    omega
  | succ fuel ih =>
    intro i hcov
    show (if i < NUM_BUCKETS then
            match get_block_from_bucket s i w with
            | some r => some r
            | none => gbfb_loop s w fuel (i + 1)
          else none) = none ↔ _
    by_cases hi : i < NUM_BUCKETS
    · rw [if_pos hi]
      rcases hcase : get_block_from_bucket s i w with _ | r
      · have hbl : bucket_loop s w (s.buckets i) = none := by
          by_contra hne
          rcases Option.ne_none_iff_exists'.mp hne with ⟨b, hb⟩
          rw [get_block_from_bucket, hb] at hcase
          exact absurd hcase (by simp)
        have hbi : ∀ a ∈ s.buckets i, blockSize s a < w :=
          (bucket_loop_none_iff s w (s.buckets i) (hpos i)).mp hbl
        rw [ih (i + 1) (by omega)]
        constructor
        · intro h j h1 h2 a ha
          rcases Nat.eq_or_lt_of_le h1 with rfl | h1'
          · exact hbi a ha
          · exact h j h1' h2 a ha
        · intro h j h1 h2 a ha
          exact h j (by omega) h2 a ha
      · simp only [hcase]
        constructor
        · intro h; exact absurd h (by simp)
        · intro h
          rw [get_block_from_bucket] at hcase
          rcases hbl : bucket_loop s w (s.buckets i) with _ | b
          · rw [hbl] at hcase; exact absurd hcase (by simp)
          · obtain ⟨h1, pre, post, hsplit, _⟩ := bucket_loop_some s w (s.buckets i) b hbl
            have hmem : b ∈ s.buckets i := by rw [hsplit]; simp
            exact absurd (h i le_rfl hi b hmem) (not_lt.mpr h1)
    · rw [if_neg hi]
      simp only [true_iff]
      intro j h1 h2
      omega

/-- When the outer bucket scan hits, the hit comes from the first bucket
in scan order holding an adequate node. -/
theorem gbfb_loop_some (s : AllocState) (w : Nat)
    (hpos : ∀ i a, a ∈ s.buckets i → 0 < blockSize s a) :
    ∀ fuel i a s', gbfb_loop s w fuel i = some (a, s') →
      ∃ j, i ≤ j ∧ j < NUM_BUCKETS ∧
        (∀ j', i ≤ j' → j' < j → ∀ b ∈ s.buckets j', blockSize s b < w) ∧
        bucket_loop s w (s.buckets j) = some a ∧
        (a, s') = adjusted_block (remove_from_bucket s a) a w := by
  intro fuel
  induction fuel with
  | zero => intro i a s' h; exact absurd h (by simp [gbfb_loop])
  | succ fuel ih =>
    intro i a s' h
    rw [show gbfb_loop s w (fuel + 1) i =
          (if i < NUM_BUCKETS then
            match get_block_from_bucket s i w with
            | some r => some r
            | none => gbfb_loop s w fuel (i + 1)
          else none) from rfl] at h
    by_cases hi : i < NUM_BUCKETS
    · rw [if_pos hi] at h
      rcases hcase : get_block_from_bucket s i w with _ | r
      · rw [hcase] at h
        obtain ⟨j, hj1, hj2, hearlier, hbl, hres⟩ := ih (i + 1) a s' h
        refine ⟨j, by omega, hj2, ?_, hbl, hres⟩
        intro j' h1 h2 b hb
        rcases Nat.eq_or_lt_of_le h1 with heq | h1'
        · subst heq
          rw [get_block_from_bucket] at hcase
          rcases hbl' : bucket_loop s w (s.buckets i) with _ | c
          · exact (bucket_loop_none_iff s w (s.buckets i) (hpos i)).mp hbl' b hb
          · rw [hbl'] at hcase; exact absurd hcase (by simp)
        · exact hearlier j' h1' h2 b hb
      · rw [hcase] at h
        have hr : r = (a, s') := Option.some_inj.mp h
        rw [get_block_from_bucket] at hcase
        rcases hbl : bucket_loop s w (s.buckets i) with _ | b
        · rw [hbl] at hcase; exact absurd hcase (by simp)
        · rw [hbl] at hcase
          have hrb : r = adjusted_block (remove_from_bucket s b) b w :=
            (Option.some_inj.mp hcase).symm
          have hab : (adjusted_block (remove_from_bucket s b) b w).1 = b := by
            rw [adjusted_block]
            by_cases hc : blockSize (remove_from_bucket s b) b < wrap64 (w + MIN_ALLOC)
            · rw [if_pos hc]
            · rw [if_neg hc]
          have key : (a, s') = adjusted_block (remove_from_bucket s b) b w := by
            rw [← hr]; exact hrb
          have hba : a = b := by
            rw [show a = (a, s').1 from rfl, key, hab]
          subst hba
          exact ⟨i, le_rfl, hi, by intro j' h1 h2; omega, hbl, key⟩
    · rw [if_neg hi] at h
      exact absurd h (by simp)

/-- C6: first_fit scans buckets from bucket_index(size) up to 165; it
returns none exactly when no bucket in that range holds a node of
adequate size; on a hit, the hit comes from the first bucket with an
adequate node and is the first (hence, under the sortedness invariant,
a minimum-size) adequate node of that bucket, and that node is removed
from its bucket (by remove_from_bucket) before adjusted_block runs and
the search returns.  `hpos` states that no bucket harbours a size-0 node,
which the sentinel-based scan would mistake for the list end. -/
theorem claim_C6 (s : AllocState) (w : Nat)
    (hpos : ∀ i a, a ∈ s.buckets i → 0 < blockSize s a) :
    (get_block_from_buckets s w = none ↔
      ∀ j, bucket_index_from_size w ≤ j → j < NUM_BUCKETS →
        ∀ a ∈ s.buckets j, blockSize s a < w) ∧
    (∀ a s', get_block_from_buckets s w = some (a, s') →
      ∃ j, bucket_index_from_size w ≤ j ∧ j < NUM_BUCKETS ∧
        (∀ j', bucket_index_from_size w ≤ j' → j' < j →
          ∀ b ∈ s.buckets j', blockSize s b < w) ∧
        (∃ pre post, s.buckets j = pre ++ a :: post ∧
          (∀ b ∈ pre, blockSize s b < w) ∧ w ≤ blockSize s a) ∧
        (List.Pairwise (fun x y => blockSize s x ≤ blockSize s y) (s.buckets j) →
          ∀ b ∈ s.buckets j, w ≤ blockSize s b → blockSize s a ≤ blockSize s b) ∧
        (remove_from_bucket s a).buckets j = (s.buckets j).erase a ∧
        (a, s') = adjusted_block (remove_from_bucket s a) a w) := by
  constructor
  · exact gbfb_loop_none_iff s w hpos NUM_BUCKETS (bucket_index_from_size w) (by omega)
  · intro a s' h
    obtain ⟨j, hj1, hj2, hearlier, hbl, hres⟩ :=
      gbfb_loop_some s w hpos NUM_BUCKETS (bucket_index_from_size w) a s' h
    obtain ⟨hwa, pre, post, hsplit, hpre⟩ := bucket_loop_some s w (s.buckets j) a hbl
    refine ⟨j, hj1, hj2, hearlier, ⟨pre, post, hsplit, hpre, hwa⟩, ?_, rfl, hres⟩
    intro hsorted b hb hwb
    rw [hsplit] at hsorted hb
    rcases List.mem_append.mp hb with hb | hb
    · exact absurd (hpre b hb) (not_lt.mpr hwb)
    · rcases List.mem_cons.mp hb with rfl | hb
      · exact le_rfl
      · have := List.pairwise_append.mp hsorted
        exact (List.pairwise_cons.mp this.2.1).1 b hb

/-- C6, witness: on a state holding a single free block of size 32, a
request of 64 misses every bucket. -/
theorem claim_C6_witness : get_block_from_buckets searchState 64 = none := by
  have hpos : ∀ i a, a ∈ searchState.buckets i → 0 < blockSize searchState a := by
    intro i a h
    by_cases h4 : i = 4
    · subst h4
      simp only [searchState, if_pos rfl] at h
      rw [List.mem_singleton.mp h]
      decide
    · simp only [searchState, if_neg h4] at h
      exact absurd h (List.not_mem_nil a)
  refine (claim_C6 searchState 64 hpos).1.mpr ?_
  intro j h1 h2 a ha
  by_cases h4 : j = 4
  · subst h4
    simp only [searchState, if_pos rfl] at ha
    rw [List.mem_singleton.mp ha]
    decide
  · simp only [searchState, if_neg h4] at ha
    exact absurd ha (List.not_mem_nil a)

/-- C1: the failing input evaluated.  `resize(p, 131072)` on the cold
8-byte allocation with a refusing page source returns null, but the
original block behind `p` has been released: its free flag is set and it
sits (coalesced with the whole mapping) in bucket 135 — the code calls
`free_(ptr)` even when the internal acquire failed, contradicting the
documented (POSIX) behaviour of leaving the block untouched. -/
theorem claim_C1_code_bug_eval :
    reallocFail.1 = none ∧
    (getHeader reallocFail.2 4096).free = true ∧
    reallocFail.2.buckets 135 = [4096] ∧
    reallocFail.2.errno = ENOMEM := by decide

/-- C2, counterexample: on the cold allocator, `acquire(8)` returns the
pointer 4096+8, but the underlying block has total size 32, not 24 as the
claim states (MIN_ALLOC = sizeof(header_t) + sizeof(footer_t) = 24 + 8). -/
theorem claim_C2_counterexample :
    coldMalloc8.1 = some (4096 + METADATA_OFFSET) ∧
    ¬ blockSize coldMalloc8.2 4096 = 24 := by decide

/-- C2, amended: on the cold allocator `acquire(8)` returns a pointer
whose underlying block has total size 32 (= MIN_ALLOC), and a free tail
block of 131072 − 32 bytes exists in the bucket of its size class. -/
theorem claim_C2_amended :
    coldMalloc8.1 = some (4096 + METADATA_OFFSET) ∧
    blockSize coldMalloc8.2 4096 = MIN_ALLOC ∧
    blockSize coldMalloc8.2 (4096 + MIN_ALLOC) = MMAP_UNIT - MIN_ALLOC ∧
    (getHeader coldMalloc8.2 (4096 + MIN_ALLOC)).free = true ∧
    coldMalloc8.2.buckets (bucket_index_from_size (MMAP_UNIT - MIN_ALLOC)) = [4096 + MIN_ALLOC] := by
  decide

/-- C3, counterexample: `acquire(50)` on a state whose mapping registry is
at its 2^15-entry capacity (prior errno 5, page source granting address 8)
returns null because the registry is full, yet errno keeps its prior
value 5 — it is NOT set to ENOMEM. -/
theorem claim_C3_counterexample :
    fullStateMalloc.1 = none ∧
    fullStateMalloc.2.errno = 5 ∧
    ¬ (5 : Nat) = ENOMEM := by decide

/-- C3, amended: when the page source rejects the map, `get_mapping`
returns null with errno set to ENOMEM; when the mapping registry is at
its 2^15-entry capacity (and the granted region is not adjacent to the
previous mapping), `get_mapping` returns null with the state — errno
included — left unchanged. -/
theorem claim_C3_amended (s s' : AllocState) (sz sz' a : Nat)
    (hfull : s.mappingIndex = NUM_MAPPINGS)
    (hnadj : ¬ a = s.mappingHi (s.mappingIndex - 1)) :
    get_mapping s' sz' none = (none, { s' with errno := ENOMEM }) ∧
    get_mapping s sz (some a) = (none, s) := by
  refine ⟨rfl, ?_⟩
  have h1 : ¬ (0 < s.mappingIndex ∧ a = s.mappingHi (s.mappingIndex - 1)) := by
    exact fun h => hnadj h.2
  simp only [get_mapping]
  rw [if_neg h1, if_pos hfull]

/-- C3, witness for the amended theorem at a concrete full-registry state. -/
theorem claim_C3_witness :
    get_mapping initialState 4096 none = (none, { initialState with errno := ENOMEM }) ∧
    get_mapping fullState 4096 (some 8) = (none, fullState) :=
  claim_C3_amended fullState initialState 4096 4096 8 (by decide) (by decide)

/-- C4, counterexample: `resize(p, 0)` on the cold 8-byte allocation
returns null and releases the block, but the size-0 path DOES raise an
error: errno, previously 0, is set to EINVAL by the inner `acquire(0)`. -/
theorem claim_C4_counterexample :
    resizeZero.1 = none ∧
    coldMalloc8.2.errno = 0 ∧
    resizeZero.2.errno = EINVAL := by decide

/-- C4, amended: for every state, pointer (null or not) and page-source
answer, `resize(p, 0)` behaves as `release(p)` followed by `acquire(0)`:
it releases the block behind `p`, returns null, and sets the error
channel to EINVAL (the invalid-argument code raised by size-0 acquire). -/
theorem claim_C4_amended (s : AllocState) (p : Option Nat) (ans : Option Nat) :
    realloc_ s p 0 ans = (none, { free_ s p with errno := EINVAL }) := by
  cases p <;> simp [realloc_, malloc_, free_]

/-- C10: for every state and every `num > 0`, `acquire_zero(num, 0)`
returns null with errno set to EINVAL and the state otherwise unchanged:
the zero product passes the overflow guard of `calloc_`, and the inner
`malloc_(0)` rejects the total size 0 before touching any allocator
state. -/
theorem claim_C10 (s : AllocState) (num : Nat) (ans : Option Nat) (h : 0 < num) :
    calloc_ s num 0 ans = (none, { s with errno := EINVAL }) := by
  have hnum : ¬ num = 0 := Nat.pos_iff_ne_zero.mp h
  simp [calloc_, hnum, wrap64, malloc_]

/-- C10, witness: `acquire_zero(7, 0)` on the pristine state. -/
theorem claim_C10_witness :
    0 < 7 ∧ calloc_ initialState 7 0 none = (none, { initialState with errno := EINVAL }) :=
  ⟨by decide, claim_C10 initialState 7 none (by decide)⟩

/-- C9: on the cold allocator (page source granting address 4096), the
sequence `p := acquire(8); release(p); q := acquire(8)` yields `q = p`:
the release coalesces p's block with the free tail back into the
whole-mapping block of size 131072 (sitting alone in bucket 135), and the
second acquire re-splits that block at the same address. -/
theorem claim_C9 :
    coldMalloc8.1 = some 4104 ∧
    afterFree.buckets 135 = [4096] ∧
    blockSize afterFree 4096 = MMAP_UNIT ∧
    secondMalloc8.1 = some 4104 := by decide

theorem wrap64_eq_of_lt {n : Nat} (h : n < U64) : wrap64 n = n := Nat.mod_eq_of_lt h

theorem sub64_eq_of_le {a b : Nat} (hb : b ≤ a) (ha : a < U64) : sub64 a b = a - b := by
  unfold sub64
  have hbu : b < U64 := lt_of_le_of_lt hb ha
  rw [Nat.mod_eq_of_lt hbu]
  have h2 : a + (U64 - b) = U64 + (a - b) := by omega
  rw [h2, Nat.add_mod_left]
  exact Nat.mod_eq_of_lt (by omega)

theorem mod48_eq_of_lt {n : Nat} (h : n < SIZE48) : n % SIZE48 = n := Nat.mod_eq_of_lt h

theorem SIZE48_lt_U64 : SIZE48 < U64 := by norm_num [SIZE48, U64]

theorem getHeader_setHeaderSize (s : AllocState) (a v x : Nat) :
    getHeader (setHeaderSize s a v) x =
      if x = a then { getHeader s a with size := v % SIZE48 } else getHeader s x := by
  by_cases h : x = a <;> simp [getHeader, setHeaderSize, h]

theorem getHeader_setHeaderMapping (s : AllocState) (a v x : Nat) :
    getHeader (setHeaderMapping s a v) x =
      if x = a then { getHeader s a with mapping := v % MAP15 } else getHeader s x := by
  by_cases h : x = a <;> simp [getHeader, setHeaderMapping, h]

theorem getHeader_setHeaderFree (s : AllocState) (a : Nat) (v : Bool) (x : Nat) :
    getHeader (setHeaderFree s a v) x =
      if x = a then { getHeader s a with free := v } else getHeader s x := by
  by_cases h : x = a <;> simp [getHeader, setHeaderFree, h]

theorem getHeader_setFooter (s : AllocState) (a v x : Nat) :
    getHeader (setFooter s a v) x = getHeader s x := rfl

theorem blockSize_setHeaderSize (s : AllocState) (a v x : Nat) :
    blockSize (setHeaderSize s a v) x = if x = a then v % SIZE48 else blockSize s x := by
  unfold blockSize
  rw [getHeader_setHeaderSize]
  by_cases h : x = a <;> simp [h]

theorem blockSize_setHeaderMapping (s : AllocState) (a v x : Nat) :
    blockSize (setHeaderMapping s a v) x = blockSize s x := by
  unfold blockSize
  rw [getHeader_setHeaderMapping]
  by_cases h : x = a <;> simp [h]

theorem blockSize_setHeaderFree (s : AllocState) (a : Nat) (v : Bool) (x : Nat) :
    blockSize (setHeaderFree s a v) x = blockSize s x := by
  unfold blockSize
  rw [getHeader_setHeaderFree]
  by_cases h : x = a <;> simp [h]

theorem blockSize_update_size (s : AllocState) (a sz x : Nat) :
    blockSize (update_size s a sz) x = if x = a then sz % SIZE48 else blockSize s x := by
  unfold update_size
  rw [blockSize_setHeaderSize]
  by_cases h : x = a <;> simp [h, blockSize, getHeader, setFooter]

theorem free_update_size (s : AllocState) (a sz x : Nat) :
    (getHeader (update_size s a sz) x).free = (getHeader s x).free := by
  unfold update_size
  rw [getHeader_setHeaderSize]
  by_cases h : x = a <;> simp [h, getHeader_setFooter]

theorem mapping_update_size (s : AllocState) (a sz x : Nat) :
    (getHeader (update_size s a sz) x).mapping = (getHeader s x).mapping := by
  unfold update_size
  rw [getHeader_setHeaderSize]
  by_cases h : x = a <;> simp [h, getHeader_setFooter]

theorem footers_update_size (s : AllocState) (a sz y : Nat) :
    (update_size s a sz).footers y =
      if y = sub64 (wrap64 (a + sz)) FOOTER_SIZE then some (sz % U64) else s.footers y := rfl

theorem buckets_update_size (s : AllocState) (a sz : Nat) :
    (update_size s a sz).buckets = s.buckets := rfl

theorem maps_update_size (s : AllocState) (a sz : Nat) :
    (update_size s a sz).mappingIndex = s.mappingIndex ∧
    (update_size s a sz).mappingLo = s.mappingLo ∧
    (update_size s a sz).mappingHi = s.mappingHi := ⟨rfl, rfl, rfl⟩

theorem footer_addr_norm {a sz : Nat} (h8 : FOOTER_SIZE ≤ a + sz) (hu : a + sz < U64) :
    sub64 (wrap64 (a + sz)) FOOTER_SIZE = a + sz - FOOTER_SIZE := by
  rw [wrap64_eq_of_lt hu, sub64_eq_of_le h8 hu]

theorem buckets_remove_from_bucket (s : AllocState) (a x : Nat) :
    (remove_from_bucket s a).buckets x = (s.buckets x).erase a := rfl

theorem getHeader_remove_from_bucket (s : AllocState) (a x : Nat) :
    getHeader (remove_from_bucket s a) x = getHeader s x := rfl

theorem buckets_insert_into_bucket (s : AllocState) (a i x : Nat) :
    (insert_into_bucket s a i).buckets x =
      if x = i then insert_walk s a (blockSize s a) (s.buckets i) else s.buckets x := rfl

theorem getHeader_insert_into_bucket (s : AllocState) (a i x : Nat) :
    getHeader (insert_into_bucket s a i) x =
      if x = a then { getHeader s a with free := true } else getHeader s x := by
  simp only [insert_into_bucket]
  rw [getHeader_setHeaderFree]
  by_cases h : x = a <;> simp [h, getHeader]

theorem blockSize_insert_into_bucket (s : AllocState) (a i x : Nat) :
    blockSize (insert_into_bucket s a i) x = blockSize s x := by
  unfold blockSize
  rw [getHeader_insert_into_bucket]
  by_cases h : x = a <;> simp [h]

theorem footers_insert_into_bucket (s : AllocState) (a i : Nat) :
    (insert_into_bucket s a i).footers = s.footers := rfl

theorem chainSeq_le {s : AllocState} {a c : Nat} {L : List Nat}
    (h : ChainSeq s a c L) : a ≤ c := by
  induction h with
  | nil => exact le_rfl
  | cons a c L hpos hrest ih => omega

theorem chainSeq_nil_inv {s : AllocState} {a c : Nat}
    (h : ChainSeq s a c []) : a = c := by
  cases h
  rfl

theorem chainSeq_cons_inv {s : AllocState} {a c x : Nat} {L : List Nat}
    (h : ChainSeq s a c (x :: L)) :
    x = a ∧ 0 < blockSize s a ∧ ChainSeq s (a + blockSize s a) c L := by
  cases h with
  | cons _ _ _ hpos hrest => exact ⟨rfl, hpos, hrest⟩

theorem chainSeq_mem_bounds {s : AllocState} {lo hi : Nat} {L : List Nat}
    (h : ChainSeq s lo hi L) :
    ∀ x ∈ L, lo ≤ x ∧ 0 < blockSize s x ∧ x + blockSize s x ≤ hi := by
  induction h with
  | nil => intro x hx; exact absurd hx (List.not_mem_nil x)
  | cons a c L hpos hrest ih =>
    intro x hx
    rcases List.mem_cons.mp hx with rfl | hx
    · exact ⟨le_rfl, hpos, chainSeq_le hrest⟩
    · obtain ⟨h1, h2, h3⟩ := ih x hx
      exact ⟨by omega, h2, h3⟩

theorem chainSeq_congr {s s' : AllocState} {a c : Nat} {L : List Nat}
    (h : ChainSeq s a c L) (hsz : ∀ x ∈ L, blockSize s' x = blockSize s x) :
    ChainSeq s' a c L := by
  induction h with
  | nil => exact ChainSeq.nil _
  | cons a c L hpos hrest ih =>
    have ha : blockSize s' a = blockSize s a := hsz a (List.mem_cons_self a L)
    refine ChainSeq.cons a c L (by rw [ha]; exact hpos) ?_
    rw [ha]
    exact ih fun x hx => hsz x (List.mem_cons_of_mem a hx)

theorem chainSeq_append {s : AllocState} {a b c : Nat} {L1 L2 : List Nat}
    (h1 : ChainSeq s a b L1) (h2 : ChainSeq s b c L2) :
    ChainSeq s a c (L1 ++ L2) := by
  induction h1 with
  | nil => exact h2
  | cons a b L hpos hrest ih => exact ChainSeq.cons _ _ _ hpos (ih h2)

theorem chainSeq_split {s : AllocState} {lo hi a : Nat} {L : List Nat}
    (h : ChainSeq s lo hi L) (ha : a ∈ L) :
    ∃ L1 L2, L = L1 ++ a :: L2 ∧ ChainSeq s lo a L1 ∧ 0 < blockSize s a ∧
      ChainSeq s (a + blockSize s a) hi L2 := by
  induction h with
  | nil => exact absurd ha (List.not_mem_nil a)
  | cons b c L hpos hrest ih =>
    rcases List.mem_cons.mp ha with rfl | ha
    · exact ⟨[], L, rfl, ChainSeq.nil a, hpos, hrest⟩
    · obtain ⟨L1, L2, hsplit, hc1, hc2, hc3⟩ := ih ha
      exact ⟨b :: L1, L2, by rw [hsplit]; rfl,
        ChainSeq.cons _ _ _ hpos hc1, hc2, hc3⟩

theorem chainSeq_pairwise_lt {s : AllocState} {a c : Nat} {L : List Nat}
    (h : ChainSeq s a c L) : L.Pairwise (· < ·) := by
  induction h with
  | nil => exact List.Pairwise.nil
  | cons a c L hpos hrest ih =>
    refine List.pairwise_cons.mpr ⟨?_, ih⟩
    intro b hb
    have := (chainSeq_mem_bounds hrest) b hb
    omega

theorem chainSeq_nodup {s : AllocState} {a c : Nat} {L : List Nat}
    (h : ChainSeq s a c L) : L.Nodup :=
  (chainSeq_pairwise_lt h).imp Nat.ne_of_lt

theorem chainSeq_unique {s : AllocState} {a c : Nat} {L L' : List Nat}
    (h : ChainSeq s a c L) (h' : ChainSeq s a c L') : L = L' := by
  induction h generalizing L' with
  | nil =>
    cases h' with
    | nil => rfl
    | cons _ _ L'' hpos hrest =>
      have := chainSeq_le hrest
      omega
  | cons a c L hpos hrest ih =>
    cases h' with
    | nil =>
      have := chainSeq_le hrest
      omega
    | cons _ _ L'' hpos' hrest' =>
      rw [ih hrest']

theorem chainSeq_pairwise_end_le {s : AllocState} {a c : Nat} {L : List Nat}
    (h : ChainSeq s a c L) : L.Pairwise (fun x y => x + blockSize s x ≤ y) := by
  induction h with
  | nil => exact List.Pairwise.nil
  | cons a c L hpos hrest ih =>
    refine List.pairwise_cons.mpr ⟨?_, ih⟩
    intro b hb
    have := (chainSeq_mem_bounds hrest) b hb
    omega

theorem chainSeq_last {s : AllocState} {lo mid : Nat} {L : List Nat}
    (h : ChainSeq s lo mid L) (hne : L ≠ []) :
    ∃ L0 x, L = L0 ++ [x] ∧ x + blockSize s x = mid ∧ ChainSeq s lo x L0 := by
  induction h with
  | nil => exact absurd rfl hne
  | cons a c L hpos hrest ih =>
    cases L with
    | nil =>
      have := chainSeq_nil_inv hrest
      exact ⟨[], a, rfl, this, ChainSeq.nil a⟩
    | cons y L' =>
      obtain ⟨L0, x, hsplit, hend, hc⟩ := ih (List.cons_ne_nil y L')
      exact ⟨a :: L0, x, by rw [hsplit, List.cons_append], hend,
        ChainSeq.cons _ _ _ hpos hc⟩

theorem mem_insert_walk (s : AllocState) (a w : Nat) (L : List Nat) (x : Nat) :
    x ∈ insert_walk s a w L ↔ x = a ∨ x ∈ L := by
  induction L with
  | nil => simp [insert_walk]
  | cons b rest ih =>
    show x ∈ (if blockSize s b = 0 ∨ w < blockSize s b then a :: b :: rest
              else b :: insert_walk s a w rest) ↔ _
    by_cases hc : blockSize s b = 0 ∨ w < blockSize s b
    · rw [if_pos hc]; simp
    · rw [if_neg hc]
      simp only [List.mem_cons, ih]
      tauto

theorem insert_walk_sorted (s s' : AllocState) (a w : Nat) (L : List Nat)
    (hw : blockSize s' a = w)
    (hmem : ∀ b ∈ L, blockSize s' b = blockSize s b)
    (hpos : ∀ b ∈ L, 0 < blockSize s b)
    (hsorted : L.Pairwise (fun x y => blockSize s x ≤ blockSize s y)) :
    (insert_walk s a w L).Pairwise (fun x y => blockSize s' x ≤ blockSize s' y) := by
  induction L with
  | nil => simp [insert_walk]
  | cons b rest ih =>
    have hb : 0 < blockSize s b := hpos b (List.mem_cons_self b rest)
    have hb' : blockSize s' b = blockSize s b := hmem b (List.mem_cons_self b rest)
    have hsorted' := List.pairwise_cons.mp hsorted
    have hmem' : ∀ x ∈ rest, blockSize s' x = blockSize s x :=
      fun x hx => hmem x (List.mem_cons_of_mem b hx)
    show (if blockSize s b = 0 ∨ w < blockSize s b then a :: b :: rest
          else b :: insert_walk s a w rest).Pairwise _
    by_cases hc : blockSize s b = 0 ∨ w < blockSize s b
    · rw [if_pos hc]
      have hwb : w < blockSize s b := by
        rcases hc with hc | hc
        · omega
        · exact hc
      refine List.pairwise_cons.mpr ⟨?_, ?_⟩
      · intro y hy
        rcases List.mem_cons.mp hy with rfl | hy
        · rw [hw, hb']; omega
        · have := hsorted'.1 y hy
          rw [hw, hmem' y hy]; omega
      · refine List.pairwise_cons.mpr ⟨?_, ?_⟩
        · intro y hy
          have := hsorted'.1 y hy
          rw [hb', hmem' y hy]; omega
        · exact hsorted'.2.imp_of_mem (fun {x y} hx hy hxy => by
            rw [hmem' x hx, hmem' y hy]; exact hxy)
    · rw [if_neg hc]
      push_neg at hc
      refine List.pairwise_cons.mpr ⟨?_, ?_⟩
      · intro y hy
        rcases (mem_insert_walk s a w rest y).mp hy with rfl | hy
        · rw [hw, hb']; exact hc.2
        · have := hsorted'.1 y hy
          rw [hb', hmem' y hy]; exact this
      · exact ih hmem' (fun x hx => hpos x (List.mem_cons_of_mem b hx)) hsorted'.2

theorem insert_walk_nodup (s : AllocState) (a w : Nat) (L : List Nat)
    (ha : a ∉ L) (h : L.Nodup) : (insert_walk s a w L).Nodup := by
  induction L with
  | nil => simp [insert_walk]
  | cons b rest ih =>
    have hab : ¬ b = a := fun hba => ha (by rw [← hba]; exact List.mem_cons_self b rest)
    have ha' : a ∉ rest := fun hmem => ha (List.mem_cons_of_mem b hmem)
    have h' := List.nodup_cons.mp h
    show (if blockSize s b = 0 ∨ w < blockSize s b then a :: b :: rest
          else b :: insert_walk s a w rest).Nodup
    by_cases hc : blockSize s b = 0 ∨ w < blockSize s b
    · rw [if_pos hc]
      refine List.nodup_cons.mpr ⟨?_, h⟩
      intro hmem
      rcases List.mem_cons.mp hmem with heq | hmem
      · exact hab heq.symm
      · exact ha' hmem
    · rw [if_neg hc]
      refine List.nodup_cons.mpr ⟨?_, ih ha' h'.2⟩
      intro hmem
      rcases (mem_insert_walk s a w rest b).mp hmem with heq | hmem
      · exact hab heq
      · exact h'.1 hmem

theorem insert_walk_position (s : AllocState) (a w : Nat) (L : List Nat)
    (hpos : ∀ b ∈ L, 0 < blockSize s b)
    (hsorted : L.Pairwise (fun x y => blockSize s x ≤ blockSize s y)) :
    ∃ L1 L2, L = L1 ++ L2 ∧ insert_walk s a w L = L1 ++ a :: L2 ∧
      (∀ b ∈ L1, blockSize s b ≤ w) ∧ (∀ b ∈ L2, w < blockSize s b) := by
  induction L with
  | nil =>
    refine ⟨[], [], rfl, rfl, ?_, ?_⟩ <;>
      exact fun b hb => absurd hb (List.not_mem_nil b)
  | cons b rest ih =>
    have hb : 0 < blockSize s b := hpos b (List.mem_cons_self b rest)
    have hsorted' := List.pairwise_cons.mp hsorted
    by_cases hc : blockSize s b = 0 ∨ w < blockSize s b
    · have hiw : insert_walk s a w (b :: rest) = a :: b :: rest := by
        show (if blockSize s b = 0 ∨ w < blockSize s b then a :: b :: rest
              else b :: insert_walk s a w rest) = _
        rw [if_pos hc]
      have hwb : w < blockSize s b := by
        rcases hc with hc | hc
        · omega
        · exact hc
      refine ⟨[], b :: rest, rfl, hiw, fun c hc' => absurd hc' (List.not_mem_nil c), ?_⟩
      intro c hc'
      rcases List.mem_cons.mp hc' with rfl | hc'
      · exact hwb
      · have := hsorted'.1 c hc'
        omega
    · have hiw : insert_walk s a w (b :: rest) = b :: insert_walk s a w rest := by
        show (if blockSize s b = 0 ∨ w < blockSize s b then a :: b :: rest
              else b :: insert_walk s a w rest) = _
        rw [if_neg hc]
      push_neg at hc
      obtain ⟨L1, L2, hL, hins, h1, h2⟩ :=
        ih (fun x hx => hpos x (List.mem_cons_of_mem b hx)) hsorted'.2
      refine ⟨b :: L1, L2, by rw [List.cons_append, ← hL], ?_, ?_, h2⟩
      · rw [hiw, hins, List.cons_append]
      · intro c hc'
        rcases List.mem_cons.mp hc' with rfl | hc'
        · exact hc.2
        · exact h1 c hc'

theorem aligned_ge (n : Nat) : MIN_ALLOC ≤ aligned n := by
  unfold aligned
  by_cases h : MIN_ALLOC ≤ wrap64 (round_up_power_of_two n MEM_UNIT + (METADATA_OFFSET + FOOTER_SIZE))
  · simp [h]
  · simp [h]

theorem aligned_dvd (n : Nat) : MEM_UNIT ∣ aligned n := by
  unfold aligned
  have hr : MEM_UNIT ∣ round_up_power_of_two n MEM_UNIT := by
    unfold round_up_power_of_two
    exact dvd_mul_left _ _
  have hru : (MEM_UNIT : Nat) ∣ U64 := by norm_num [MEM_UNIT, U64]
  have hr2 : MEM_UNIT ∣ wrap64 (round_up_power_of_two n MEM_UNIT + (METADATA_OFFSET + FOOTER_SIZE)) := by
    unfold wrap64
    rw [Nat.dvd_mod_iff hru]
    exact Nat.dvd_add hr (by norm_num [MEM_UNIT, METADATA_OFFSET, FOOTER_SIZE])
  by_cases h : MIN_ALLOC ≤ wrap64 (round_up_power_of_two n MEM_UNIT + (METADATA_OFFSET + FOOTER_SIZE))
  · simpa [h] using hr2
  · simp [h]
    decide

theorem aligned_lt_U64 (n : Nat) : aligned n < U64 := by
  unfold aligned
  have h1 : wrap64 (round_up_power_of_two n MEM_UNIT + (METADATA_OFFSET + FOOTER_SIZE)) < U64 :=
    Nat.mod_lt _ (by norm_num [U64])
  by_cases h : MIN_ALLOC ≤ wrap64 (round_up_power_of_two n MEM_UNIT + (METADATA_OFFSET + FOOTER_SIZE))
  · simpa [h] using h1
  · simp [h]
    decide

theorem MIN_ALLOC_eq : MIN_ALLOC = 32 := rfl

theorem MEM_UNIT_eq : MEM_UNIT = 8 := rfl

theorem free_setHeaderFree (s : AllocState) (e : Nat) (v : Bool) (x : Nat) :
    (getHeader (setHeaderFree s e v) x).free = if x = e then v else (getHeader s x).free := by
  rw [getHeader_setHeaderFree]
  by_cases h : x = e <;> simp [h]

theorem mapping_setHeaderFree (s : AllocState) (e : Nat) (v : Bool) (x : Nat) :
    (getHeader (setHeaderFree s e v) x).mapping = (getHeader s x).mapping := by
  rw [getHeader_setHeaderFree]
  by_cases h : x = e <;> simp [h]

theorem headers_setHeaderFree_ne (s : AllocState) (e : Nat) (v : Bool) {x : Nat}
    (h : ¬ x = e) : (setHeaderFree s e v).headers x = s.headers x := by
  simp [setHeaderFree, h]

theorem mappingsOK_congr {s s' : AllocState} (h : mappingsOK s)
    (hidx : s'.mappingIndex = s.mappingIndex)
    (hlo : s'.mappingLo = s.mappingLo) (hhi : s'.mappingHi = s.mappingHi) :
    mappingsOK s' := by
  unfold mappingsOK at h ⊢
  rw [hidx, hlo, hhi]
  exact h

theorem bucketsOK_congr {s s' : AllocState} (h : bucketsOK s)
    (hb : ∀ i, s'.buckets i = s.buckets i)
    (hsz : ∀ x, blockSize s' x = blockSize s x)
    (hidx : s'.mappingIndex = s.mappingIndex)
    (hlo : s'.mappingLo = s.mappingLo) (hhi : s'.mappingHi = s.mappingHi) :
    bucketsOK s' := by
  intro i
  obtain ⟨hmem, hsort, hnd⟩ := h i
  refine ⟨?_, ?_, ?_⟩
  · intro a ha
    rw [hb i] at ha
    obtain ⟨hia, j, L, hj, hc, haL⟩ := hmem a ha
    refine ⟨by rw [hsz a]; exact hia, j, L, by rw [hidx]; exact hj, ?_, haL⟩
    rw [hlo, hhi]
    exact chainSeq_congr hc (fun x _ => hsz x)
  · rw [hb i]
    exact hsort.imp (fun {x y} hxy => by rw [hsz x, hsz y]; exact hxy)
  · rw [hb i]
    exact hnd

theorem freshHeadersOK_write {s s' : AllocState} (h : freshHeadersOK s) (e j : Nat)
    (hj : j < s.mappingIndex) (hin : s.mappingLo j ≤ e ∧ e < s.mappingHi j)
    (hh : ∀ x, ¬ x = e → s'.headers x = s.headers x)
    (hidx : s'.mappingIndex = s.mappingIndex) (hlo : s'.mappingLo = s.mappingLo)
    (hhi : s'.mappingHi = s.mappingHi) : freshHeadersOK s' := by
  intro x hx
  by_cases hxe : x = e
  · exfalso
    subst hxe
    have := hx j (by rw [hidx]; exact hj)
    rw [hlo, hhi] at this
    omega
  · rw [hh x hxe]
    refine h x ?_
    intro k hk
    have := hx k (by rw [hidx]; exact hk)
    rw [hlo, hhi] at this
    exact this

theorem freshHeadersOK_congr {s s' : AllocState} (h : freshHeadersOK s)
    (hh : ∀ x, s'.headers x = s.headers x)
    (hidx : s'.mappingIndex = s.mappingIndex) (hlo : s'.mappingLo = s.mappingLo)
    (hhi : s'.mappingHi = s.mappingHi) : freshHeadersOK s' := by
  intro x hx
  rw [hh x]
  refine h x ?_
  intro k hk
  have := hx k (by rw [hidx]; exact hk)
  rw [hlo, hhi] at this
  exact this

theorem inv_chain_spec {s : AllocState} (hInv : Inv s) {j : Nat} (hj : j < s.mappingIndex)
    {L : List Nat} (hc : ChainSeq s (s.mappingLo j) (s.mappingHi j) L) :
    ∀ a ∈ L, blockOKbase s j a ∧ blockBucketOK s a := by
  obtain ⟨L', hc', hbase, hbb⟩ := (hInv.2.1 j hj).2.2.2
  rw [chainSeq_unique hc hc']
  exact fun a ha => ⟨hbase a ha, hbb a ha⟩

theorem inv_valid_block {s : AllocState} (hInv : Inv s) {a : Nat} (hval : validBlock s a) :
    ∃ j, j < s.mappingIndex ∧ blockOKbase s j a ∧ blockBucketOK s a ∧
      s.mappingLo j ≤ a ∧ a + blockSize s a ≤ s.mappingHi j ∧ 0 < blockSize s a := by
  obtain ⟨j, L, hj, hc, haL⟩ := hval
  have hspec := inv_chain_spec hInv hj hc a haL
  have hbnd := chainSeq_mem_bounds hc a haL
  exact ⟨j, hj, hspec.1, hspec.2, hbnd.1, hbnd.2.2, hbnd.2.1⟩

theorem inv_bucket_member {s : AllocState} (hInv : Inv s) {i a : Nat}
    (ha : a ∈ s.buckets i) :
    bucket_index_from_size (blockSize s a) = i ∧ validBlock s a ∧
    (getHeader s a).free = true ∧ MIN_ALLOC ≤ blockSize s a := by
  obtain ⟨hia, j, L, hj, hc, haL⟩ := (hInv.2.2.1 i).1 a ha
  have hspec := inv_chain_spec hInv hj hc a haL
  refine ⟨hia, ⟨j, L, hj, hc, haL⟩, ?_, hspec.1.1⟩
  exact hspec.2.mpr (by rw [hia]; exact ha)

theorem inv_bucket_pos {s : AllocState} (hInv : Inv s) :
    ∀ i a, a ∈ s.buckets i → 0 < blockSize s a := by
  intro i a ha
  have := (inv_bucket_member hInv ha).2.2.2
  rw [MIN_ALLOC_eq] at this
  omega

theorem Inv_to_InvExcept {s : AllocState} {e : Nat} (hInv : Inv s)
    (he : ∀ i, ¬ e ∈ s.buckets i) : InvExcept s e := by
  refine ⟨hInv.1, ?_, hInv.2.2.1, hInv.2.2.2.1, hInv.2.2.2.2, he⟩
  intro j hj
  obtain ⟨h1, h2, h3, L, hc, hbase, hbb⟩ := hInv.2.1 j hj
  exact ⟨h1, h2, h3, L, hc, hbase, fun a ha _ => hbb a ha⟩

theorem InvExcept_close_of_false {s : AllocState} {e : Nat} (hx : InvExcept s e)
    (hf : (getHeader s e).free = false) : Inv s := by
  obtain ⟨hinit, hmaps, hbok, hmok, hfresh, hnb⟩ := hx
  refine ⟨hinit, ?_, hbok, hmok, hfresh⟩
  intro j hj
  obtain ⟨h1, h2, h3, L, hc, hbase, hbb⟩ := hmaps j hj
  refine ⟨h1, h2, h3, L, hc, hbase, ?_⟩
  intro a ha
  by_cases hae : a = e
  · subst hae
    unfold blockBucketOK
    constructor
    · intro h
      rw [hf] at h
      exact absurd h (by decide)
    · intro h
      exact absurd h (hnb _)
  · exact hbb a ha hae

theorem InvExcept_close {s : AllocState} {e : Nat} (hx : InvExcept s e)
    (hval : validBlock s e) : Inv (setHeaderFree s e false) := by
  obtain ⟨hinit, hmaps, hbok, hmok, hfresh, hnb⟩ := hx
  have hsz : ∀ x, blockSize (setHeaderFree s e false) x = blockSize s x :=
    fun x => blockSize_setHeaderFree s e false x
  obtain ⟨j0, L0, hj0, hc0, he0⟩ := hval
  have hbnd := chainSeq_mem_bounds hc0 e he0
  refine ⟨hinit, ?_, ?_, ?_, ?_⟩
  · intro j hj
    obtain ⟨h1, h2, h3, L, hc, hbase, hbb⟩ := hmaps j hj
    refine ⟨h1, h2, h3, L, chainSeq_congr hc (fun x _ => hsz x), ?_, ?_⟩
    · intro a ha
      obtain ⟨hb1, hb2, hb3, hb4⟩ := hbase a ha
      refine ⟨by rw [hsz a]; exact hb1, by rw [hsz a]; exact hb2, ?_, ?_⟩
      · rw [mapping_setHeaderFree]
        exact hb3
      · rw [hsz a]
        exact hb4
    · intro a ha
      by_cases hae : a = e
      · subst hae
        unfold blockBucketOK
        rw [free_setHeaderFree, if_pos rfl, hsz a]
        constructor
        · intro h
          exact absurd h (by decide)
        · intro h
          exact absurd h (hnb _)
      · have := hbb a ha hae
        unfold blockBucketOK at this ⊢
        rw [free_setHeaderFree, if_neg hae, hsz a]
        exact this
  · exact bucketsOK_congr hbok (fun i => rfl) hsz rfl rfl rfl
  · exact mappingsOK_congr hmok rfl rfl rfl
  · refine freshHeadersOK_write hfresh e j0 hj0 ⟨hbnd.1, by omega⟩ ?_ rfl rfl rfl
    intro x hx
    exact headers_setHeaderFree_ne s e false hx

theorem free_setHeaderMapping (s : AllocState) (a v x : Nat) :
    (getHeader (setHeaderMapping s a v) x).free = (getHeader s x).free := by
  rw [getHeader_setHeaderMapping]
  by_cases h : x = a <;> simp [h]

theorem mapping_setHeaderMapping (s : AllocState) (a v x : Nat) :
    (getHeader (setHeaderMapping s a v) x).mapping =
      if x = a then v % MAP15 else (getHeader s x).mapping := by
  rw [getHeader_setHeaderMapping]
  by_cases h : x = a <;> simp [h]

theorem headers_setHeaderMapping_ne (s : AllocState) (a v : Nat) {x : Nat}
    (h : ¬ x = a) : (setHeaderMapping s a v).headers x = s.headers x := by
  simp [setHeaderMapping, h]

theorem headers_setHeaderSize_ne (s : AllocState) (a v : Nat) {x : Nat}
    (h : ¬ x = a) : (setHeaderSize s a v).headers x = s.headers x := by
  simp [setHeaderSize, h]

theorem headers_update_size_ne (s : AllocState) (a sz : Nat) {x : Nat}
    (h : ¬ x = a) : (update_size s a sz).headers x = s.headers x := by
  unfold update_size
  rw [headers_setHeaderSize_ne _ _ _ h]
  rfl

theorem headers_insert_into_bucket_ne (s : AllocState) (a i : Nat) {x : Nat}
    (h : ¬ x = a) : (insert_into_bucket s a i).headers x = s.headers x := by
  unfold insert_into_bucket
  rw [headers_setHeaderFree_ne _ _ _ h]

theorem free_insert_into_bucket (s : AllocState) (a i x : Nat) :
    (getHeader (insert_into_bucket s a i) x).free =
      if x = a then true else (getHeader s x).free := by
  rw [getHeader_insert_into_bucket]
  by_cases h : x = a <;> simp [h]

theorem mapping_insert_into_bucket (s : AllocState) (a i x : Nat) :
    (getHeader (insert_into_bucket s a i) x).mapping = (getHeader s x).mapping := by
  rw [getHeader_insert_into_bucket]
  by_cases h : x = a <;> simp [h]

theorem regs_insert_into_bucket (s : AllocState) (a i : Nat) :
    (insert_into_bucket s a i).mappingIndex = s.mappingIndex ∧
    (insert_into_bucket s a i).mappingLo = s.mappingLo ∧
    (insert_into_bucket s a i).mappingHi = s.mappingHi ∧
    (insert_into_bucket s a i).inited = s.inited := ⟨rfl, rfl, rfl, rfl⟩

theorem chainSeq_disjoint {s : AllocState} {a c : Nat} {L : List Nat}
    (h : ChainSeq s a c L) :
    ∀ x ∈ L, ∀ y ∈ L, ¬ x = y →
      x + blockSize s x ≤ y ∨ y + blockSize s y ≤ x := by
  have hp : L.Pairwise (fun x y => x + blockSize s x ≤ y ∨ y + blockSize s y ≤ x) :=
    (chainSeq_pairwise_end_le h).imp (fun hxy => Or.inl hxy)
  have hsym : Symmetric (fun x y : Nat => x + blockSize s x ≤ y ∨ y + blockSize s y ≤ x) := by
    intro x y hxy
    tauto
  intro x hx y hy hne
  exact List.Pairwise.forall hsym hp hx hy hne

theorem chain_interior_not_mem {s : AllocState} {lo hi e x : Nat} {L : List Nat}
    (hc : ChainSeq s lo hi L) (he : e ∈ L) (hx : x ∈ L)
    (h1 : e < x) (h2 : x < e + blockSize s e) : False := by
  have hne : ¬ e = x := by omega
  have hxpos := (chainSeq_mem_bounds hc x hx).2.1
  rcases chainSeq_disjoint hc e he x hx hne with h | h
  · omega
  · omega

theorem insert_walk_congr {s s' : AllocState} (a w : Nat) (L : List Nat)
    (h : ∀ b ∈ L, blockSize s' b = blockSize s b) :
    insert_walk s' a w L = insert_walk s a w L := by
  induction L with
  | nil => rfl
  | cons b rest ih =>
    have hb : blockSize s' b = blockSize s b := h b (List.mem_cons_self b rest)
    show (if blockSize s' b = 0 ∨ w < blockSize s' b then a :: b :: rest
          else b :: insert_walk s' a w rest) = _
    rw [hb]
    by_cases hc : blockSize s b = 0 ∨ w < blockSize s b
    · rw [if_pos hc]
      show _ = (if blockSize s b = 0 ∨ w < blockSize s b then a :: b :: rest
          else b :: insert_walk s a w rest)
      rw [if_pos hc]
    · rw [if_neg hc]
      show _ = (if blockSize s b = 0 ∨ w < blockSize s b then a :: b :: rest
          else b :: insert_walk s a w rest)
      rw [if_neg hc, ih (fun x hx => h x (List.mem_cons_of_mem b hx))]

theorem blockSize_insert_into_buckets (s : AllocState) (a x : Nat) :
    blockSize (insert_into_buckets s a) x = blockSize s x := by
  unfold insert_into_buckets
  rw [blockSize_insert_into_bucket]

theorem free_insert_into_buckets (s : AllocState) (a x : Nat) :
    (getHeader (insert_into_buckets s a) x).free =
      if x = a then true else (getHeader s x).free := by
  unfold insert_into_buckets
  rw [free_insert_into_bucket]

theorem mapping_insert_into_buckets (s : AllocState) (a x : Nat) :
    (getHeader (insert_into_buckets s a) x).mapping = (getHeader s x).mapping := by
  unfold insert_into_buckets
  rw [mapping_insert_into_bucket]

theorem footers_insert_into_buckets (s : AllocState) (a : Nat) :
    (insert_into_buckets s a).footers = s.footers := rfl

theorem headers_insert_into_buckets_ne (s : AllocState) (a : Nat) {x : Nat}
    (h : ¬ x = a) : (insert_into_buckets s a).headers x = s.headers x := by
  unfold insert_into_buckets
  rw [headers_insert_into_bucket_ne _ _ _ h]

theorem buckets_insert_into_buckets (s : AllocState) (a x : Nat) :
    (insert_into_buckets s a).buckets x =
      if x = bucket_index_from_size (blockSize s a)
      then insert_walk s a (blockSize s a) (s.buckets x) else s.buckets x := by
  unfold insert_into_buckets
  rw [buckets_insert_into_bucket]
  by_cases h : x = bucket_index_from_size (blockSize s a)
  · rw [if_pos h, if_pos h, h]
  · rw [if_neg h, if_neg h]

/-- Accessor-level description of `update_size (split_after s e w) e w`,
the split-and-shrink performed by `adjusted_block` when the tail is big
enough: block `e` shrinks to size `w`, a new free block appears at
`e + w` with the remaining size, inheriting `e`'s mapping index, and is
filed in the bucket of its size class. -/
theorem split_shrink_state (s : AllocState) (e w : Nat)
    (he0 : 0 < e) (hw32 : MIN_ALLOC ≤ w)
    (hwle : w + MIN_ALLOC ≤ blockSize s e)
    (hbound : e + blockSize s e ≤ SIZE48)
    (hnb : ∀ i, ¬ (e + w) ∈ s.buckets i) :
    (∀ x, blockSize (update_size (split_after s e w) e w) x =
      if x = e then w else if x = e + w then blockSize s e - w else blockSize s x) ∧
    (∀ x, (getHeader (update_size (split_after s e w) e w) x).free =
      if x = e + w then true else (getHeader s x).free) ∧
    (∀ x, (getHeader (update_size (split_after s e w) e w) x).mapping =
      if x = e + w then (getHeader s e).mapping % MAP15 else (getHeader s x).mapping) ∧
    (∀ y, (update_size (split_after s e w) e w).footers y =
      if y = e + w - FOOTER_SIZE then some w
      else if y = e + blockSize s e - FOOTER_SIZE then some (blockSize s e - w)
      else s.footers y) ∧
    (∀ i, (update_size (split_after s e w) e w).buckets i =
      if i = bucket_index_from_size (blockSize s e - w)
      then insert_walk s (e + w) (blockSize s e - w) (s.buckets i) else s.buckets i) ∧
    (update_size (split_after s e w) e w).mappingIndex = s.mappingIndex ∧
    (update_size (split_after s e w) e w).mappingLo = s.mappingLo ∧
    (update_size (split_after s e w) e w).mappingHi = s.mappingHi ∧
    (update_size (split_after s e w) e w).inited = s.inited ∧
    (∀ x, ¬ x = e → ¬ x = e + w →
      (update_size (split_after s e w) e w).headers x = s.headers x) := by
  have hMA : MIN_ALLOC = 32 := rfl
  have hF : FOOTER_SIZE = 8 := rfl
  have hU : SIZE48 < U64 := SIZE48_lt_U64
  have hso : w + 32 ≤ blockSize s e := by rw [hMA] at hwle; exact hwle
  have hw32' : 32 ≤ w := by rw [hMA] at hw32; exact hw32
  have hso48 : blockSize s e - w < SIZE48 := by omega
  have hw48 : w < SIZE48 := by omega
  have hnbeq : wrap64 (e + w) = e + w := wrap64_eq_of_lt (by omega)
  have hsub : sub64 (blockSize s e) w = blockSize s e - w :=
    sub64_eq_of_le (by omega) (by omega)
  have hsplit : split_after s e w =
      insert_into_buckets
        (setHeaderMapping (update_size s (e + w) (blockSize s e - w)) (e + w)
          (getHeader (update_size s (e + w) (blockSize s e - w)) e).mapping)
        (e + w) := by
    unfold split_after
    rw [hnbeq, hsub]
  have hs1a_sz : ∀ x, blockSize (update_size s (e + w) (blockSize s e - w)) x =
      if x = e + w then blockSize s e - w else blockSize s x := by
    intro x
    rw [blockSize_update_size]
    by_cases hx : x = e + w
    · rw [if_pos hx, if_pos hx, mod48_eq_of_lt hso48]
    · rw [if_neg hx, if_neg hx]
  have hs2_sz : ∀ x, blockSize
      (setHeaderMapping (update_size s (e + w) (blockSize s e - w)) (e + w)
        (getHeader (update_size s (e + w) (blockSize s e - w)) e).mapping) x =
      if x = e + w then blockSize s e - w else blockSize s x := by
    intro x
    rw [blockSize_setHeaderMapping, hs1a_sz x]
  constructor
  · -- sizes
    intro x
    rw [blockSize_update_size, hsplit, blockSize_insert_into_buckets, hs2_sz x]
    by_cases hx : x = e
    · rw [if_pos hx, if_pos hx, mod48_eq_of_lt hw48]
    · rw [if_neg hx, if_neg hx]
  constructor
  · -- free flags
    intro x
    rw [free_update_size, hsplit, free_insert_into_buckets, free_setHeaderMapping,
      free_update_size]
  constructor
  · -- mapping fields
    intro x
    rw [mapping_update_size, hsplit, mapping_insert_into_buckets, mapping_setHeaderMapping]
    by_cases hx : x = e + w
    · rw [if_pos hx, if_pos hx, mapping_update_size]
    · rw [if_neg hx, if_neg hx, mapping_update_size]
  constructor
  · -- footers
    intro y
    rw [footers_update_size, hsplit]
    have haddr : sub64 (wrap64 (e + w)) FOOTER_SIZE = e + w - FOOTER_SIZE :=
      footer_addr_norm (by omega) (by omega)
    rw [haddr]
    have hrest : (insert_into_buckets
        (setHeaderMapping (update_size s (e + w) (blockSize s e - w)) (e + w)
          (getHeader (update_size s (e + w) (blockSize s e - w)) e).mapping)
        (e + w)).footers y = (update_size s (e + w) (blockSize s e - w)).footers y := rfl
    rw [hrest, footers_update_size]
    have haddr2 : sub64 (wrap64 (e + w + (blockSize s e - w))) FOOTER_SIZE =
        e + blockSize s e - FOOTER_SIZE := by
      have h2 : e + w + (blockSize s e - w) = e + blockSize s e := by omega
      rw [h2]
      exact footer_addr_norm (by omega) (by omega)
    rw [haddr2]
    by_cases hy : y = e + w - FOOTER_SIZE
    · rw [if_pos hy, if_pos hy, Nat.mod_eq_of_lt (by omega : w < U64)]
    · rw [if_neg hy, if_neg hy]
      by_cases hy2 : y = e + blockSize s e - FOOTER_SIZE
      · rw [if_pos hy2, if_pos hy2,
          Nat.mod_eq_of_lt (by omega : blockSize s e - w < U64)]
      · rw [if_neg hy2, if_neg hy2]
  constructor
  · -- buckets
    intro i
    rw [buckets_update_size, hsplit, buckets_insert_into_buckets]
    have h3 := hs2_sz (e + w)
    rw [if_pos rfl] at h3
    rw [h3]
    have hbk : ∀ k, (setHeaderMapping (update_size s (e + w) (blockSize s e - w)) (e + w)
        (getHeader (update_size s (e + w) (blockSize s e - w)) e).mapping).buckets k
        = s.buckets k := fun k => rfl
    rw [hbk i]
    by_cases hi : i = bucket_index_from_size (blockSize s e - w)
    · rw [if_pos hi, if_pos hi]
      refine insert_walk_congr _ _ _ ?_
      intro b hb
      rw [hs2_sz b, if_neg ?_]
      intro hbe
      exact hnb i (by rw [← hbe]; exact hb)
    · rw [if_neg hi, if_neg hi]
  refine ⟨rfl, rfl, rfl, rfl, ?_⟩
  · -- headers outside the two written addresses
    intro x hx1 hx2
    rw [headers_update_size_ne _ _ _ hx1, hsplit,
      headers_insert_into_buckets_ne _ _ hx2,
      headers_setHeaderMapping_ne _ _ _ hx2,
      headers_update_size_ne _ _ _ hx2]

/-- adjusted_block on a limbo block `e` (marked by `InvExcept`): it
returns `e` itself, keeps the invariant (with `e` still in limbo), does
not touch `e`'s free flag or the mapping registry, and either leaves the
state unchanged or performs the documented split. -/
theorem adjusted_block_preserves (s : AllocState) (e w : Nat)
    (hx : InvExcept s e) (hval : validBlock s e)
    (hw32 : MIN_ALLOC ≤ w) (hw8 : MEM_UNIT ∣ w) (hwa : w ≤ blockSize s e) :
    (adjusted_block s e w).1 = e ∧
    InvExcept (adjusted_block s e w).2 e ∧
    validBlock (adjusted_block s e w).2 e ∧
    (getHeader (adjusted_block s e w).2 e).free = (getHeader s e).free ∧
    (adjusted_block s e w).2.mappingIndex = s.mappingIndex ∧
    (adjusted_block s e w).2.mappingLo = s.mappingLo ∧
    (adjusted_block s e w).2.mappingHi = s.mappingHi ∧
    (adjusted_block s e w).2.inited = s.inited ∧
    (∀ x, ¬ x = e → ¬ x = e + w → (adjusted_block s e w).2.headers x = s.headers x) ∧
    (adjusted_block s e w = (e, s) ∨
      (w + MIN_ALLOC ≤ blockSize s e ∧
       (∀ x, blockSize (adjusted_block s e w).2 x =
          if x = e then w else if x = e + w then blockSize s e - w else blockSize s x) ∧
       (∀ x, (getHeader (adjusted_block s e w).2 x).free =
          if x = e + w then true else (getHeader s x).free))) := by
  obtain ⟨hinit, hmaps, hbok, hmok, hfresh, hnotb⟩ := hx
  obtain ⟨je, L, hje, hcL, heL⟩ := hval
  obtain ⟨hlo0, hlohi, hhi48, L0, hcL0, hbase0, hbb0⟩ := hmaps je hje
  have hLL : L = L0 := chainSeq_unique hcL hcL0
  subst hLL
  have hbnd := chainSeq_mem_bounds hcL e heL
  have he0 : 0 < e := lt_of_lt_of_le hlo0 hbnd.1
  have hbound : e + blockSize s e ≤ SIZE48 := le_trans hbnd.2.2 hhi48
  have hMA : MIN_ALLOC = 32 := rfl
  have hF : FOOTER_SIZE = 8 := rfl
  have hw32' : 32 ≤ w := by rw [hMA] at hw32; exact hw32
  have hS48 : SIZE48 = 281474976710656 := by norm_num [SIZE48]
  have hU64v : U64 = 18446744073709551616 := by norm_num [U64]
  have hsoU : blockSize s e < SIZE48 := by omega
  have h48U : SIZE48 < U64 := SIZE48_lt_U64
  have hwrap : wrap64 (w + MIN_ALLOC) = w + MIN_ALLOC :=
    wrap64_eq_of_lt (by rw [hMA]; omega)
  unfold adjusted_block
  by_cases hcond : blockSize s e < wrap64 (w + MIN_ALLOC)
  · rw [if_pos hcond]
    exact ⟨rfl, ⟨hinit, hmaps, hbok, hmok, hfresh, hnotb⟩, ⟨je, L, hje, hcL, heL⟩, rfl,
      rfl, rfl, rfl, rfl, fun x _ _ => rfl, Or.inl rfl⟩
  · rw [if_neg hcond]
    rw [hwrap] at hcond
    have hwle : w + MIN_ALLOC ≤ blockSize s e := le_of_not_lt hcond
    have hwle' : w + 32 ≤ blockSize s e := by rw [hMA] at hwle; exact hwle
    have hnbmem : ∀ i, ¬ (e + w) ∈ s.buckets i := by
      intro i hmem
      obtain ⟨hidx', j', L', hj', hc', hmem'⟩ := (hbok i).1 _ hmem
      have hb' := chainSeq_mem_bounds hc' _ hmem'
      by_cases hjj : j' = je
      · subst hjj
        have hLe : L' = L := chainSeq_unique hc' hcL
        subst hLe
        exact chain_interior_not_mem hcL heL hmem' (by omega) (by omega)
      · obtain ⟨hlo0', hlohi', _, L0', hc0', _, _⟩ := hmaps j' hj'
        have hLe : L0' = L' := chainSeq_unique hc0' hc'
        rcases hmok.2 j' je hj' hje hjj with h | h
        · omega
        · omega
    obtain ⟨hsz, hfree, hmapf, hftr, hbkt, hidx, hlo, hhi, hinitp, hhdr⟩ :=
      split_shrink_state s e w he0 hw32 hwle hbound hnbmem
    obtain ⟨L1, L2, hLsplit, hc1, hpos_e, hc2⟩ := chainSeq_split hcL heL
    have hL1mem : ∀ x ∈ L1, x + blockSize s x ≤ e ∧ 0 < blockSize s x ∧
        s.mappingLo je ≤ x := by
      intro x hxm
      have hbm := chainSeq_mem_bounds hc1 x hxm
      exact ⟨hbm.2.2, hbm.2.1, hbm.1⟩
    have hL2mem : ∀ x ∈ L2, e + blockSize s e ≤ x ∧ 0 < blockSize s x ∧
        x + blockSize s x ≤ s.mappingHi je := by
      intro x hxm
      have hbm := chainSeq_mem_bounds hc2 x hxm
      exact ⟨hbm.1, hbm.2.1, hbm.2.2⟩
    have hc1' : ChainSeq (update_size (split_after s e w) e w) (s.mappingLo je) e L1 := by
      refine chainSeq_congr hc1 ?_
      intro x hxm
      have hbm := hL1mem x hxm
      rw [hsz x, if_neg (by omega), if_neg (by omega)]
    have hc2' : ChainSeq (update_size (split_after s e w) e w) (e + blockSize s e)
        (s.mappingHi je) L2 := by
      refine chainSeq_congr hc2 ?_
      intro x hxm
      have hbm := hL2mem x hxm
      rw [hsz x, if_neg (by omega), if_neg (by omega)]
    have hsz_e : blockSize (update_size (split_after s e w) e w) e = w := by
      rw [hsz e, if_pos rfl]
    have hsz_t : blockSize (update_size (split_after s e w) e w) (e + w) =
        blockSize s e - w := by
      rw [hsz (e + w), if_neg (by omega), if_pos rfl]
    have hcNew : ChainSeq (update_size (split_after s e w) e w) (s.mappingLo je)
        (s.mappingHi je) (L1 ++ e :: (e + w) :: L2) := by
      refine chainSeq_append hc1' ?_
      refine ChainSeq.cons _ _ _ (by rw [hsz_e]; omega) ?_
      rw [hsz_e]
      refine ChainSeq.cons _ _ _ (by rw [hsz_t]; omega) ?_
      rw [hsz_t]
      have heq2 : e + w + (blockSize s e - w) = e + blockSize s e := by omega
      rw [heq2]
      exact hc2'
    have hold_mem : ∀ x ∈ L, ¬ x = e → x ∈ L1 ++ e :: (e + w) :: L2 := by
      intro x hxm hxe
      rw [hLsplit] at hxm
      rcases List.mem_append.mp hxm with h | h
      · exact List.mem_append.mpr (Or.inl h)
      · rcases List.mem_cons.mp h with h | h
        · exact absurd h hxe
        · exact List.mem_append.mpr (Or.inr (List.mem_cons_of_mem _ (List.mem_cons_of_mem _ h)))
    -- transfer of a chain membership fact to the new state
    have htransfer : ∀ j', j' < s.mappingIndex → ∀ a, ¬ a = e →
        (∃ L', ChainSeq s (s.mappingLo j') (s.mappingHi j') L' ∧ a ∈ L') →
        ∃ L'', ChainSeq (update_size (split_after s e w) e w)
          (s.mappingLo j') (s.mappingHi j') L'' ∧ a ∈ L'' := by
      intro j' hj' a hae hex
      obtain ⟨L', hc', haL'⟩ := hex
      by_cases hjj : j' = je
      · subst hjj
        have hLe : L' = L := chainSeq_unique hc' hcL
        subst hLe
        exact ⟨L1 ++ e :: (e + w) :: L2, hcNew, hold_mem a haL' hae⟩
      · obtain ⟨hlo0', hlohi', hhi48', L0', hc0', _, _⟩ := hmaps j' hj'
        have hLe : L0' = L' := chainSeq_unique hc0' hc'
        subst hLe
        refine ⟨L0', chainSeq_congr hc0' ?_, haL'⟩
        intro x hxm
        have hbm := chainSeq_mem_bounds hc0' x hxm
        rcases hmok.2 j' je hj' hje hjj with h | h
        · rw [hsz x, if_neg (by omega), if_neg (by omega)]
        · rw [hsz x, if_neg (by omega), if_neg (by omega)]
    have hbktpos : ∀ i b, b ∈ s.buckets i → 0 < blockSize s b := by
      intro i b hb
      obtain ⟨_, j', L', hj', hc', hm'⟩ := (hbok i).1 b hb
      exact (chainSeq_mem_bounds hc' b hm').2.1
    have hbne : ∀ i b, b ∈ s.buckets i → ¬ b = e ∧ ¬ b = e + w := by
      intro i b hb
      constructor
      · intro hbe
        exact hnotb i (by rw [← hbe]; exact hb)
      · intro hbe
        exact hnbmem i (by rw [← hbe]; exact hb)
    refine ⟨rfl, ⟨?_, ?_, ?_, ?_, ?_, ?_⟩, ?_, ?_, hidx, hlo, hhi, hinitp, hhdr,
      Or.inr ⟨hwle, hsz, hfree⟩⟩
    · -- inited → mappingIndex = 0
      intro h
      rw [hinitp] at h
      rw [hidx]
      exact hinit h
    · -- mapOKx for every registered mapping
      intro j hj'
      rw [hidx] at hj'
      obtain ⟨hl0, hlh, hh48, Lj, hcj, hbasej, hbbj⟩ := hmaps j hj'
      by_cases hjje : j = je
      · subst hjje
        have hLe : L = Lj := chainSeq_unique hcL hcj
        subst hLe
        refine ⟨by rw [hlo]; exact hl0, by rw [hlo, hhi]; exact hlh, by rw [hhi]; exact hh48,
          L1 ++ e :: (e + w) :: L2, by rw [hlo, hhi]; exact hcNew, ?_, ?_⟩
        · -- blockOKbase for the new chain
          intro a ha
          rcases List.mem_append.mp ha with ha1 | ha2
          · have hbm := hL1mem a ha1
            have hane : ¬ a = e := by omega
            have hane2 : ¬ a = e + w := by omega
            obtain ⟨hB1, hB2, hB3, hB4⟩ := hbase0 a (by
              rw [hLsplit]; exact List.mem_append.mpr (Or.inl ha1))
            have hsza : blockSize (update_size (split_after s e w) e w) a = blockSize s a := by
              rw [hsz a, if_neg hane, if_neg hane2]
            refine ⟨by rw [hsza]; exact hB1, by rw [hsza]; exact hB2, ?_, ?_⟩
            · rw [hmapf a, if_neg hane2]
              exact hB3
            · rw [hsza, hftr, if_neg (by rw [hMA] at hB1; omega),
                if_neg (by rw [hMA] at hB1; omega)]
              exact hB4
          · rcases List.mem_cons.mp ha2 with hae | ha3
            · -- the shrunk block e
              rw [hae]
              refine ⟨by rw [hsz_e]; exact hw32, by rw [hsz_e]; exact hw8, ?_, ?_⟩
              · rw [hmapf e, if_neg (by omega)]
                exact (hbase0 e heL).2.2.1
              · rw [hsz_e, hftr, if_pos rfl]
            · rcases List.mem_cons.mp ha3 with haw | ha4
              · -- the free tail at e + w
                rw [haw]
                have h8so : MEM_UNIT ∣ blockSize s e := (hbase0 e heL).2.1
                refine ⟨by rw [hsz_t, hMA]; omega, by rw [hsz_t]; exact Nat.dvd_sub' h8so hw8,
                  ?_, ?_⟩
                · rw [hmapf (e + w), if_pos rfl, (hbase0 e heL).2.2.1]
                  have hje15 : j < MAP15 := lt_of_lt_of_le hje hmok.1
                  exact Nat.mod_eq_of_lt hje15
                · rw [hsz_t, hftr,
                    if_neg (by omega), if_pos (by omega)]
              · have hbm := hL2mem a ha4
                have hane : ¬ a = e := by omega
                have hane2 : ¬ a = e + w := by omega
                obtain ⟨hB1, hB2, hB3, hB4⟩ := hbase0 a (by
                  rw [hLsplit]
                  exact List.mem_append.mpr (Or.inr (List.mem_cons_of_mem _ ha4)))
                have hsza : blockSize (update_size (split_after s e w) e w) a = blockSize s a := by
                  rw [hsz a, if_neg hane, if_neg hane2]
                refine ⟨by rw [hsza]; exact hB1, by rw [hsza]; exact hB2, ?_, ?_⟩
                · rw [hmapf a, if_neg hane2]
                  exact hB3
                · rw [hsza, hftr, if_neg (by rw [hMA] at hB1; omega),
                    if_neg (by rw [hMA] at hB1; omega)]
                  exact hB4
        · -- blockBucketOK for the new chain, except e
          intro a ha hane
          have hacases : a = e + w ∨ (a ∈ L ∧ ¬ a = e + w) := by
            rcases List.mem_append.mp ha with ha1 | ha2
            · have hbm := hL1mem a ha1
              refine Or.inr ⟨by rw [hLsplit]; exact List.mem_append.mpr (Or.inl ha1), by omega⟩
            · rcases List.mem_cons.mp ha2 with rfl | ha3
              · exact absurd rfl hane
              · rcases List.mem_cons.mp ha3 with rfl | ha4
                · exact Or.inl rfl
                · have hbm := hL2mem a ha4
                  refine Or.inr ⟨by
                    rw [hLsplit]
                    exact List.mem_append.mpr (Or.inr (List.mem_cons_of_mem _ ha4)), by omega⟩
          rcases hacases with haw | ⟨haL, hane2⟩
          · rw [haw]
            unfold blockBucketOK
            rw [hfree (e + w), if_pos rfl, hsz_t, hbkt, if_pos rfl]
            constructor
            · intro _
              exact (mem_insert_walk _ _ _ _ _).mpr (Or.inl rfl)
            · intro _
              rfl
          · have hBB := hbb0 a haL hane
            unfold blockBucketOK at hBB ⊢
            have hsza : blockSize (update_size (split_after s e w) e w) a = blockSize s a := by
              rw [hsz a, if_neg hane, if_neg hane2]
            rw [hfree a, if_neg hane2, hsza, hbkt]
            by_cases hieq : bucket_index_from_size (blockSize s a) =
                bucket_index_from_size (blockSize s e - w)
            · rw [if_pos hieq, mem_insert_walk]
              constructor
              · intro hf
                exact Or.inr (hBB.mp hf)
              · intro hm
                rcases hm with heq | hm
                · exact absurd heq hane2
                · exact hBB.mpr hm
            · rw [if_neg hieq]
              exact hBB
      · -- a mapping other than je: untouched
        have hdisj : ∀ x, s.mappingLo j ≤ x → x < s.mappingHi j →
            ¬ x = e ∧ ¬ x = e + w := by
          intro x h1 h2
          rcases hmok.2 j je hj' hje hjje with h | h
          · constructor <;> (intro heq; omega)
          · constructor <;> (intro heq; omega)
        refine ⟨by rw [hlo]; exact hl0, by rw [hlo, hhi]; exact hlh, by rw [hhi]; exact hh48,
          Lj, ?_, ?_, ?_⟩
        · rw [hlo, hhi]
          refine chainSeq_congr hcj ?_
          intro x hxm
          have hbm := chainSeq_mem_bounds hcj x hxm
          have hd := hdisj x hbm.1 (by omega)
          rw [hsz x, if_neg hd.1, if_neg hd.2]
        · intro a ha
          have hbm := chainSeq_mem_bounds hcj a ha
          have hd := hdisj a hbm.1 (by omega)
          obtain ⟨hB1, hB2, hB3, hB4⟩ := hbasej a ha
          have hsza : blockSize (update_size (split_after s e w) e w) a = blockSize s a := by
            rw [hsz a, if_neg hd.1, if_neg hd.2]
          refine ⟨by rw [hsza]; exact hB1, by rw [hsza]; exact hB2, ?_, ?_⟩
          · rw [hmapf a, if_neg hd.2]
            exact hB3
          · have hdf : ¬ a + blockSize s a - FOOTER_SIZE = e + w - FOOTER_SIZE ∧
                ¬ a + blockSize s a - FOOTER_SIZE = e + blockSize s e - FOOTER_SIZE := by
              have hfe : FOOTER_SIZE = 8 := rfl
              have h1 : s.mappingLo je ≤ e := hbnd.1
              have h2 : e + blockSize s e ≤ s.mappingHi je := hbnd.2.2
              rcases hmok.2 j je hj' hje hjje with h | h
              · rw [hMA] at hB1
                constructor <;> (intro heq; omega)
              · rw [hMA] at hB1
                constructor <;> (intro heq; omega)
            rw [hsza, hftr, if_neg hdf.1, if_neg hdf.2]
            exact hB4
        · intro a ha hane
          have hbm := chainSeq_mem_bounds hcj a ha
          have hd := hdisj a hbm.1 (by omega)
          have hBB := hbbj a ha hane
          unfold blockBucketOK at hBB ⊢
          have hsza : blockSize (update_size (split_after s e w) e w) a = blockSize s a := by
            rw [hsz a, if_neg hd.1, if_neg hd.2]
          rw [hfree a, if_neg hd.2, hsza, hbkt]
          by_cases hieq : bucket_index_from_size (blockSize s a) =
              bucket_index_from_size (blockSize s e - w)
          · rw [if_pos hieq, mem_insert_walk]
            constructor
            · intro hf
              exact Or.inr (hBB.mp hf)
            · intro hm
              rcases hm with heq | hm
              · exact absurd heq hd.2
              · exact hBB.mpr hm
          · rw [if_neg hieq]
            exact hBB
    · -- bucketsOK
      intro i
      obtain ⟨hmem0, hsort0, hnd0⟩ := hbok i
      have hmem' : ∀ a ∈ s.buckets i,
          bucket_index_from_size (blockSize (update_size (split_after s e w) e w) a) = i ∧
          ∃ j' L', j' < (update_size (split_after s e w) e w).mappingIndex ∧
            ChainSeq (update_size (split_after s e w) e w)
              ((update_size (split_after s e w) e w).mappingLo j')
              ((update_size (split_after s e w) e w).mappingHi j') L' ∧ a ∈ L' := by
        intro a ha
        have hd := hbne i a ha
        obtain ⟨hia, j', L', hj', hc', hm'⟩ := hmem0 a ha
        have hsza : blockSize (update_size (split_after s e w) e w) a = blockSize s a := by
          rw [hsz a, if_neg hd.1, if_neg hd.2]
        obtain ⟨L'', hc'', hm''⟩ := htransfer j' hj' a hd.1 ⟨L', hc', hm'⟩
        refine ⟨by rw [hsza]; exact hia, j', L'', by rw [hidx]; exact hj', ?_, hm''⟩
        rw [hlo, hhi]
        exact hc''
      rw [hbkt]
      by_cases hieq : i = bucket_index_from_size (blockSize s e - w)
      · rw [if_pos hieq]
        refine ⟨?_, ?_, ?_⟩
        · intro a ha
          rcases (mem_insert_walk s (e + w) (blockSize s e - w) (s.buckets i) a).mp ha with
            rfl | ha'
          · refine ⟨by rw [hsz_t, ← hieq], je, L1 ++ e :: (e + w) :: L2,
              by rw [hidx]; exact hje, by rw [hlo, hhi]; exact hcNew, ?_⟩
            exact List.mem_append.mpr (Or.inr (List.mem_cons_of_mem _ (List.mem_cons_self _ _)))
          · exact hmem' a ha'
        · refine insert_walk_sorted s (update_size (split_after s e w) e w) (e + w)
            (blockSize s e - w) (s.buckets i) hsz_t ?_ (hbktpos i) hsort0
          intro b hb
          have hd := hbne i b hb
          rw [hsz b, if_neg hd.1, if_neg hd.2]
        · refine insert_walk_nodup s (e + w) (blockSize s e - w) (s.buckets i) ?_ hnd0
          exact hnbmem i
      · rw [if_neg hieq]
        refine ⟨hmem', ?_, hnd0⟩
        refine hsort0.imp_of_mem (fun {x y} hxm hym hxy => ?_)
        have hdx := hbne i x hxm
        have hdy := hbne i y hym
        rw [hsz x, if_neg hdx.1, if_neg hdx.2, hsz y, if_neg hdy.1, if_neg hdy.2]
        exact hxy
    · -- mappingsOK
      exact mappingsOK_congr hmok hidx hlo hhi
    · -- freshHeadersOK
      intro x hxout
      by_cases hxe : x = e
      · exfalso
        subst hxe
        have := hxout je (by rw [hidx]; exact hje)
        rw [hlo, hhi] at this
        omega
      · by_cases hxew : x = e + w
        · exfalso
          subst hxew
          have := hxout je (by rw [hidx]; exact hje)
          rw [hlo, hhi] at this
          omega
        · rw [hhdr x hxe hxew]
          refine hfresh x ?_
          intro k hk
          have := hxout k (by rw [hidx]; exact hk)
          rw [hlo, hhi] at this
          exact this
    · -- e is in no bucket
      intro i
      rw [hbkt]
      by_cases hieq : i = bucket_index_from_size (blockSize s e - w)
      · rw [if_pos hieq, mem_insert_walk]
        intro hm
        rcases hm with heq | hm
        · omega
        · exact hnotb i hm
      · rw [if_neg hieq]
        exact hnotb i
    · -- e is still a valid block
      refine ⟨je, L1 ++ e :: (e + w) :: L2, by rw [hidx]; exact hje, ?_, ?_⟩
      · rw [hlo, hhi]
        exact hcNew
      · exact List.mem_append.mpr (Or.inr (List.mem_cons_self _ _))
    · -- e's free flag is untouched
      rw [hfree e, if_neg (by omega)]

theorem Inv_initialState : Inv initialState := by
  refine ⟨fun _ => rfl, ?_, ?_, ⟨by decide, ?_⟩, ?_⟩
  · intro j hj
    exact absurd hj (by simp [initialState])
  · intro i
    refine ⟨?_, List.Pairwise.nil, List.nodup_nil⟩
    intro a ha
    exact absurd ha (List.not_mem_nil a)
  · intro j k hj _ _
    exact absurd hj (by simp [initialState])
  · intro x _
    rfl

theorem Inv_errno (s : AllocState) (v : Nat) (h : Inv s) : Inv { s with errno := v } := by
  obtain ⟨h1, h2, h3, h4, h5⟩ := h
  refine ⟨h1, ?_, ?_, h4, h5⟩
  · intro j hj
    obtain ⟨a1, a2, a3, L, hc, hb, hbb⟩ := h2 j hj
    exact ⟨a1, a2, a3, L, chainSeq_congr hc (fun x _ => rfl), hb, hbb⟩
  · intro i
    obtain ⟨m, so, nd⟩ := h3 i
    refine ⟨?_, so, nd⟩
    intro a ha
    obtain ⟨x1, j, L, hj, hc, hm⟩ := m a ha
    exact ⟨x1, j, L, hj, chainSeq_congr hc (fun x _ => rfl), hm⟩

theorem InvExcept_errno (s : AllocState) (e v : Nat) (h : InvExcept s e) :
    InvExcept { s with errno := v } e := by
  obtain ⟨h1, h2, h3, h4, h5, h6⟩ := h
  refine ⟨h1, ?_, ?_, h4, h5, h6⟩
  · intro j hj
    obtain ⟨a1, a2, a3, L, hc, hb, hbb⟩ := h2 j hj
    exact ⟨a1, a2, a3, L, chainSeq_congr hc (fun x _ => rfl), hb, hbb⟩
  · intro i
    obtain ⟨m, so, nd⟩ := h3 i
    refine ⟨?_, so, nd⟩
    intro a ha
    obtain ⟨x1, j, L, hj, hc, hm⟩ := m a ha
    exact ⟨x1, j, L, hj, chainSeq_congr hc (fun x _ => rfl), hm⟩

theorem init_buckets_inv (s : AllocState) (hInv : Inv s) :
    Inv (if s.inited then s else init_buckets s) := by
  by_cases h : s.inited
  · rw [if_pos h]
    exact hInv
  · rw [if_neg h]
    have hfalse : s.inited = false := by
      revert h
      cases s.inited <;> simp
    have hidx0 : s.mappingIndex = 0 := hInv.1 hfalse
    refine ⟨fun _ => hidx0, ?_, ?_, ⟨?_, ?_⟩, ?_⟩
    · intro j hj
      rw [show (init_buckets s).mappingIndex = s.mappingIndex from rfl, hidx0] at hj
      omega
    · intro i
      refine ⟨?_, List.Pairwise.nil, List.nodup_nil⟩
      intro a ha
      exact absurd ha (List.not_mem_nil a)
    · rw [show (init_buckets s).mappingIndex = s.mappingIndex from rfl, hidx0]
      norm_num [NUM_MAPPINGS, MAP15]
    · intro j k hj _ _
      rw [show (init_buckets s).mappingIndex = s.mappingIndex from rfl, hidx0] at hj
      omega
    · intro x hx
      refine hInv.2.2.2.2 x ?_
      intro j hj
      rw [hidx0] at hj
      omega

theorem mem_bucket_unique {s : AllocState} (hInv : Inv s) {a i i' : Nat}
    (ha : a ∈ s.buckets i) (ha' : a ∈ s.buckets i') : i = i' := by
  have h1 := ((hInv.2.2.1 i).1 a ha).1
  have h2 := ((hInv.2.2.1 i').1 a ha').1
  rw [← h1, ← h2]

theorem remove_from_bucket_invExcept (s : AllocState) (a i : Nat) (hInv : Inv s)
    (ha : a ∈ s.buckets i) :
    InvExcept (remove_from_bucket s a) a ∧ validBlock (remove_from_bucket s a) a := by
  have hmem := inv_bucket_member hInv ha
  obtain ⟨hia, hvb, hfa, hsa⟩ := hmem
  have hsz : ∀ x, blockSize (remove_from_bucket s a) x = blockSize s x := fun _ => rfl
  have hchain : ∀ lo hi L, ChainSeq s lo hi L → ChainSeq (remove_from_bucket s a) lo hi L :=
    fun lo hi L hc => chainSeq_congr hc (fun x _ => rfl)
  obtain ⟨hinit, hmaps, hbok, hmok, hfresh⟩ := hInv
  have hnotin : ∀ i', ¬ a ∈ (remove_from_bucket s a).buckets i' := by
    intro i' hmem'
    rw [buckets_remove_from_bucket] at hmem'
    have hsub : a ∈ s.buckets i' := List.mem_of_mem_erase hmem'
    have hii : i = i' := mem_bucket_unique ⟨hinit, hmaps, hbok, hmok, hfresh⟩ ha hsub
    subst hii
    have hnd := (hbok i).2.2
    rw [List.Nodup.mem_erase_iff hnd] at hmem'
    exact hmem'.1 rfl
  constructor
  · refine ⟨hinit, ?_, ?_, hmok, hfresh, hnotin⟩
    · intro j hj
      obtain ⟨h1, h2, h3, L, hc, hbase, hbb⟩ := hmaps j hj
      refine ⟨h1, h2, h3, L, hchain _ _ _ hc, hbase, ?_⟩
      intro x hx hxa
      have hBB := hbb x hx
      unfold blockBucketOK at hBB ⊢
      show (getHeader s x).free = true ↔
        x ∈ (s.buckets (bucket_index_from_size (blockSize s x))).erase a
      have hnd := (hbok (bucket_index_from_size (blockSize s x))).2.2
      rw [List.Nodup.mem_erase_iff hnd]
      constructor
      · intro hf
        exact ⟨hxa, hBB.mp hf⟩
      · intro hm
        exact hBB.mpr hm.2
    · intro i'
      obtain ⟨hmem0, hsort0, hnd0⟩ := hbok i'
      rw [buckets_remove_from_bucket]
      refine ⟨?_, hsort0.sublist (List.erase_sublist a _), hnd0.sublist (List.erase_sublist a _)⟩
      intro b hb
      have hb' : b ∈ s.buckets i' := List.mem_of_mem_erase hb
      obtain ⟨h1, j', L', hj', hc', hm'⟩ := hmem0 b hb'
      exact ⟨h1, j', L', hj', hchain _ _ _ hc', hm'⟩
  · obtain ⟨j, L, hj, hc, hm⟩ := hvb
    exact ⟨j, L, hj, hchain _ _ _ hc, hm⟩

theorem blockSize_headers_eq {s s' : AllocState} (h : s'.headers = s.headers) :
    ∀ x, blockSize s' x = blockSize s x := by
  intro x
  unfold blockSize getHeader
  rw [h]

theorem getHeader_headers_eq {s s' : AllocState} (h : s'.headers = s.headers) :
    ∀ x, getHeader s' x = getHeader s x := by
  intro x
  unfold getHeader
  rw [h]

/-- Appending the freshly mapped region as a single allocated block: the
state after `update_size`, the mapping stamp and the index bump (shared
core of the merge and fresh registration cases of get_block_from_os).
`ms` is the state right after `get_mapping` updated the registry; `jn` is
the index of the mapping that received the region `[m, m + req)`. -/
theorem new_block_invExcept (s ms : AllocState) (m req jn : Nat) (hInv : Inv s)
    (hinited : s.inited = true)
    (hm0 : 0 < m) (hbound : m + req ≤ SIZE48)
    (hreq32 : MIN_ALLOC ≤ req) (hreq8 : MEM_UNIT ∣ req)
    (hfreshm : ∀ j, j < s.mappingIndex → m + req ≤ s.mappingLo j ∨ s.mappingHi j ≤ m)
    (hms4 : ms.buckets = s.buckets) (hms5 : ms.headers = s.headers)
    (hms6 : ms.footers = s.footers) (hms7 : ms.inited = s.inited)
    (hmsjn : ms.mappingIndex = jn)
    (hidx1 : jn + 1 ≤ NUM_MAPPINGS)
    (hsm : s.mappingIndex ≤ jn + 1)
    (hmapjn : jn < s.mappingIndex →
      ms.mappingLo jn = s.mappingLo jn ∧ m = s.mappingHi jn)
    (hlojn : ms.mappingLo jn ≤ m) (hhijn : ms.mappingHi jn = m + req)
    (hlo0jn : 0 < ms.mappingLo jn)
    (hchainjn : ∃ L0, ChainSeq s (ms.mappingLo jn) m L0 ∧
      (∀ a ∈ L0, blockOKbase s jn a) ∧ (∀ a ∈ L0, blockBucketOK s a))
    (hother : ∀ j, j < jn + 1 → ¬ j = jn →
      0 < ms.mappingLo j ∧ ms.mappingLo j < ms.mappingHi j ∧ ms.mappingHi j ≤ SIZE48 ∧
      ms.mappingLo j = s.mappingLo j ∧ ms.mappingHi j = s.mappingHi j ∧
      j < s.mappingIndex)
    (hdisj : ∀ j k, j < jn + 1 → k < jn + 1 → ¬ j = k →
      ms.mappingHi j ≤ ms.mappingLo k ∨ ms.mappingHi k ≤ ms.mappingLo j)
    (hbmem : ∀ i b, b ∈ s.buckets i → ¬ b = m) :
    InvExcept { setHeaderMapping (update_size ms m req) m ms.mappingIndex with
      mappingIndex := ms.mappingIndex + 1 } m ∧
    validBlock { setHeaderMapping (update_size ms m req) m ms.mappingIndex with
      mappingIndex := ms.mappingIndex + 1 } m ∧
    blockSize { setHeaderMapping (update_size ms m req) m ms.mappingIndex with
      mappingIndex := ms.mappingIndex + 1 } m = req ∧
    (∀ x, ¬ x = m → ({ setHeaderMapping (update_size ms m req) m ms.mappingIndex with
      mappingIndex := ms.mappingIndex + 1 } : AllocState).headers x = s.headers x) ∧
    (∃ L0, ChainSeq s (ms.mappingLo jn) m L0 ∧
      ChainSeq { setHeaderMapping (update_size ms m req) m ms.mappingIndex with
        mappingIndex := ms.mappingIndex + 1 } (ms.mappingLo jn) (ms.mappingHi jn)
        (L0 ++ [m])) := by
  have hMA : MIN_ALLOC = 32 := rfl
  have hF : FOOTER_SIZE = 8 := rfl
  have hS48 : SIZE48 = 281474976710656 := by norm_num [SIZE48]
  have hU64v : U64 = 18446744073709551616 := by norm_num [U64]
  have hM15v : MAP15 = 32768 := by norm_num [MAP15]
  have hNMv : NUM_MAPPINGS = 32768 := by norm_num [NUM_MAPPINGS, MAP15]
  have hreq32' : 32 ≤ req := by rw [hMA] at hreq32; exact hreq32
  have hreq48 : req < SIZE48 := by omega
  have hmout : ∀ j, j < s.mappingIndex → m < s.mappingLo j ∨ s.mappingHi j ≤ m := by
    intro j hj
    rcases hfreshm j hj with h | h
    · left
      omega
    · right
      exact h
  have hszms : ∀ x, blockSize ms x = blockSize s x := blockSize_headers_eq hms5
  have hgms : ∀ x, getHeader ms x = getHeader s x := getHeader_headers_eq hms5
  -- accessor facts for the final state s4
  have hsz4 : ∀ x, blockSize { setHeaderMapping (update_size ms m req) m ms.mappingIndex with
      mappingIndex := ms.mappingIndex + 1 } x =
      if x = m then req else blockSize s x := by
    intro x
    show blockSize (setHeaderMapping (update_size ms m req) m ms.mappingIndex) x = _
    rw [blockSize_setHeaderMapping, blockSize_update_size]
    by_cases hx : x = m
    · rw [if_pos hx, if_pos hx, mod48_eq_of_lt hreq48]
    · rw [if_neg hx, if_neg hx, hszms x]
  have hfree4 : ∀ x, (getHeader { setHeaderMapping (update_size ms m req) m ms.mappingIndex with
      mappingIndex := ms.mappingIndex + 1 } x).free = (getHeader s x).free := by
    intro x
    show (getHeader (setHeaderMapping (update_size ms m req) m ms.mappingIndex) x).free = _
    rw [free_setHeaderMapping, free_update_size]
    have := congrArg Header.free (hgms x)
    exact this
  have hmap4 : ∀ x, (getHeader { setHeaderMapping (update_size ms m req) m ms.mappingIndex with
      mappingIndex := ms.mappingIndex + 1 } x).mapping =
      if x = m then ms.mappingIndex % MAP15 else (getHeader s x).mapping := by
    intro x
    show (getHeader (setHeaderMapping (update_size ms m req) m ms.mappingIndex) x).mapping = _
    rw [mapping_setHeaderMapping]
    by_cases hx : x = m
    · rw [if_pos hx, if_pos hx]
    · rw [if_neg hx, if_neg hx, mapping_update_size]
      exact congrArg Header.mapping (hgms x)
  have hftr4 : ∀ y, ({ setHeaderMapping (update_size ms m req) m ms.mappingIndex with
      mappingIndex := ms.mappingIndex + 1 } : AllocState).footers y =
      if y = m + req - FOOTER_SIZE then some req else s.footers y := by
    intro y
    show (update_size ms m req).footers y = _
    rw [footers_update_size]
    have haddr : sub64 (wrap64 (m + req)) FOOTER_SIZE = m + req - FOOTER_SIZE :=
      footer_addr_norm (by omega) (by omega)
    rw [haddr]
    by_cases hy : y = m + req - FOOTER_SIZE
    · rw [if_pos hy, if_pos hy, Nat.mod_eq_of_lt (by omega : req < U64)]
    · rw [if_neg hy, if_neg hy, hms6]
  have hbkt4 : ({ setHeaderMapping (update_size ms m req) m ms.mappingIndex with
      mappingIndex := ms.mappingIndex + 1 } : AllocState).buckets = s.buckets := by
    show (update_size ms m req).buckets = _
    rw [buckets_update_size, hms4]
  have hidx4 : ({ setHeaderMapping (update_size ms m req) m ms.mappingIndex with
      mappingIndex := ms.mappingIndex + 1 } : AllocState).mappingIndex = jn + 1 := by
    show ms.mappingIndex + 1 = jn + 1
    rw [hmsjn]
  have hlo4 : ({ setHeaderMapping (update_size ms m req) m ms.mappingIndex with
      mappingIndex := ms.mappingIndex + 1 } : AllocState).mappingLo = ms.mappingLo := rfl
  have hhi4 : ({ setHeaderMapping (update_size ms m req) m ms.mappingIndex with
      mappingIndex := ms.mappingIndex + 1 } : AllocState).mappingHi = ms.mappingHi := rfl
  have hinit4 : ({ setHeaderMapping (update_size ms m req) m ms.mappingIndex with
      mappingIndex := ms.mappingIndex + 1 } : AllocState).inited = s.inited := hms7
  have hhdr4 : ∀ x, ¬ x = m →
      ({ setHeaderMapping (update_size ms m req) m ms.mappingIndex with
        mappingIndex := ms.mappingIndex + 1 } : AllocState).headers x = s.headers x := by
    intro x hx
    show (setHeaderMapping (update_size ms m req) m ms.mappingIndex).headers x = _
    rw [headers_setHeaderMapping_ne _ _ _ hx, headers_update_size_ne _ _ _ hx, hms5]
  -- the fresh region reads as zero, so the new block is born allocated
  have hfreem : (getHeader s m).free = false := by
    have : s.headers m = none := by
      refine hInv.2.2.2.2 m ?_
      intro j hj
      exact hmout j hj
    unfold getHeader
    rw [this]
    rfl
  obtain ⟨L0, hcL0, hbase0, hbb0⟩ := hchainjn
  -- the new chain of mapping jn
  have hcnew : ChainSeq { setHeaderMapping (update_size ms m req) m ms.mappingIndex with
      mappingIndex := ms.mappingIndex + 1 } (ms.mappingLo jn) (ms.mappingHi jn) (L0 ++ [m]) := by
    have hmemne : ∀ x ∈ L0, ¬ x = m := by
      intro x hx hxm
      have hbm := chainSeq_mem_bounds hcL0 x hx
      omega
    refine chainSeq_append (chainSeq_congr hcL0 ?_) ?_
    · intro x hx
      rw [hsz4 x, if_neg (hmemne x hx)]
    · rw [hhijn]
      refine ChainSeq.cons _ _ _ (by rw [hsz4 m, if_pos rfl]; omega) ?_
      rw [hsz4 m, if_pos rfl]
      exact ChainSeq.nil _
  have hmemL0 : ∀ x ∈ L0, ¬ x = m := by
    intro x hx hxm
    have hbm := chainSeq_mem_bounds hcL0 x hx
    omega
  refine ⟨⟨?_, ?_, ?_, ⟨?_, ?_⟩, ?_, ?_⟩, ?_, ?_, hhdr4, L0, hcL0, hcnew⟩
  · -- inited → mappingIndex = 0 (vacuous: malloc_ initialized first)
    intro h
    rw [hinit4, hinited] at h
    exact absurd h (by decide)
  · -- mapOKx for every mapping
    intro j hj
    rw [hidx4] at hj
    by_cases hjjn : j = jn
    · subst hjjn
      refine ⟨by rw [hlo4]; exact hlo0jn, ?_, ?_, L0 ++ [m], by rw [hlo4, hhi4]; exact hcnew,
        ?_, ?_⟩
      · rw [hlo4, hhi4, hhijn]
        omega
      · rw [hhi4, hhijn]
        exact hbound
      · intro a ha
        rcases List.mem_append.mp ha with ha0 | ham
        · have hane := hmemL0 a ha0
          obtain ⟨hB1, hB2, hB3, hB4⟩ := hbase0 a ha0
          have hsza : blockSize { setHeaderMapping (update_size ms m req) m ms.mappingIndex with
              mappingIndex := ms.mappingIndex + 1 } a = blockSize s a := by
            rw [hsz4 a, if_neg hane]
          have hbm := chainSeq_mem_bounds hcL0 a ha0
          refine ⟨by rw [hsza]; exact hB1, by rw [hsza]; exact hB2, ?_, ?_⟩
          · rw [hmap4 a, if_neg hane]
            exact hB3
          · have hne : ¬ (a + blockSize s a - FOOTER_SIZE = m + req - FOOTER_SIZE) := by
              rw [hMA] at hB1
              omega
            rw [hsza, hftr4, if_neg hne]
            exact hB4
        · rw [List.mem_singleton.mp ham]
          refine ⟨by rw [hsz4 m, if_pos rfl]; exact hreq32,
            by rw [hsz4 m, if_pos rfl]; exact hreq8, ?_, ?_⟩
          · rw [hmap4 m, if_pos rfl, hmsjn, hM15v]
            omega
          · rw [hsz4 m, if_pos rfl, hftr4, if_pos rfl]
      · intro a ha hane
        rcases List.mem_append.mp ha with ha0 | ham
        · have hBB := hbb0 a ha0
          have hanem := hmemL0 a ha0
          unfold blockBucketOK at hBB ⊢
          rw [hfree4 a]
          have hsza : blockSize { setHeaderMapping (update_size ms m req) m ms.mappingIndex with
              mappingIndex := ms.mappingIndex + 1 } a = blockSize s a := by
            rw [hsz4 a, if_neg hanem]
          rw [hsza]
          rw [show ({ setHeaderMapping (update_size ms m req) m ms.mappingIndex with
              mappingIndex := ms.mappingIndex + 1 } : AllocState).buckets = s.buckets from hbkt4]
          exact hBB
        · exact absurd (List.mem_singleton.mp ham) hane
    · -- other mappings untouched
      obtain ⟨ho1, ho2, ho3, ho4, ho5, hjs⟩ := hother j hj hjjn
      have hmemne : ∀ L', ChainSeq s (s.mappingLo j) (s.mappingHi j) L' →
          ∀ x ∈ L', ¬ x = m := by
        intro L' hc' x hx hxm
        have hbm := chainSeq_mem_bounds hc' x hx
        rcases hmout j hjs with h | h
        · omega
        · omega
      obtain ⟨_, _, _, Lj, hcj, hbasej, hbbj⟩ := hInv.2.1 j hjs
      refine ⟨by rw [hlo4]; exact ho1, by rw [hlo4, hhi4]; exact ho2,
        by rw [hhi4]; exact ho3, Lj, ?_, ?_, ?_⟩
      · rw [hlo4, hhi4, ho4, ho5]
        refine chainSeq_congr hcj ?_
        intro x hx
        rw [hsz4 x, if_neg (hmemne Lj hcj x hx)]
      · intro a ha
        have hane := hmemne Lj hcj a ha
        obtain ⟨hB1, hB2, hB3, hB4⟩ := hbasej a ha
        have hsza : blockSize { setHeaderMapping (update_size ms m req) m ms.mappingIndex with
            mappingIndex := ms.mappingIndex + 1 } a = blockSize s a := by
          rw [hsz4 a, if_neg hane]
        have hbm := chainSeq_mem_bounds hcj a ha
        refine ⟨by rw [hsza]; exact hB1, by rw [hsza]; exact hB2, ?_, ?_⟩
        · rw [hmap4 a, if_neg hane]
          exact hB3
        · have hne : ¬ (a + blockSize s a - FOOTER_SIZE = m + req - FOOTER_SIZE) := by
            rw [hMA] at hB1
            rcases hfreshm j hjs with h | h <;> omega
          rw [hsza, hftr4, if_neg hne]
          exact hB4
      · intro a ha hane
        have hanem := hmemne Lj hcj a ha
        have hBB := hbbj a ha
        unfold blockBucketOK at hBB ⊢
        rw [hfree4 a]
        have hsza : blockSize { setHeaderMapping (update_size ms m req) m ms.mappingIndex with
            mappingIndex := ms.mappingIndex + 1 } a = blockSize s a := by
          rw [hsz4 a, if_neg hanem]
        rw [hsza]
        rw [show ({ setHeaderMapping (update_size ms m req) m ms.mappingIndex with
            mappingIndex := ms.mappingIndex + 1 } : AllocState).buckets = s.buckets from hbkt4]
        exact hBB
  · -- bucketsOK
    intro i
    obtain ⟨hmem0, hsort0, hnd0⟩ := hInv.2.2.1 i
    rw [show ({ setHeaderMapping (update_size ms m req) m ms.mappingIndex with
        mappingIndex := ms.mappingIndex + 1 } : AllocState).buckets = s.buckets from hbkt4]
    refine ⟨?_, ?_, hnd0⟩
    · intro a ha
      have hane := hbmem i a ha
      obtain ⟨h1, j', L', hj', hc', hm'⟩ := hmem0 a ha
      have hsza : blockSize { setHeaderMapping (update_size ms m req) m ms.mappingIndex with
          mappingIndex := ms.mappingIndex + 1 } a = blockSize s a := by
        rw [hsz4 a, if_neg hane]
      refine ⟨by rw [hsza]; exact h1, ?_⟩
      by_cases hjjn : j' = jn
      · -- the block sits in the extended mapping's new chain
        rw [hjjn] at hc' hj'
        obtain ⟨hloeq, hmeq⟩ := hmapjn hj'
        have hc0' : ChainSeq s (s.mappingLo jn) (s.mappingHi jn) L0 := by
          rw [← hloeq, ← hmeq]
          exact hcL0
        have hLL : L' = L0 := chainSeq_unique hc' hc0'
        rw [hLL] at hm'
        refine ⟨jn, L0 ++ [m], by rw [hidx4]; omega, ?_,
          List.mem_append.mpr (Or.inl hm')⟩
        exact hcnew
      · -- untouched mapping: its chain transfers verbatim
        obtain ⟨ho1, ho2, ho3, ho4, ho5, hjs⟩ :=
          hother j' (lt_of_lt_of_le hj' hsm) hjjn
        have hxne : ∀ x ∈ L', ¬ x = m := by
          intro x hx hxm
          have hbm := chainSeq_mem_bounds hc' x hx
          rcases hmout j' hj' with h | h <;> omega
        refine ⟨j', L', by rw [hidx4]; omega, ?_, hm'⟩
        show ChainSeq _ (ms.mappingLo j') (ms.mappingHi j') L'
        rw [ho4, ho5]
        exact chainSeq_congr hc' (fun x hx => by rw [hsz4 x, if_neg (hxne x hx)])
    · -- sortedness transfers: bucket members keep their sizes
      refine List.Pairwise.imp_of_mem ?_ hsort0
      intro a b ha hb hab
      rw [hsz4 a, if_neg (hbmem i a ha), hsz4 b, if_neg (hbmem i b hb)]
      exact hab
  · -- registry within capacity
    rw [hidx4]
    exact hidx1
  · -- registry ranges pairwise disjoint
    intro j k hj hk hjk
    rw [hidx4] at hj hk
    show ms.mappingHi j ≤ ms.mappingLo k ∨ ms.mappingHi k ≤ ms.mappingLo j
    exact hdisj j k hj hk hjk
  · -- memory outside the (new) mappings is still untouched
    intro x hx
    rw [hidx4] at hx
    rw [hlo4, hhi4] at hx
    have hxm : ¬ x = m := by
      intro hxm
      rcases hx jn (by omega) with h | h
      · omega
      · rw [hhijn] at h
        omega
    rw [hhdr4 x hxm]
    refine hInv.2.2.2.2 x ?_
    intro j hj
    by_cases hjjn : j = jn
    · rw [hjjn] at hj ⊢
      obtain ⟨hloeq, hmeq⟩ := hmapjn hj
      rcases hx jn (by omega) with h | h
      · left
        rw [← hloeq]
        exact h
      · right
        rw [hhijn] at h
        omega
    · obtain ⟨_, _, _, ho4, ho5, _⟩ := hother j (by omega) hjjn
      rcases hx j (by omega) with h | h
      · left
        rw [← ho4]
        exact h
      · right
        rw [← ho5]
        exact h
  · -- the carved block is in no bucket
    intro i
    rw [show ({ setHeaderMapping (update_size ms m req) m ms.mappingIndex with
        mappingIndex := ms.mappingIndex + 1 } : AllocState).buckets = s.buckets from hbkt4]
    exact fun hmem => hbmem i m hmem rfl
  · -- the carved block is a managed block of mapping jn
    refine ⟨jn, L0 ++ [m], by rw [hidx4]; omega, ?_,
      List.mem_append.mpr (Or.inr (List.mem_singleton.mpr rfl))⟩
    exact hcnew
  · -- and it has exactly the requested size
    rw [hsz4 m, if_pos rfl]

/-- The merge branch of get_mapping: the granted region starts exactly at
the previous mapping's high end (`mappings[--mapping_index][1] += size`),
after which get_block_from_os sizes and stamps the covering block. -/
theorem merge_invExcept (s ms : AllocState) (m R : Nat)
    (hmsdef : ms = { s with
      mappingIndex := s.mappingIndex - 1,
      mappingHi := fun j => if j = s.mappingIndex - 1
        then wrap64 (s.mappingHi (s.mappingIndex - 1) + R) else s.mappingHi j })
    (hInv : Inv s) (hinited : s.inited = true)
    (hm0 : 0 < m) (hbound : m + R ≤ SIZE48)
    (hR32 : MIN_ALLOC ≤ R) (hR8 : MEM_UNIT ∣ R)
    (hfresh : ∀ j, j < s.mappingIndex → m + R ≤ s.mappingLo j ∨ s.mappingHi j ≤ m)
    (hpos : 0 < s.mappingIndex) (hmhi : m = s.mappingHi (s.mappingIndex - 1)) :
    InvExcept { setHeaderMapping (update_size ms m R) m ms.mappingIndex with
      mappingIndex := ms.mappingIndex + 1 } m ∧
    validBlock { setHeaderMapping (update_size ms m R) m ms.mappingIndex with
      mappingIndex := ms.mappingIndex + 1 } m ∧
    blockSize { setHeaderMapping (update_size ms m R) m ms.mappingIndex with
      mappingIndex := ms.mappingIndex + 1 } m = R ∧
    (∀ x, ¬ x = m → ({ setHeaderMapping (update_size ms m R) m ms.mappingIndex with
      mappingIndex := ms.mappingIndex + 1 } : AllocState).headers x = s.headers x) ∧
    (∃ L0, ChainSeq s (ms.mappingLo (s.mappingIndex - 1)) m L0 ∧
      ChainSeq { setHeaderMapping (update_size ms m R) m ms.mappingIndex with
        mappingIndex := ms.mappingIndex + 1 } (ms.mappingLo (s.mappingIndex - 1))
        (ms.mappingHi (s.mappingIndex - 1)) (L0 ++ [m])) := by
  have hMA : MIN_ALLOC = 32 := rfl
  have hS48 : SIZE48 = 281474976710656 := by norm_num [SIZE48]
  have hU64v : U64 = 18446744073709551616 := by norm_num [U64]
  have hcap := hInv.2.2.2.1.1
  have hdisj0 := hInv.2.2.2.1.2
  obtain ⟨hl0, hlh, hh48, L0, hc0, hbase0, hbb0⟩ :=
    hInv.2.1 (s.mappingIndex - 1) (by omega)
  have hmsloeq : ∀ i, ms.mappingLo i = s.mappingLo i := by
    intro i
    rw [hmsdef]
  have hmshine : ∀ i, ¬ i = s.mappingIndex - 1 → ms.mappingHi i = s.mappingHi i := by
    intro i hi
    rw [hmsdef]
    show (if i = s.mappingIndex - 1
        then wrap64 (s.mappingHi (s.mappingIndex - 1) + R) else s.mappingHi i) = s.mappingHi i
    rw [if_neg hi]
  have hmshijn : ms.mappingHi (s.mappingIndex - 1) = m + R := by
    rw [hmsdef]
    show (if s.mappingIndex - 1 = s.mappingIndex - 1
        then wrap64 (s.mappingHi (s.mappingIndex - 1) + R)
        else s.mappingHi (s.mappingIndex - 1)) = m + R
    rw [if_pos rfl, ← hmhi, wrap64_eq_of_lt (by omega)]
  refine new_block_invExcept s ms m R (s.mappingIndex - 1) hInv hinited hm0 hbound hR32 hR8
    hfresh (by rw [hmsdef]) (by rw [hmsdef]) (by rw [hmsdef]) (by rw [hmsdef])
    (by rw [hmsdef]) (by omega) (by omega) ?_ ?_ ?_ ?_ ?_ ?_ ?_ ?_
  · intro hj
    exact ⟨hmsloeq _, hmhi⟩
  · rw [hmsloeq, hmhi]
    exact le_of_lt hlh
  · exact hmshijn
  · rw [hmsloeq]
    exact hl0
  · refine ⟨L0, ?_, hbase0, hbb0⟩
    rw [hmsloeq, hmhi]
    exact hc0
  · intro j hj hne
    have hjlt : j < s.mappingIndex := by omega
    obtain ⟨hp1, hp2, hp3, _⟩ := hInv.2.1 j hjlt
    have hhij : ms.mappingHi j = s.mappingHi j := hmshine j hne
    refine ⟨by rw [hmsloeq j]; exact hp1, by rw [hmsloeq j, hhij]; exact hp2,
      by rw [hhij]; exact hp3, hmsloeq j, hhij, hjlt⟩
  · intro j k hj hk hjk
    by_cases hjn : j = s.mappingIndex - 1
    · have hkn : ¬ k = s.mappingIndex - 1 := by omega
      have hk' : k < s.mappingIndex := by omega
      have e1 : ms.mappingHi j = m + R := by rw [hjn]; exact hmshijn
      have e2 : ms.mappingLo j = s.mappingLo (s.mappingIndex - 1) := by
        rw [hjn]
        exact hmsloeq _
      rw [e1, e2, hmsloeq k, hmshine k hkn]
      rcases hfresh k hk' with h | h
      · left
        exact h
      · rcases hdisj0 (s.mappingIndex - 1) k (by omega) hk' (by omega) with h2 | h2
        · have hklh := (hInv.2.1 k hk').2.1
          rw [← hmhi] at h2
          omega
        · right
          exact h2
    · by_cases hkn : k = s.mappingIndex - 1
      · have hj' : j < s.mappingIndex := by omega
        have e1 : ms.mappingHi k = m + R := by rw [hkn]; exact hmshijn
        have e2 : ms.mappingLo k = s.mappingLo (s.mappingIndex - 1) := by
          rw [hkn]
          exact hmsloeq _
        rw [e1, e2, hmsloeq j, hmshine j hjn]
        rcases hfresh j hj' with h | h
        · right
          exact h
        · rcases hdisj0 (s.mappingIndex - 1) j (by omega) hj' (by omega) with h2 | h2
          · have hjlh := (hInv.2.1 j hj').2.1
            rw [← hmhi] at h2
            omega
          · left
            exact h2
      · have hj' : j < s.mappingIndex := by omega
        have hk' : k < s.mappingIndex := by omega
        rw [hmsloeq j, hmsloeq k, hmshine j hjn, hmshine k hkn]
        exact hdisj0 j k hj' hk' hjk
  · intro i b hb hbm
    obtain ⟨_, hvb, _, _⟩ := inv_bucket_member hInv hb
    obtain ⟨j', hj', _, _, hlo', hhi', hpos'⟩ := inv_valid_block hInv hvb
    by_cases hj'n : j' = s.mappingIndex - 1
    · rw [hj'n, ← hmhi] at hhi'
      omega
    · rcases hfresh j' hj' with h | h
      · omega
      · omega

/-- The fresh-registration branch of get_mapping: the granted region is
recorded in a new registry slot `mappings[mapping_index]`, after which
get_block_from_os sizes and stamps the covering block. -/
theorem fresh_invExcept (s ms : AllocState) (m R : Nat)
    (hmsdef : ms = { s with
      mappingLo := fun j => if j = s.mappingIndex then m else s.mappingLo j,
      mappingHi := fun j => if j = s.mappingIndex then wrap64 (m + R) else s.mappingHi j })
    (hInv : Inv s) (hinited : s.inited = true)
    (hm0 : 0 < m) (hbound : m + R ≤ SIZE48)
    (hR32 : MIN_ALLOC ≤ R) (hR8 : MEM_UNIT ∣ R)
    (hfresh : ∀ j, j < s.mappingIndex → m + R ≤ s.mappingLo j ∨ s.mappingHi j ≤ m)
    (hfull : ¬ s.mappingIndex = NUM_MAPPINGS) :
    InvExcept { setHeaderMapping (update_size ms m R) m ms.mappingIndex with
      mappingIndex := ms.mappingIndex + 1 } m ∧
    validBlock { setHeaderMapping (update_size ms m R) m ms.mappingIndex with
      mappingIndex := ms.mappingIndex + 1 } m ∧
    blockSize { setHeaderMapping (update_size ms m R) m ms.mappingIndex with
      mappingIndex := ms.mappingIndex + 1 } m = R ∧
    (∀ x, ¬ x = m → ({ setHeaderMapping (update_size ms m R) m ms.mappingIndex with
      mappingIndex := ms.mappingIndex + 1 } : AllocState).headers x = s.headers x) ∧
    (∃ L0, ChainSeq s (ms.mappingLo s.mappingIndex) m L0 ∧
      ChainSeq { setHeaderMapping (update_size ms m R) m ms.mappingIndex with
        mappingIndex := ms.mappingIndex + 1 } (ms.mappingLo s.mappingIndex)
        (ms.mappingHi s.mappingIndex) (L0 ++ [m])) := by
  have hMA : MIN_ALLOC = 32 := rfl
  have hS48 : SIZE48 = 281474976710656 := by norm_num [SIZE48]
  have hU64v : U64 = 18446744073709551616 := by norm_num [U64]
  have hcap := hInv.2.2.2.1.1
  have hdisj0 := hInv.2.2.2.1.2
  have hmslone : ∀ i, ¬ i = s.mappingIndex → ms.mappingLo i = s.mappingLo i := by
    intro i hi
    rw [hmsdef]
    show (if i = s.mappingIndex then m else s.mappingLo i) = s.mappingLo i
    rw [if_neg hi]
  have hmshine : ∀ i, ¬ i = s.mappingIndex → ms.mappingHi i = s.mappingHi i := by
    intro i hi
    rw [hmsdef]
    show (if i = s.mappingIndex then wrap64 (m + R) else s.mappingHi i) = s.mappingHi i
    rw [if_neg hi]
  have hmslojn : ms.mappingLo s.mappingIndex = m := by
    rw [hmsdef]
    show (if s.mappingIndex = s.mappingIndex then m else s.mappingLo s.mappingIndex) = m
    rw [if_pos rfl]
  have hmshijn : ms.mappingHi s.mappingIndex = m + R := by
    rw [hmsdef]
    show (if s.mappingIndex = s.mappingIndex then wrap64 (m + R)
        else s.mappingHi s.mappingIndex) = m + R
    rw [if_pos rfl, wrap64_eq_of_lt (by omega)]
  refine new_block_invExcept s ms m R s.mappingIndex hInv hinited hm0 hbound hR32 hR8
    hfresh (by rw [hmsdef]) (by rw [hmsdef]) (by rw [hmsdef]) (by rw [hmsdef])
    (by rw [hmsdef]) (by omega) (by omega) ?_ ?_ ?_ ?_ ?_ ?_ ?_ ?_
  · intro h
    exact absurd h (lt_irrefl _)
  · exact le_of_eq hmslojn
  · exact hmshijn
  · rw [hmslojn]
    exact hm0
  · refine ⟨[], ?_, ?_, ?_⟩
    · rw [hmslojn]
      exact ChainSeq.nil m
    · intro a ha
      exact absurd ha (List.not_mem_nil a)
    · intro a ha
      exact absurd ha (List.not_mem_nil a)
  · intro j hj hne
    have hjlt : j < s.mappingIndex := by omega
    obtain ⟨hp1, hp2, hp3, _⟩ := hInv.2.1 j hjlt
    have hloj : ms.mappingLo j = s.mappingLo j := hmslone j hne
    have hhij : ms.mappingHi j = s.mappingHi j := hmshine j hne
    refine ⟨by rw [hloj]; exact hp1, by rw [hloj, hhij]; exact hp2,
      by rw [hhij]; exact hp3, hloj, hhij, hjlt⟩
  · intro j k hj hk hjk
    by_cases hjn : j = s.mappingIndex
    · have hkn : ¬ k = s.mappingIndex := by omega
      have hk' : k < s.mappingIndex := by omega
      have e1 : ms.mappingHi j = m + R := by rw [hjn]; exact hmshijn
      have e2 : ms.mappingLo j = m := by rw [hjn]; exact hmslojn
      rw [e1, e2, hmslone k hkn, hmshine k hkn]
      exact hfresh k hk'
    · by_cases hkn : k = s.mappingIndex
      · have hj' : j < s.mappingIndex := by omega
        have e1 : ms.mappingHi k = m + R := by rw [hkn]; exact hmshijn
        have e2 : ms.mappingLo k = m := by rw [hkn]; exact hmslojn
        rw [e1, e2, hmslone j hjn, hmshine j hjn]
        rcases hfresh j hj' with h | h
        · right
          exact h
        · left
          exact h
      · have hj' : j < s.mappingIndex := by omega
        have hk' : k < s.mappingIndex := by omega
        rw [hmslone j hjn, hmslone k hkn, hmshine j hjn, hmshine k hkn]
        exact hdisj0 j k hj' hk' hjk
  · intro i b hb hbm
    obtain ⟨_, hvb, _, _⟩ := inv_bucket_member hInv hb
    obtain ⟨j', hj', _, _, hlo', hhi', hpos'⟩ := inv_valid_block hInv hvb
    rcases hfresh j' hj' with h | h
    · omega
    · omega

/-- The adjacency invariant transfers along states with identical
registry, sizes and free flags. -/
theorem adjInv_congr {s t : AllocState}
    (hidx : t.mappingIndex = s.mappingIndex)
    (hlo : t.mappingLo = s.mappingLo) (hhi : t.mappingHi = s.mappingHi)
    (hsz : ∀ x, blockSize t x = blockSize s x)
    (hfr : ∀ x, (getHeader t x).free = (getHeader s x).free)
    (h : AdjInv s) : AdjInv t := by
  intro j hj L hc
  rw [hidx] at hj
  rw [hlo, hhi] at hc
  have hcs : ChainSeq s (s.mappingLo j) (s.mappingHi j) L :=
    chainSeq_congr hc (fun x _ => (hsz x).symm)
  refine List.Chain'.imp ?_ (h j hj L hcs)
  intro a b hab
  unfold nonAdjFree at hab ⊢
  rw [hfr a, hfr b]
  exact hab

/-- Marking a block allocated can only strengthen the adjacency
invariant. -/
theorem adjInv_setFree_false {s : AllocState} (e : Nat) (h : AdjInv s) :
    AdjInv (setHeaderFree s e false) := by
  intro j hj L hc
  have hj' : j < s.mappingIndex := hj
  have hcs : ChainSeq s (s.mappingLo j) (s.mappingHi j) L :=
    chainSeq_congr hc (fun x _ => (blockSize_setHeaderFree s e false x).symm)
  refine List.Chain'.imp ?_ (h j hj' L hcs)
  intro a b hab
  unfold nonAdjFree at hab ⊢
  rw [free_setHeaderFree, free_setHeaderFree]
  rcases hab with hab | hab
  · left
    by_cases hae : a = e
    · rw [if_pos hae]
    · rw [if_neg hae]
      exact hab
  · right
    by_cases hbe : b = e
    · rw [if_pos hbe]
    · rw [if_neg hbe]
      exact hab

/-- Flag congruence for the no-adjacent-free chain property: the flag
equality is needed only at the list's members. -/
theorem chain_nonAdjFree_congr {s t : AllocState} {L : List Nat}
    (hfr : ∀ x ∈ L, (getHeader t x).free = (getHeader s x).free)
    (h : L.Chain' (nonAdjFree s)) : L.Chain' (nonAdjFree t) := by
  induction L with
  | nil => exact List.chain'_nil
  | cons a L ih =>
    cases L with
    | nil => exact List.chain'_singleton a
    | cons b L' =>
      rw [List.chain'_cons] at h ⊢
      refine ⟨?_, ih (fun x hx => hfr x (List.mem_cons_of_mem a hx)) h.2⟩
      rcases h.1 with h1 | h1
      · exact Or.inl (by rw [hfr a (List.mem_cons_self a _)]; exact h1)
      · exact Or.inr
          (by rw [hfr b (List.mem_cons_of_mem a (List.mem_cons_self b _))]; exact h1)

/-- Closing the adjacency invariant over the OS path of malloc_: after a
fresh region [m, m+R) is registered (merged into the top mapping or as a
new one), carved by adjusted_block and stamped allocated, every mapping's
chain still has no two adjacent free blocks. -/
theorem adjInv_os_close (s s4 : AllocState) (m w R jn : Nat) (L0 : List Nat)
    (hAdjS : AdjInv s) (hInv : Inv s)
    (hw32 : MIN_ALLOC ≤ w) (hwR : w ≤ R) (hszeq : blockSize s4 m = R)
    (hidx4 : s4.mappingIndex = jn + 1)
    (hoth : ∀ j, j < jn + 1 → ¬ j = jn →
      s4.mappingLo j = s.mappingLo j ∧ s4.mappingHi j = s.mappingHi j ∧
      j < s.mappingIndex)
    (hdisjm : ∀ j, j < s.mappingIndex → m + R ≤ s.mappingLo j ∨ s.mappingHi j ≤ m)
    (hchain0 : L0.Chain' (nonAdjFree s))
    (hcL0 : ChainSeq s (s4.mappingLo jn) m L0)
    (hcs4 : ChainSeq s4 (s4.mappingLo jn) (s4.mappingHi jn) (L0 ++ [m]))
    (hhijn : s4.mappingHi jn = m + R)
    (hhdrf : ∀ x, ¬ x = m → s4.headers x = s.headers x)
    (hA2idx : (adjusted_block s4 m w).2.mappingIndex = s4.mappingIndex)
    (hA2lo : (adjusted_block s4 m w).2.mappingLo = s4.mappingLo)
    (hA2hi : (adjusted_block s4 m w).2.mappingHi = s4.mappingHi)
    (hor : adjusted_block s4 m w = (m, s4) ∨
      (w + MIN_ALLOC ≤ blockSize s4 m ∧
       (∀ x, blockSize (adjusted_block s4 m w).2 x =
          if x = m then w else if x = m + w then blockSize s4 m - w
          else blockSize s4 x) ∧
       (∀ x, (getHeader (adjusted_block s4 m w).2 x).free =
          if x = m + w then true else (getHeader s4 x).free))) :
    AdjInv (setHeaderFree (adjusted_block s4 m w).2 m false) := by
  have hMA : MIN_ALLOC = 32 := rfl
  have hw32' : 32 ≤ w := by rw [hMA] at hw32; exact hw32
  set A2 : AllocState := (adjusted_block s4 m w).2 with hA2d
  have hsz40 : ∀ x, ¬ x = m → blockSize s4 x = blockSize s x := by
    intro x hx
    unfold blockSize getHeader
    rw [hhdrf x hx]
  have hfr40 : ∀ x, ¬ x = m → (getHeader s4 x).free = (getHeader s x).free := by
    intro x hx
    unfold getHeader
    rw [hhdrf x hx]
  have hFsz : ∀ x, blockSize (setHeaderFree A2 m false) x = blockSize A2 x :=
    blockSize_setHeaderFree A2 m false
  have hFfr : ∀ x, (getHeader (setHeaderFree A2 m false) x).free =
      if x = m then false else (getHeader A2 x).free :=
    free_setHeaderFree A2 m false
  have hFfrm : (getHeader (setHeaderFree A2 m false) m).free = false := by
    rw [hFfr m, if_pos rfl]
  -- uniform transfer facts outside the fresh region
  have hszA : ∀ x, ¬ x = m → (x < m ∨ m + R ≤ x) → blockSize A2 x = blockSize s x := by
    intro x hx hrange
    rcases hor with hunch | ⟨hwle, hszmap, hfrmap⟩
    · have hA2s4 : A2 = s4 := by
        rw [hA2d, hunch]
      rw [hA2s4]
      exact hsz40 x hx
    · have hwR : w + 32 ≤ R := by
        rw [hMA, hszeq] at hwle
        exact hwle
      have hxw : ¬ x = m + w := by omega
      rw [hszmap x, if_neg hx, if_neg hxw]
      exact hsz40 x hx
  have hfrA : ∀ x, ¬ x = m → (x < m ∨ m + R ≤ x) →
      (getHeader A2 x).free = (getHeader s x).free := by
    intro x hx hrange
    rcases hor with hunch | ⟨hwle, hszmap, hfrmap⟩
    · have hA2s4 : A2 = s4 := by
        rw [hA2d, hunch]
      rw [hA2s4]
      exact hfr40 x hx
    · have hwR : w + 32 ≤ R := by
        rw [hMA, hszeq] at hwle
        exact hwle
      have hxw : ¬ x = m + w := by omega
      rw [hfrmap x, if_neg hxw]
      exact hfr40 x hx
  have hmemL0 : ∀ x ∈ L0, x < m := by
    intro x hx
    have hb := chainSeq_mem_bounds hcL0 x hx
    omega
  -- flags of the old chain prefix are untouched
  have hfrL0 : ∀ x ∈ L0, (getHeader (setHeaderFree A2 m false) x).free =
      (getHeader s x).free := by
    intro x hx
    have hxm : ¬ x = m := by
      have := hmemL0 x hx
      omega
    rw [hFfr x, if_neg hxm]
    exact hfrA x hxm (Or.inl (hmemL0 x hx))
  intro j' hj' L hc
  have hFidx : (setHeaderFree A2 m false).mappingIndex = jn + 1 := by
    show A2.mappingIndex = jn + 1
    rw [hA2idx, hidx4]
  rw [hFidx] at hj'
  have hFlo : ∀ i, (setHeaderFree A2 m false).mappingLo i = A2.mappingLo i :=
    fun _ => rfl
  have hFhi : ∀ i, (setHeaderFree A2 m false).mappingHi i = A2.mappingHi i :=
    fun _ => rfl
  rw [hFlo j', hFhi j'] at hc
  by_cases hj'jn : j' = jn
  · -- the mapping that received the fresh region
    rw [hj'jn] at hc
    have hlojn : A2.mappingLo jn = s4.mappingLo jn := by rw [hA2lo]
    have hhijnA : A2.mappingHi jn = s4.mappingHi jn := by rw [hA2hi]
    rcases hor with hunch | ⟨hwle, hszmap, hfrmap⟩
    · -- no split: the new chain is L0 ++ [m]
      have hA2s4 : A2 = s4 := by
        rw [hA2d, hunch]
      have hcA2 : ChainSeq A2 (A2.mappingLo jn) (A2.mappingHi jn) (L0 ++ [m]) := by
        rw [hA2s4]
        exact hcs4
      have hcF : ChainSeq (setHeaderFree A2 m false) (A2.mappingLo jn)
          (A2.mappingHi jn) (L0 ++ [m]) :=
        chainSeq_congr hcA2 (fun x _ => hFsz x)
      rw [chainSeq_unique hc hcF]
      refine (List.chain'_append).mpr ⟨?_, List.chain'_singleton m, ?_⟩
      · exact chain_nonAdjFree_congr hfrL0 hchain0
      · intro x hx y hy
        simp only [List.head?_cons, Option.mem_def, Option.some.injEq] at hy
        rw [← hy]
        exact Or.inr hFfrm
    · -- split: the new chain is L0 ++ [m, m + w]
      have hwR : w + 32 ≤ R := by
        rw [hMA, hszeq] at hwle
        exact hwle
      have hne1 : ¬ (m + w = m) := by omega
      have hszm : blockSize A2 m = w := by
        rw [hszmap m, if_pos rfl]
      have hszmw : blockSize A2 (m + w) = R - w := by
        rw [hszmap (m + w), if_neg hne1, if_pos rfl, hszeq]
      have hpre : ChainSeq A2 (A2.mappingLo jn) m L0 := by
        rw [hlojn]
        exact chainSeq_congr hcL0 (fun x hx =>
          hszA x (by have := hmemL0 x hx; omega) (Or.inl (hmemL0 x hx)))
      have hsuf : ChainSeq A2 m (A2.mappingHi jn) [m, m + w] := by
        refine ChainSeq.cons _ _ _ (by rw [hszm]; omega) ?_
        rw [hszm]
        refine ChainSeq.cons _ _ _ (by rw [hszmw]; omega) ?_
        rw [hszmw, hhijnA, hhijn, show m + w + (R - w) = m + R from by omega]
        exact ChainSeq.nil _
      have hcA2 : ChainSeq A2 (A2.mappingLo jn) (A2.mappingHi jn)
          (L0 ++ [m, m + w]) := chainSeq_append hpre hsuf
      have hcF : ChainSeq (setHeaderFree A2 m false) (A2.mappingLo jn)
          (A2.mappingHi jn) (L0 ++ [m, m + w]) :=
        chainSeq_congr hcA2 (fun x _ => hFsz x)
      rw [chainSeq_unique hc hcF]
      refine (List.chain'_append).mpr ⟨?_, ?_, ?_⟩
      · exact chain_nonAdjFree_congr hfrL0 hchain0
      · rw [List.chain'_cons]
        exact ⟨Or.inl hFfrm, List.chain'_singleton (m + w)⟩
      · intro x hx y hy
        simp only [List.head?_cons, Option.mem_def, Option.some.injEq] at hy
        rw [← hy]
        exact Or.inr hFfrm
  · -- untouched mappings: their chains and flags are unchanged
    obtain ⟨hloeq, hhieq, hj'S⟩ := hoth j' hj' hj'jn
    obtain ⟨hlo0, hlh, hh48, Lj, hcLj, hbase, hbb⟩ := hInv.2.1 j' hj'S
    have hmem : ∀ x ∈ Lj, ¬ x = m ∧ (x < m ∨ m + R ≤ x) := by
      intro x hx
      have hb := chainSeq_mem_bounds hcLj x hx
      rcases hdisjm j' hj'S with h | h
      · constructor
        · omega
        · right
          omega
      · constructor
        · omega
        · left
          omega
    have hcLjF : ChainSeq (setHeaderFree A2 m false) (s.mappingLo j')
        (s.mappingHi j') Lj :=
      chainSeq_congr hcLj (fun x hx => by
        rw [hFsz x]
        exact hszA x (hmem x hx).1 (hmem x hx).2)
    rw [hA2lo, hA2hi, hloeq, hhieq] at hc
    rw [chainSeq_unique hc hcLjF]
    refine chain_nonAdjFree_congr ?_ (hAdjS j' hj'S Lj hcLj)
    intro x hx
    rw [hFfr x, if_neg (hmem x hx).1]
    exact hfrA x (hmem x hx).1 (hmem x hx).2

/-- Closing the adjacency invariant over the bucket path of malloc_: a
free chain block leaves its bucket, is possibly split (the tail becoming
a new free block right after it), and is stamped allocated; every
mapping's chain still has no two adjacent free blocks. -/
theorem adjInv_bucket_close (s1 sr : AllocState) (a w : Nat)
    (hInv1 : Inv s1) (hAdj1 : AdjInv s1)
    (hfa : (getHeader s1 a).free = true)
    (hval : validBlock s1 a)
    (hw32 : MIN_ALLOC ≤ w)
    (hsrh : sr.headers = s1.headers)
    (hsridx : sr.mappingIndex = s1.mappingIndex)
    (hsrlo : sr.mappingLo = s1.mappingLo) (hsrhi : sr.mappingHi = s1.mappingHi)
    (hA2idx : (adjusted_block sr a w).2.mappingIndex = sr.mappingIndex)
    (hA2lo : (adjusted_block sr a w).2.mappingLo = sr.mappingLo)
    (hA2hi : (adjusted_block sr a w).2.mappingHi = sr.mappingHi)
    (hor : adjusted_block sr a w = (a, sr) ∨
      (w + MIN_ALLOC ≤ blockSize sr a ∧
       (∀ x, blockSize (adjusted_block sr a w).2 x =
          if x = a then w else if x = a + w then blockSize sr a - w
          else blockSize sr x) ∧
       (∀ x, (getHeader (adjusted_block sr a w).2 x).free =
          if x = a + w then true else (getHeader sr x).free))) :
    AdjInv (setHeaderFree (adjusted_block sr a w).2 a false) := by
  have hMA : MIN_ALLOC = 32 := rfl
  have hw32' : 32 ≤ w := by rw [hMA] at hw32; exact hw32
  have hsz_sr : ∀ x, blockSize sr x = blockSize s1 x := blockSize_headers_eq hsrh
  have hfr_sr : ∀ x, (getHeader sr x).free = (getHeader s1 x).free := by
    intro x
    unfold getHeader
    rw [hsrh]
  set A2 : AllocState := (adjusted_block sr a w).2 with hA2d
  rcases hor with hunch | ⟨hwle, hszmap, hfrmap⟩
  · -- no split: only the free flag of `a` changes
    have hA2sr : A2 = sr := by
      rw [hA2d, hunch]
    have hAdjA2 : AdjInv A2 := by
      refine adjInv_congr ?_ ?_ ?_ ?_ ?_ hAdj1
      · rw [hA2sr, hsridx]
      · rw [hA2sr, hsrlo]
      · rw [hA2sr, hsrhi]
      · intro x
        rw [hA2sr]
        exact hsz_sr x
      · intro x
        rw [hA2sr]
        exact hfr_sr x
    exact adjInv_setFree_false a hAdjA2
  · -- split: the carved tail appears right after the allocated block
    have hwle' : w + 32 ≤ blockSize s1 a := by
      rw [hMA, hsz_sr a] at hwle
      exact hwle
    obtain ⟨jb, Lb, hjb, hcLb, haLb⟩ := hval
    have hbnda := chainSeq_mem_bounds hcLb a haLb
    have hszF : ∀ x, blockSize (setHeaderFree A2 a false) x =
        if x = a then w else if x = a + w then blockSize s1 a - w
        else blockSize s1 x := by
      intro x
      rw [blockSize_setHeaderFree, hszmap x, hsz_sr a, hsz_sr x]
    have hfrF : ∀ x, (getHeader (setHeaderFree A2 a false) x).free =
        if x = a then false else if x = a + w then true
        else (getHeader s1 x).free := by
      intro x
      rw [free_setHeaderFree, hfrmap x, hfr_sr x]
    have hfrFa : (getHeader (setHeaderFree A2 a false) a).free = false := by
      rw [hfrF a, if_pos rfl]
    obtain ⟨l1, l2, hdec, hc1, hposa, hc2⟩ := chainSeq_split hcLb haLb
    have hm1 : ∀ x ∈ l1, ¬ x = a ∧ ¬ x = a + w := by
      intro x hx
      have hb := chainSeq_mem_bounds hc1 x hx
      constructor <;> omega
    have hm2 : ∀ x ∈ l2, ¬ x = a ∧ ¬ x = a + w := by
      intro x hx
      have hb := chainSeq_mem_bounds hc2 x hx
      constructor <;> omega
    -- the carved chain of mapping jb in the final state
    have hcstar : ChainSeq (setHeaderFree A2 a false) (s1.mappingLo jb)
        (s1.mappingHi jb) (l1 ++ a :: (a + w) :: l2) := by
      refine chainSeq_append (chainSeq_congr hc1 (fun x hx => by
        rw [hszF x, if_neg (hm1 x hx).1, if_neg (hm1 x hx).2])) ?_
      refine ChainSeq.cons _ _ _ (by rw [hszF a, if_pos rfl]; omega) ?_
      rw [hszF a, if_pos rfl]
      refine ChainSeq.cons _ _ _ ?_ ?_
      · rw [hszF (a + w), if_neg (by omega), if_pos rfl]
        omega
      · rw [hszF (a + w), if_neg (by omega), if_pos rfl,
          show a + w + (blockSize s1 a - w) = a + blockSize s1 a from by omega]
        exact chainSeq_congr hc2 (fun x hx => by
          rw [hszF x, if_neg (hm2 x hx).1, if_neg (hm2 x hx).2])
    have hfrl1 : ∀ x ∈ l1, (getHeader (setHeaderFree A2 a false) x).free =
        (getHeader s1 x).free := by
      intro x hx
      rw [hfrF x, if_neg (hm1 x hx).1, if_neg (hm1 x hx).2]
    have hfrl2 : ∀ x ∈ l2, (getHeader (setHeaderFree A2 a false) x).free =
        (getHeader s1 x).free := by
      intro x hx
      rw [hfrF x, if_neg (hm2 x hx).1, if_neg (hm2 x hx).2]
    have hChainLb : Lb.Chain' (nonAdjFree s1) := hAdj1 jb hjb Lb hcLb
    rw [hdec] at hChainLb
    obtain ⟨hch1, hch2, hjunc⟩ := List.chain'_append.mp hChainLb
    intro j' hj' L hc
    have hFidx : (setHeaderFree A2 a false).mappingIndex = s1.mappingIndex := by
      show A2.mappingIndex = s1.mappingIndex
      rw [hA2idx, hsridx]
    rw [hFidx] at hj'
    have hFlo : (setHeaderFree A2 a false).mappingLo j' = A2.mappingLo j' := rfl
    have hFhi : (setHeaderFree A2 a false).mappingHi j' = A2.mappingHi j' := rfl
    rw [hFlo, hFhi, hA2lo, hA2hi, hsrlo, hsrhi] at hc
    by_cases hj'jb : j' = jb
    · rw [hj'jb] at hc
      rw [chainSeq_unique hc hcstar]
      refine List.chain'_append.mpr ⟨chain_nonAdjFree_congr hfrl1 hch1, ?_, ?_⟩
      · refine List.chain'_cons.mpr ⟨Or.inl hfrFa, ?_⟩
        cases l2 with
        | nil => exact List.chain'_singleton (a + w)
        | cons h2 t2 =>
          refine List.chain'_cons.mpr ⟨?_, ?_⟩
          · refine Or.inr ?_
            rw [hfrl2 h2 (List.mem_cons_self h2 t2)]
            rcases List.chain'_cons.mp hch2 with ⟨hpair, -⟩
            rcases hpair with h | h
            · rw [hfa] at h
              exact absurd h (by decide)
            · exact h
          · refine chain_nonAdjFree_congr ?_ (List.chain'_cons.mp hch2).2
            intro x hx
            exact hfrl2 x hx
      · intro x hx y hy
        simp only [List.head?_cons, Option.mem_def, Option.some.injEq] at hy
        rw [← hy]
        exact Or.inr hfrFa
    · have hdisj := hInv1.2.2.2.1.2 j' jb hj' hjb hj'jb
      obtain ⟨hlo0, hlh, hh48, Lj, hcLj, -, -⟩ := hInv1.2.1 j' hj'
      have hmem : ∀ x ∈ Lj, ¬ x = a ∧ ¬ x = a + w := by
        intro x hx
        have hb := chainSeq_mem_bounds hcLj x hx
        rcases hdisj with h | h
        · constructor <;> omega
        · constructor <;> omega
      have hcLjF : ChainSeq (setHeaderFree A2 a false) (s1.mappingLo j')
          (s1.mappingHi j') Lj :=
        chainSeq_congr hcLj (fun x hx => by
          rw [hszF x, if_neg (hmem x hx).1, if_neg (hmem x hx).2])
      rw [chainSeq_unique hc hcLjF]
      refine chain_nonAdjFree_congr ?_ (hAdj1 j' hj' Lj hcLj)
      intro x hx
      rw [hfrF x, if_neg (hmem x hx).1, if_neg (hmem x hx).2]

/-- get_block_from_os preserves the invariant: a failure leaves a sound
state (overflow/ENOMEM errno write, registry-full no-op), and a returned
block is a managed block of a sound state, carved out of every bucket.
The frame conclusions record that pre-existing mappings only ever grow
and that memory inside them is untouched. -/
theorem get_block_from_os_preserves (s : AllocState) (w : Nat) (ans : Option Nat)
    (hInv : Inv s) (hinited : s.inited = true)
    (hok : oracleOK s (round_up_power_of_two w MMAP_UNIT) ans)
    (hw32 : MIN_ALLOC ≤ w) (hw8 : MEM_UNIT ∣ w) :
    (∀ s2, get_block_from_os s w ans = (none, s2) → Inv s2 ∧ s2.headers = s.headers ∧
      s2.mappingIndex = s.mappingIndex ∧ s2.mappingLo = s.mappingLo ∧
      s2.mappingHi = s.mappingHi) ∧
    (∀ a s2, get_block_from_os s w ans = (some a, s2) →
      InvExcept s2 a ∧ validBlock s2 a ∧
      s.mappingIndex ≤ s2.mappingIndex ∧
      (∀ j, j < s.mappingIndex → s2.mappingLo j = s.mappingLo j ∧
        s.mappingHi j ≤ s2.mappingHi j) ∧
      (∀ x j, j < s.mappingIndex → s.mappingLo j ≤ x → x < s.mappingHi j →
        s2.headers x = s.headers x) ∧
      (∀ j, j < s.mappingIndex → a < s.mappingLo j ∨ s.mappingHi j ≤ a) ∧
      (AdjInv s → AdjInv (setHeaderFree s2 a false))) := by
  have hMA : MIN_ALLOC = 32 := rfl
  by_cases hov : round_up_power_of_two w MMAP_UNIT < w
  · have hfin : get_block_from_os s w ans = (none, { s with errno := EINVAL }) := by
      simp only [get_block_from_os]
      rw [if_pos hov]
    rw [hfin]
    constructor
    · intro s2 heq
      simp only [Prod.mk.injEq] at heq
      rw [← heq.2]
      exact ⟨Inv_errno s EINVAL hInv, rfl, rfl, rfl, rfl⟩
    · intro a s2 heq
      simp only [Prod.mk.injEq] at heq
      exact Option.noConfusion heq.1
  · have hwle : w ≤ round_up_power_of_two w MMAP_UNIT := Nat.le_of_not_lt hov
    have hR32 : MIN_ALLOC ≤ round_up_power_of_two w MMAP_UNIT := le_trans hw32 hwle
    have hRM : MMAP_UNIT ∣ round_up_power_of_two w MMAP_UNIT := by
      unfold round_up_power_of_two
      exact dvd_mul_left _ _
    have hR8 : MEM_UNIT ∣ round_up_power_of_two w MMAP_UNIT :=
      dvd_trans (by norm_num [MEM_UNIT, MMAP_UNIT, PAGE_SIZE]) hRM
    cases ans with
    | none =>
      have hfin : get_block_from_os s w none = (none, { s with errno := ENOMEM }) := by
        simp only [get_block_from_os, get_mapping]
        rw [if_neg hov]
      rw [hfin]
      constructor
      · intro s2 heq
        simp only [Prod.mk.injEq] at heq
        rw [← heq.2]
        exact ⟨Inv_errno s ENOMEM hInv, rfl, rfl, rfl, rfl⟩
      · intro a s2 heq
        simp only [Prod.mk.injEq] at heq
        exact Option.noConfusion heq.1
    | some m =>
      obtain ⟨hm0, hbound, hfresh⟩ := hok m rfl
      have hout : ∀ j, j < s.mappingIndex → m < s.mappingLo j ∨ s.mappingHi j ≤ m := by
        intro j hj
        rcases hfresh j hj with h | h
        · left
          have h32 := hR32
          rw [hMA] at h32
          omega
        · right
          exact h
      by_cases hmg : 0 < s.mappingIndex ∧ m = s.mappingHi (s.mappingIndex - 1)
      · -- fuse into the previous mapping
        set ms : AllocState := { s with
          mappingIndex := s.mappingIndex - 1,
          mappingHi := fun j => if j = s.mappingIndex - 1
            then wrap64 (s.mappingHi (s.mappingIndex - 1) + round_up_power_of_two w MMAP_UNIT)
            else s.mappingHi j } with hmsd
        set s4 : AllocState := { setHeaderMapping
            (update_size ms m (round_up_power_of_two w MMAP_UNIT)) m ms.mappingIndex with
          mappingIndex := ms.mappingIndex + 1 } with hs4d
        have hfin : get_block_from_os s w (some m) =
            (some (adjusted_block s4 m w).1, (adjusted_block s4 m w).2) := by
          rw [hs4d, hmsd]
          simp only [get_block_from_os, get_mapping]
          rw [if_neg hov, if_pos hmg]
          rfl
        obtain ⟨hxc, hvb, hszeq, hhdrf, L0, hcL0, hcs4⟩ :=
          merge_invExcept s ms m (round_up_power_of_two w MMAP_UNIT) hmsd hInv hinited
            hm0 hbound hR32 hR8 hfresh hmg.1 hmg.2
        rw [← hs4d] at hxc hvb hszeq hhdrf hcs4
        have hadj := adjusted_block_preserves s4 m w hxc hvb hw32 hw8
          (by rw [hszeq]; exact hwle)
        have hidx4 : s4.mappingIndex = ms.mappingIndex + 1 := rfl
        have hlo4 : s4.mappingLo = ms.mappingLo := rfl
        have hhi4 : s4.mappingHi = ms.mappingHi := rfl
        have hms1 : ms.mappingIndex = s.mappingIndex - 1 := rfl
        have hmslo : ms.mappingLo = s.mappingLo := rfl
        have hmshi : ∀ j, ¬ j = s.mappingIndex - 1 → ms.mappingHi j = s.mappingHi j := by
          intro j hj
          show (if j = s.mappingIndex - 1
              then wrap64 (s.mappingHi (s.mappingIndex - 1) + round_up_power_of_two w MMAP_UNIT)
              else s.mappingHi j) = s.mappingHi j
          rw [if_neg hj]
        have hmshijn : ms.mappingHi (s.mappingIndex - 1) =
            s.mappingHi (s.mappingIndex - 1) + round_up_power_of_two w MMAP_UNIT := by
          show (if s.mappingIndex - 1 = s.mappingIndex - 1
              then wrap64 (s.mappingHi (s.mappingIndex - 1) + round_up_power_of_two w MMAP_UNIT)
              else s.mappingHi (s.mappingIndex - 1)) = _
          rw [if_pos rfl]
          refine wrap64_eq_of_lt ?_
          rw [← hmg.2]
          have h48 : SIZE48 < U64 := SIZE48_lt_U64
          omega
        have hc3 : s.mappingIndex ≤ (adjusted_block s4 m w).2.mappingIndex := by
          rw [hadj.2.2.2.2.1, hidx4, hms1]
          omega
        have hc4 : ∀ j, j < s.mappingIndex →
            (adjusted_block s4 m w).2.mappingLo j = s.mappingLo j ∧
            s.mappingHi j ≤ (adjusted_block s4 m w).2.mappingHi j := by
          intro j hj
          constructor
          · rw [hadj.2.2.2.2.2.1, hlo4, hmslo]
          · rw [hadj.2.2.2.2.2.2.1, hhi4]
            by_cases hjn : j = s.mappingIndex - 1
            · rw [hjn, hmshijn]
              omega
            · rw [hmshi j hjn]
        have hc5 : ∀ x j, j < s.mappingIndex → s.mappingLo j ≤ x → x < s.mappingHi j →
            (adjusted_block s4 m w).2.headers x = s.headers x := by
          intro x j hj hx1 hx2
          have hxm : ¬ x = m := by
            rcases hout j hj with h | h
            · omega
            · omega
          rcases hadj.2.2.2.2.2.2.2.2.2 with hunch | ⟨hwle32, -, -⟩
          · rw [show (adjusted_block s4 m w).2 = s4 from congrArg Prod.snd hunch]
            exact hhdrf x hxm
          · have hxmw : ¬ x = m + w := by
              rw [hszeq, hMA] at hwle32
              rcases hfresh j hj with h | h
              · omega
              · omega
            rw [hadj.2.2.2.2.2.2.2.2.1 x hxm hxmw]
            exact hhdrf x hxm
        have hadjv : AdjInv s →
            AdjInv (setHeaderFree (adjusted_block s4 m w).2 m false) := by
          intro hAdjS
          have hcL0s : ChainSeq s (s.mappingLo (s.mappingIndex - 1))
              (s.mappingHi (s.mappingIndex - 1)) L0 := by
            rw [hmslo] at hcL0
            rw [← hmg.2]
            exact hcL0
          refine adjInv_os_close s s4 m w (round_up_power_of_two w MMAP_UNIT)
            (s.mappingIndex - 1) L0 hAdjS hInv hw32 hwle hszeq
            (by rw [hidx4, hms1]) ?_ hfresh
            (hAdjS (s.mappingIndex - 1) (by have := hmg.1; omega) L0 hcL0s)
            (by rw [hlo4]; exact hcL0)
            (by rw [hlo4, hhi4]; exact hcs4)
            (by rw [hhi4, hmshijn, ← hmg.2])
            hhdrf hadj.2.2.2.2.1 hadj.2.2.2.2.2.1 hadj.2.2.2.2.2.2.1
            hadj.2.2.2.2.2.2.2.2.2
          intro j hj hne
          have hj' : j < s.mappingIndex := by
            have := hmg.1
            omega
          refine ⟨by rw [hlo4, hmslo], ?_, hj'⟩
          rw [hhi4]
          exact hmshi j hne
        rw [hfin]
        constructor
        · intro s2 heq
          simp only [Prod.mk.injEq] at heq
          exact Option.noConfusion heq.1
        · intro a s2 heq
          simp only [Prod.mk.injEq, Option.some.injEq] at heq
          rw [← heq.1, ← heq.2, hadj.1]
          exact ⟨hadj.2.1, hadj.2.2.1, hc3, hc4, hc5, hout, hadjv⟩
      · by_cases hfull : s.mappingIndex = NUM_MAPPINGS
        · -- registry full: the call fails without touching the state
          have hfin : get_block_from_os s w (some m) = (none, s) := by
            simp only [get_block_from_os, get_mapping]
            rw [if_neg hov, if_neg hmg, if_pos hfull]
          rw [hfin]
          constructor
          · intro s2 heq
            simp only [Prod.mk.injEq] at heq
            rw [← heq.2]
            exact ⟨hInv, rfl, rfl, rfl, rfl⟩
          · intro a s2 heq
            simp only [Prod.mk.injEq] at heq
            exact Option.noConfusion heq.1
        · -- register a fresh mapping
          set ms : AllocState := { s with
            mappingLo := fun j => if j = s.mappingIndex then m else s.mappingLo j,
            mappingHi := fun j => if j = s.mappingIndex
              then wrap64 (m + round_up_power_of_two w MMAP_UNIT) else s.mappingHi j } with hmsd
          set s4 : AllocState := { setHeaderMapping
              (update_size ms m (round_up_power_of_two w MMAP_UNIT)) m ms.mappingIndex with
            mappingIndex := ms.mappingIndex + 1 } with hs4d
          have hfin : get_block_from_os s w (some m) =
              (some (adjusted_block s4 m w).1, (adjusted_block s4 m w).2) := by
            rw [hs4d, hmsd]
            simp only [get_block_from_os, get_mapping]
            rw [if_neg hov, if_neg hmg, if_neg hfull]
            rfl
          obtain ⟨hxc, hvb, hszeq, hhdrf, L0, hcL0, hcs4⟩ :=
            fresh_invExcept s ms m (round_up_power_of_two w MMAP_UNIT) hmsd hInv hinited
              hm0 hbound hR32 hR8 hfresh hfull
          rw [← hs4d] at hxc hvb hszeq hhdrf hcs4
          have hadj := adjusted_block_preserves s4 m w hxc hvb hw32 hw8
            (by rw [hszeq]; exact hwle)
          have hidx4 : s4.mappingIndex = ms.mappingIndex + 1 := rfl
          have hlo4 : s4.mappingLo = ms.mappingLo := rfl
          have hhi4 : s4.mappingHi = ms.mappingHi := rfl
          have hms1 : ms.mappingIndex = s.mappingIndex := rfl
          have hmslo : ∀ j, ¬ j = s.mappingIndex → ms.mappingLo j = s.mappingLo j := by
            intro j hj
            show (if j = s.mappingIndex then m else s.mappingLo j) = s.mappingLo j
            rw [if_neg hj]
          have hmshi : ∀ j, ¬ j = s.mappingIndex → ms.mappingHi j = s.mappingHi j := by
            intro j hj
            show (if j = s.mappingIndex
                then wrap64 (m + round_up_power_of_two w MMAP_UNIT)
                else s.mappingHi j) = s.mappingHi j
            rw [if_neg hj]
          have hc3 : s.mappingIndex ≤ (adjusted_block s4 m w).2.mappingIndex := by
            rw [hadj.2.2.2.2.1, hidx4, hms1]
            omega
          have hc4 : ∀ j, j < s.mappingIndex →
              (adjusted_block s4 m w).2.mappingLo j = s.mappingLo j ∧
              s.mappingHi j ≤ (adjusted_block s4 m w).2.mappingHi j := by
            intro j hj
            have hjne : ¬ j = s.mappingIndex := by omega
            constructor
            · rw [hadj.2.2.2.2.2.1, hlo4, hmslo j hjne]
            · rw [hadj.2.2.2.2.2.2.1, hhi4, hmshi j hjne]
          have hc5 : ∀ x j, j < s.mappingIndex → s.mappingLo j ≤ x → x < s.mappingHi j →
              (adjusted_block s4 m w).2.headers x = s.headers x := by
            intro x j hj hx1 hx2
            have hxm : ¬ x = m := by
              rcases hout j hj with h | h
              · omega
              · omega
            rcases hadj.2.2.2.2.2.2.2.2.2 with hunch | ⟨hwle32, -, -⟩
            · rw [show (adjusted_block s4 m w).2 = s4 from congrArg Prod.snd hunch]
              exact hhdrf x hxm
            · have hxmw : ¬ x = m + w := by
                rw [hszeq, hMA] at hwle32
                rcases hfresh j hj with h | h
                · omega
                · omega
              rw [hadj.2.2.2.2.2.2.2.2.1 x hxm hxmw]
              exact hhdrf x hxm
          have hmslojn : ms.mappingLo s.mappingIndex = m := by
            show (if s.mappingIndex = s.mappingIndex then m
                else s.mappingLo s.mappingIndex) = m
            rw [if_pos rfl]
          have hmshijn : ms.mappingHi s.mappingIndex =
              m + round_up_power_of_two w MMAP_UNIT := by
            show (if s.mappingIndex = s.mappingIndex
                then wrap64 (m + round_up_power_of_two w MMAP_UNIT)
                else s.mappingHi s.mappingIndex) = _
            rw [if_pos rfl]
            refine wrap64_eq_of_lt ?_
            have h48 : SIZE48 < U64 := SIZE48_lt_U64
            omega
          have hL0nil : L0 = [] := by
            rw [hmslojn] at hcL0
            exact chainSeq_unique hcL0 (ChainSeq.nil m)
          have hadjv : AdjInv s →
              AdjInv (setHeaderFree (adjusted_block s4 m w).2 m false) := by
            intro hAdjS
            refine adjInv_os_close s s4 m w (round_up_power_of_two w MMAP_UNIT)
              s.mappingIndex L0 hAdjS hInv hw32 hwle hszeq
              (by rw [hidx4, hms1]) ?_ hfresh
              (by rw [hL0nil]; exact List.chain'_nil)
              (by rw [hlo4]; exact hcL0)
              (by rw [hlo4, hhi4]; exact hcs4)
              (by rw [hhi4]; exact hmshijn)
              hhdrf hadj.2.2.2.2.1 hadj.2.2.2.2.2.1 hadj.2.2.2.2.2.2.1
              hadj.2.2.2.2.2.2.2.2.2
            intro j hj hne
            have hj' : j < s.mappingIndex := by omega
            exact ⟨by rw [hlo4]; exact hmslo j hne, by rw [hhi4]; exact hmshi j hne, hj'⟩
          rw [hfin]
          constructor
          · intro s2 heq
            simp only [Prod.mk.injEq] at heq
            exact Option.noConfusion heq.1
          · intro a s2 heq
            simp only [Prod.mk.injEq, Option.some.injEq] at heq
            rw [← heq.1, ← heq.2, hadj.1]
            exact ⟨hadj.2.1, hadj.2.2.1, hc3, hc4, hc5, hout, hadjv⟩

/-- malloc_ preserves the allocator invariant (against a well-behaved
page source). -/
theorem malloc_preserves (s : AllocState) (n : Nat) (ans : Option Nat)
    (hInv : Inv s) (hok : oracleOK s (mallocReq n) ans) :
    Inv (malloc_ s n ans).2 := by
  simp only [malloc_]
  by_cases h0 : n = 0 ∨ aligned n < n
  · rw [if_pos h0]
    exact Inv_errno s EINVAL hInv
  · rw [if_neg h0]
    set s1 : AllocState := if s.inited then s else init_buckets s with hs1d
    have hInv1 : Inv s1 := init_buckets_inv s hInv
    have hinit1 : s1.inited = true := by
      rw [hs1d]
      by_cases h : s.inited = true
      · rw [if_pos h]
        exact h
      · rw [if_neg h]
        rfl
    have hok1 : oracleOK s1 (mallocReq n) ans := by
      intro m hm
      obtain ⟨h1, h2, h3⟩ := hok m hm
      refine ⟨h1, h2, ?_⟩
      intro j hj
      rw [hs1d]
      rw [hs1d] at hj
      by_cases h : s.inited = true
      · rw [if_pos h] at hj ⊢
        exact h3 j hj
      · rw [if_neg h] at hj ⊢
        exact h3 j hj
    rcases hbk : get_block_from_buckets s1 (aligned n) with _ | ⟨a, s2⟩
    · -- buckets missed: the block comes from the OS
      have hpres := get_block_from_os_preserves s1 (aligned n) ans hInv1 hinit1 hok1
        (aligned_ge n) (aligned_dvd n)
      rcases hos : get_block_from_os s1 (aligned n) ans with ⟨r, s2⟩
      cases r with
      | none =>
        exact (hpres.1 s2 hos).1
      | some a =>
        obtain ⟨hxc, hvb, -, -, -, -⟩ := hpres.2 a s2 hos
        exact InvExcept_close hxc hvb
    · -- bucket hit: best-fit removal, adjustment, allocation
      have hpos : ∀ i b, b ∈ s1.buckets i → 0 < blockSize s1 b := by
        intro i b hb
        have hge := (inv_bucket_member hInv1 hb).2.2.2
        rw [MIN_ALLOC_eq] at hge
        omega
      obtain ⟨j, hij, hjN, hmiss, hloop, hadjeq⟩ :=
        gbfb_loop_some s1 (aligned n) hpos NUM_BUCKETS
          (bucket_index_from_size (aligned n)) a s2 hbk
      obtain ⟨hwa, pre, post, hdecomp, hprelt⟩ := bucket_loop_some _ _ _ _ hloop
      have hamem : a ∈ s1.buckets j := by
        rw [hdecomp]
        exact List.mem_append.mpr (Or.inr (List.mem_cons_self a post))
      obtain ⟨hxc, hvb⟩ := remove_from_bucket_invExcept s1 a j hInv1 hamem
      have hadj := adjusted_block_preserves (remove_from_bucket s1 a) a (aligned n)
        hxc hvb (aligned_ge n) (aligned_dvd n)
        (by show aligned n ≤ blockSize s1 a; exact hwa)
      have hs2 : s2 = (adjusted_block (remove_from_bucket s1 a) a (aligned n)).2 :=
        congrArg Prod.snd hadjeq
      rw [hs2]
      exact InvExcept_close hadj.2.1 hadj.2.2.1

/-- malloc_ preserves the adjacency invariant: the allocation flips a flag
to ALLOCATED, and any split tail is adjacent only to the allocated block
and to the old (non-free, by the invariant) successor. -/
theorem malloc_adjInv (s : AllocState) (n : Nat) (ans : Option Nat)
    (hInv : Inv s) (hAdj : AdjInv s) (hok : oracleOK s (mallocReq n) ans) :
    AdjInv (malloc_ s n ans).2 := by
  simp only [malloc_]
  by_cases h0 : n = 0 ∨ aligned n < n
  · rw [if_pos h0]
    refine adjInv_congr ?_ ?_ ?_ ?_ ?_ hAdj
    all_goals first
      | rfl
      | exact fun x => rfl
  · rw [if_neg h0]
    set s1 : AllocState := if s.inited then s else init_buckets s with hs1d
    have hInv1 : Inv s1 := init_buckets_inv s hInv
    have hAdj1 : AdjInv s1 := by
      rw [hs1d]
      by_cases h : s.inited = true
      · rw [if_pos h]
        exact hAdj
      · rw [if_neg h]
        refine adjInv_congr ?_ ?_ ?_ ?_ ?_ hAdj
        all_goals first
          | rfl
          | exact fun x => rfl
    have hinit1 : s1.inited = true := by
      rw [hs1d]
      by_cases h : s.inited = true
      · rw [if_pos h]
        exact h
      · rw [if_neg h]
        rfl
    have hok1 : oracleOK s1 (mallocReq n) ans := by
      intro m hm
      obtain ⟨h1, h2, h3⟩ := hok m hm
      refine ⟨h1, h2, ?_⟩
      intro j hj
      rw [hs1d]
      rw [hs1d] at hj
      by_cases h : s.inited = true
      · rw [if_pos h] at hj ⊢
        exact h3 j hj
      · rw [if_neg h] at hj ⊢
        exact h3 j hj
    rcases hbk : get_block_from_buckets s1 (aligned n) with _ | ⟨a, s2⟩
    · -- buckets missed: the block comes from the OS
      have hpres := get_block_from_os_preserves s1 (aligned n) ans hInv1 hinit1 hok1
        (aligned_ge n) (aligned_dvd n)
      rcases hos : get_block_from_os s1 (aligned n) ans with ⟨r, s2⟩
      cases r with
      | none =>
        obtain ⟨-, hh2, hidx2, hlo2, hhi2⟩ := hpres.1 s2 hos
        exact adjInv_congr hidx2 hlo2 hhi2 (blockSize_headers_eq hh2)
          (fun x => by unfold getHeader; rw [hh2]) hAdj1
      | some b =>
        obtain ⟨-, -, -, -, -, -, hadjv⟩ := hpres.2 b s2 hos
        exact hadjv hAdj1
    · -- bucket hit
      have hpos : ∀ i b, b ∈ s1.buckets i → 0 < blockSize s1 b := by
        intro i b hb
        have hge := (inv_bucket_member hInv1 hb).2.2.2
        rw [MIN_ALLOC_eq] at hge
        omega
      obtain ⟨j, hij, hjN, hmiss, hloop, hadjeq⟩ :=
        gbfb_loop_some s1 (aligned n) hpos NUM_BUCKETS
          (bucket_index_from_size (aligned n)) a s2 hbk
      obtain ⟨hwa, pre, post, hdecomp, hprelt⟩ := bucket_loop_some _ _ _ _ hloop
      have hamem : a ∈ s1.buckets j := by
        rw [hdecomp]
        exact List.mem_append.mpr (Or.inr (List.mem_cons_self a post))
      have hmem := inv_bucket_member hInv1 hamem
      obtain ⟨hxc, hvb⟩ := remove_from_bucket_invExcept s1 a j hInv1 hamem
      have hadj := adjusted_block_preserves (remove_from_bucket s1 a) a (aligned n)
        hxc hvb (aligned_ge n) (aligned_dvd n)
        (by show aligned n ≤ blockSize s1 a; exact hwa)
      have hs2 : s2 = (adjusted_block (remove_from_bucket s1 a) a (aligned n)).2 :=
        congrArg Prod.snd hadjeq
      rw [hs2]
      exact adjInv_bucket_close s1 (remove_from_bucket s1 a) a (aligned n)
        hInv1 hAdj1 hmem.2.2.1 hmem.2.1 (aligned_ge n)
        rfl rfl rfl rfl
        hadj.2.2.2.2.1 hadj.2.2.2.2.2.1 hadj.2.2.2.2.2.2.1
        hadj.2.2.2.2.2.2.2.2.2

/-- Chain surgery for a split: when block `e` of a chain is shrunk to `w`
and a tail block appears at `e + w`, the chain gains the tail right after
`e` and keeps everything else. -/
theorem chainSeq_carve {s t : AllocState} {lo hi e w : Nat} {L : List Nat}
    (hc : ChainSeq s lo hi L) (he : e ∈ L) (hw0 : 0 < w) (hwlt : w < blockSize s e)
    (hsz : ∀ x, blockSize t x =
      if x = e then w else if x = e + w then blockSize s e - w else blockSize s x) :
    ∃ L1 L2, L = L1 ++ e :: L2 ∧ ChainSeq t lo hi (L1 ++ e :: (e + w) :: L2) := by
  obtain ⟨L1, L2, hdec, hc1, hpos, hc2⟩ := chainSeq_split hc he
  refine ⟨L1, L2, hdec, ?_⟩
  have hm1 : ∀ x ∈ L1, ¬ x = e ∧ ¬ x = e + w := by
    intro x hx
    have hb := chainSeq_mem_bounds hc1 x hx
    constructor <;> omega
  have hm2 : ∀ x ∈ L2, ¬ x = e ∧ ¬ x = e + w := by
    intro x hx
    have hb := chainSeq_mem_bounds hc2 x hx
    constructor <;> omega
  refine chainSeq_append (chainSeq_congr hc1 (fun x hx => by
    rw [hsz x, if_neg (hm1 x hx).1, if_neg (hm1 x hx).2])) ?_
  refine ChainSeq.cons _ _ _ ?_ ?_
  · rw [hsz e, if_pos rfl]
    exact hw0
  · rw [hsz e, if_pos rfl]
    refine ChainSeq.cons _ _ _ ?_ ?_
    · rw [hsz (e + w), if_neg (by omega), if_pos rfl]
      omega
    · rw [hsz (e + w), if_neg (by omega), if_pos rfl]
      have harith : e + w + (blockSize s e - w) = e + blockSize s e := by omega
      rw [harith]
      exact chainSeq_congr hc2 (fun x hx => by
        rw [hsz x, if_neg (hm2 x hx).1, if_neg (hm2 x hx).2])

/-- Chain surgery for a coalesce: when adjacent chain blocks `x` and `y`
are fused (the size of `x` growing by the size of `y`), the chain loses
`y` and keeps everything else. -/
theorem chainSeq_merge {s t : AllocState} {lo hi x y : Nat} {L : List Nat}
    (hc : ChainSeq s lo hi L) (hx : x ∈ L) (hy : y ∈ L)
    (hadj : y = x + blockSize s x)
    (hsz : ∀ z, blockSize t z =
      if z = x then blockSize s x + blockSize s y else blockSize s z) :
    ∃ L1 L2, L = L1 ++ x :: y :: L2 ∧ ChainSeq t lo hi (L1 ++ x :: L2) := by
  obtain ⟨L1, L2, hdec, hc1, hpos, hc2⟩ := chainSeq_split hc hx
  have hm1 : ∀ z ∈ L1, ¬ z = x := by
    intro z hz
    have hb := chainSeq_mem_bounds hc1 z hz
    omega
  have hyL2 : y ∈ L2 := by
    rcases List.mem_append.mp (hdec ▸ hy) with h | h
    · have hb := chainSeq_mem_bounds hc1 y h
      omega
    · rcases List.mem_cons.mp h with h' | h'
      · omega
      · exact h'
  cases L2 with
  | nil => exact absurd hyL2 (List.not_mem_nil y)
  | cons hd tl =>
    obtain ⟨hhd, hpy, hc2'⟩ := chainSeq_cons_inv hc2
    have hhdy : hd = y := by omega
    rw [← hadj] at hc2'
    refine ⟨L1, tl, by rw [hdec, hhdy], ?_⟩
    have hm2 : ∀ z ∈ tl, ¬ z = x := by
      intro z hz
      have hb := chainSeq_mem_bounds hc2' z hz
      have hypos : 0 < blockSize s y := by
        rw [← hadj] at hpy
        exact hpy
      omega
    refine chainSeq_append (chainSeq_congr hc1 (fun z hz => by
      rw [hsz z, if_neg (hm1 z hz)])) ?_
    refine ChainSeq.cons _ _ _ ?_ ?_
    · rw [hsz x, if_pos rfl]
      omega
    · rw [hsz x, if_pos rfl]
      have hypos : 0 < blockSize s y := by
        rw [← hadj] at hpy
        exact hpy
      have harith : x + (blockSize s x + blockSize s y) = y + blockSize s y := by omega
      rw [harith]
      exact chainSeq_congr hc2' (fun z hz => by
        rw [hsz z, if_neg (hm2 z hz)])

/-- Two distinct managed blocks occupy disjoint address ranges. -/
theorem valid_blocks_disjoint {s : AllocState} {a b : Nat} (hmok : mappingsOK s)
    (hva : validBlock s a) (hvb : validBlock s b) (hne : ¬ a = b) :
    a + blockSize s a ≤ b ∨ b + blockSize s b ≤ a := by
  obtain ⟨j, L, hj, hc, haL⟩ := hva
  obtain ⟨j', L', hj', hc', hbL⟩ := hvb
  by_cases hjj : j = j'
  · rw [← hjj] at hc'
    rw [chainSeq_unique hc' hc] at hbL
    exact chainSeq_disjoint hc a haL b hbL hne
  · have hba := chainSeq_mem_bounds hc a haL
    have hbb := chainSeq_mem_bounds hc' b hbL
    rcases hmok.2 j j' hj hj' hjj with h | h
    · left
      omega
    · right
      omega

/-- An allocated (non-free) block sits in no bucket. -/
theorem allocated_not_in_buckets {s : AllocState} {a : Nat} (hInv : Inv s)
    (hfa : (getHeader s a).free = false) : ∀ i, ¬ a ∈ s.buckets i := by
  intro i hmem
  have hm := inv_bucket_member hInv hmem
  rw [hfa] at hm
  exact absurd hm.2.2.1 (by decide)

/-- Filing a limbo block in the bucket of its size class restores the
full invariant (the closing move of free_ and split_after). -/
theorem insert_close (s : AllocState) (e : Nat)
    (hx : InvExcept s e) (hval : validBlock s e) :
    Inv (insert_into_buckets s e) ∧ validBlock (insert_into_buckets s e) e ∧
    (getHeader (insert_into_buckets s e) e).free = true := by
  obtain ⟨hinit, hmaps, hbok, hmok, hfresh, hnb⟩ := hx
  have hsz : ∀ x, blockSize (insert_into_buckets s e) x = blockSize s x :=
    blockSize_insert_into_buckets s e
  have hfr : ∀ x, (getHeader (insert_into_buckets s e) x).free =
      if x = e then true else (getHeader s x).free := free_insert_into_buckets s e
  have hmp : ∀ x, (getHeader (insert_into_buckets s e) x).mapping =
      (getHeader s x).mapping := mapping_insert_into_buckets s e
  have hbk : ∀ i, (insert_into_buckets s e).buckets i =
      if i = bucket_index_from_size (blockSize s e)
      then insert_walk s e (blockSize s e) (s.buckets i) else s.buckets i :=
    buckets_insert_into_buckets s e
  have hft : (insert_into_buckets s e).footers = s.footers := rfl
  have hmempos : ∀ i b, b ∈ s.buckets i → 0 < blockSize s b := by
    intro i b hb
    obtain ⟨_, j, L, hj, hcL, hbL⟩ := (hbok i).1 b hb
    exact (chainSeq_mem_bounds hcL b hbL).2.1
  obtain ⟨je, Le, hje, hce, heLe⟩ := hval
  have hchain : ∀ lo hi L, ChainSeq s lo hi L → ChainSeq (insert_into_buckets s e) lo hi L :=
    fun lo hi L hc => chainSeq_congr hc (fun z _ => hsz z)
  refine ⟨⟨?_, ?_, ?_, ?_, ?_⟩, ⟨je, Le, hje, hchain _ _ _ hce, heLe⟩,
    by rw [hfr e, if_pos rfl]⟩
  · intro h
    exact hinit h
  · intro j hj
    obtain ⟨h1, h2, h3, L, hcL, hbase, hbb⟩ := hmaps j hj
    refine ⟨h1, h2, h3, L, hchain _ _ _ hcL, ?_, ?_⟩
    · intro b hb
      obtain ⟨hb1, hb2, hb3, hb4⟩ := hbase b hb
      refine ⟨by rw [hsz b]; exact hb1, by rw [hsz b]; exact hb2,
        by rw [hmp b]; exact hb3, ?_⟩
      rw [hsz b, hft]
      exact hb4
    · intro b hb
      unfold blockBucketOK
      rw [hfr b, hsz b, hbk (bucket_index_from_size (blockSize s b))]
      by_cases hbe : b = e
      · rw [if_pos hbe, hbe, if_pos rfl]
        simp [mem_insert_walk]
      · rw [if_neg hbe]
        have hbbb := hbb b hb hbe
        unfold blockBucketOK at hbbb
        by_cases hcls : bucket_index_from_size (blockSize s b) =
            bucket_index_from_size (blockSize s e)
        · rw [if_pos hcls, hbbb]
          simp only [mem_insert_walk]
          constructor
          · intro h
            exact Or.inr h
          · intro h
            rcases h with h | h
            · exact absurd h hbe
            · exact h
        · rw [if_neg hcls]
          exact hbbb
  · intro i
    obtain ⟨hmem0, hsort0, hnd0⟩ := hbok i
    rw [hbk i]
    by_cases hi : i = bucket_index_from_size (blockSize s e)
    · rw [if_pos hi]
      refine ⟨?_, ?_, ?_⟩
      · intro b hb
        rcases (mem_insert_walk s e (blockSize s e) (s.buckets i) b).mp hb with hbe | hbold
        · rw [hbe]
          exact ⟨by rw [hsz e]; exact hi.symm, je, Le, hje, hchain _ _ _ hce, heLe⟩
        · obtain ⟨hidx, j', L', hj', hc', hm'⟩ := hmem0 b hbold
          exact ⟨by rw [hsz b]; exact hidx, j', L', hj', hchain _ _ _ hc', hm'⟩
      · exact insert_walk_sorted s (insert_into_buckets s e) e (blockSize s e)
          (s.buckets i) (hsz e) (fun b _ => hsz b) (fun b hb => hmempos i b hb) hsort0
      · exact insert_walk_nodup s e (blockSize s e) (s.buckets i) (hnb i) hnd0
    · rw [if_neg hi]
      refine ⟨?_, ?_, hnd0⟩
      · intro b hb
        obtain ⟨hidx, j', L', hj', hc', hm'⟩ := hmem0 b hb
        exact ⟨by rw [hsz b]; exact hidx, j', L', hj', hchain _ _ _ hc', hm'⟩
      · refine List.Pairwise.imp ?_ hsort0
        intro a b h
        rw [hsz a, hsz b]
        exact h
  · exact hmok
  · intro x hxout
    by_cases hxe : x = e
    · exfalso
      have hb := chainSeq_mem_bounds hce e heLe
      have hrl : (insert_into_buckets s e).mappingLo = s.mappingLo := rfl
      have hrh : (insert_into_buckets s e).mappingHi = s.mappingHi := rfl
      rcases hxout je hje with h | h
      · rw [hxe, hrl] at h
        omega
      · rw [hxe, hrh] at h
        omega
    · rw [headers_insert_into_buckets_ne s e hxe]
      refine hfresh x ?_
      intro j hj
      exact hxout j hj

/-- free_'s first move: filing a live allocated block back into the
buckets yields a sound state with the block free and filed. -/
theorem insert_into_buckets_inv (s : AllocState) (a : Nat) (hInv : Inv s)
    (hval : validBlock s a) (hfa : (getHeader s a).free = false) :
    Inv (insert_into_buckets s a) ∧ validBlock (insert_into_buckets s a) a ∧
    (getHeader (insert_into_buckets s a) a).free = true :=
  insert_close s a (Inv_to_InvExcept hInv (allocated_not_in_buckets hInv hfa)) hval

/-- coalesce on two adjacent blocks of one chain: the fused block replaces
the pair, the state stays sound, and the fused block ends up free and
filed in the bucket of its combined size class. -/
theorem coalesce_inv (s : AllocState) (x y j : Nat) (hInv : Inv s)
    (hj : j < s.mappingIndex) {L : List Nat}
    (hcL : ChainSeq s (s.mappingLo j) (s.mappingHi j) L)
    (hxL : x ∈ L) (hyL : y ∈ L) (hadj : y = x + blockSize s x) :
    Inv (coalesce s x y) ∧ validBlock (coalesce s x y) x ∧
    (getHeader (coalesce s x y) x).free = true ∧
    (∀ z, blockSize (coalesce s x y) z =
      if z = x then blockSize s x + blockSize s y else blockSize s z) ∧
    (∀ z, ¬ z = x → (getHeader (coalesce s x y) z).free = (getHeader s z).free) ∧
    (∀ u, ¬ u = x + (blockSize s x + blockSize s y) - FOOTER_SIZE →
      (coalesce s x y).footers u = s.footers u) ∧
    (coalesce s x y).mappingIndex = s.mappingIndex ∧
    (coalesce s x y).mappingLo = s.mappingLo ∧
    (coalesce s x y).mappingHi = s.mappingHi := by
  have hMA : MIN_ALLOC = 32 := rfl
  have hF : FOOTER_SIZE = 8 := rfl
  have hS48v : SIZE48 = 281474976710656 := by norm_num [SIZE48]
  have hU64v : U64 = 18446744073709551616 := by norm_num [U64]
  have hspecx := inv_chain_spec hInv hj hcL x hxL
  have hspecy := inv_chain_spec hInv hj hcL y hyL
  have hbndx := chainSeq_mem_bounds hcL x hxL
  have hbndy := chainSeq_mem_bounds hcL y hyL
  obtain ⟨hlo0, hlohi, hhi48, -⟩ := hInv.2.1 j hj
  have hx32 : 32 ≤ blockSize s x := by
    have := hspecx.1.1
    rw [hMA] at this
    exact this
  have hy32 : 32 ≤ blockSize s y := by
    have := hspecy.1.1
    rw [hMA] at this
    exact this
  have hx8 : MEM_UNIT ∣ blockSize s x := hspecx.1.2.1
  have hy8 : MEM_UNIT ∣ blockSize s y := hspecy.1.2.1
  have hmapx : (getHeader s x).mapping = j := hspecx.1.2.2.1
  have htot48 : blockSize s x + blockSize s y < SIZE48 := by omega
  set t : AllocState := update_size (remove_from_bucket (remove_from_bucket s x) y) x
      (blockSize s x + blockSize s y) with htd
  have hcoal : coalesce s x y = insert_into_buckets t x := by
    rw [htd]
    rfl
  have htsz : ∀ z, blockSize t z =
      if z = x then blockSize s x + blockSize s y else blockSize s z := by
    intro z
    rw [htd, blockSize_update_size]
    by_cases hz : z = x
    · rw [if_pos hz, if_pos hz, mod48_eq_of_lt htot48]
    · rw [if_neg hz, if_neg hz]
      rfl
  have htfr : ∀ z, (getHeader t z).free = (getHeader s z).free := by
    intro z
    rw [htd, free_update_size]
    rfl
  have htmp : ∀ z, (getHeader t z).mapping = (getHeader s z).mapping := by
    intro z
    rw [htd, mapping_update_size]
    rfl
  have htbk : ∀ i, t.buckets i = ((s.buckets i).erase x).erase y := by
    intro i
    rw [htd, buckets_update_size]
    rfl
  have htft : ∀ u, t.footers u =
      if u = x + (blockSize s x + blockSize s y) - FOOTER_SIZE
      then some (blockSize s x + blockSize s y) else s.footers u := by
    intro u
    rw [htd, footers_update_size]
    have haddr : sub64 (wrap64 (x + (blockSize s x + blockSize s y))) FOOTER_SIZE =
        x + (blockSize s x + blockSize s y) - FOOTER_SIZE := by
      refine footer_addr_norm ?_ ?_ <;> omega
    rw [haddr]
    by_cases hu : u = x + (blockSize s x + blockSize s y) - FOOTER_SIZE
    · rw [if_pos hu, if_pos hu, Nat.mod_eq_of_lt (by omega)]
    · rw [if_neg hu, if_neg hu]
      rfl
  have htreg1 : t.mappingIndex = s.mappingIndex := by rw [htd]; rfl
  have htreg2 : t.mappingLo = s.mappingLo := by rw [htd]; rfl
  have htreg3 : t.mappingHi = s.mappingHi := by rw [htd]; rfl
  have htinit : t.inited = s.inited := by rw [htd]; rfl
  have hthdr : ∀ z, ¬ z = x → t.headers z = s.headers z := by
    intro z hz
    rw [htd, headers_update_size_ne _ _ _ hz]
    rfl
  obtain ⟨L1, L2, hdec, hcnew⟩ := chainSeq_merge hcL hxL hyL hadj htsz
  have hnodL : (L1 ++ x :: y :: L2).Nodup := by
    have hnd := chainSeq_nodup hcL
    rw [hdec] at hnd
    exact hnd
  have hyx : ¬ y = x := by
    have := hbndx.2.1
    omega
  have hyL1 : ¬ y ∈ L1 := by
    intro hy1
    exact (List.nodup_append.mp hnodL).2.2 hy1
      (List.mem_cons_of_mem x (List.mem_cons_self y L2))
  have hyL2' : ¬ y ∈ L2 := by
    have h2 := (List.nodup_cons.mp (List.nodup_append.mp hnodL).2.1).2
    exact (List.nodup_cons.mp h2).1
  have hsubnew : ∀ z ∈ L1 ++ x :: L2, z ∈ L ∧ ¬ z = y := by
    intro z hz
    rcases List.mem_append.mp hz with h | h
    · refine ⟨by rw [hdec]; exact List.mem_append.mpr (Or.inl h), ?_⟩
      intro hzy
      rw [hzy] at h
      exact hyL1 h
    · rcases List.mem_cons.mp h with h' | h'
      · refine ⟨by rw [h']; exact hxL, ?_⟩
        rw [h']
        intro hxy
        exact hyx hxy.symm
      · refine ⟨by
          rw [hdec]
          exact List.mem_append.mpr (Or.inr (List.mem_cons_of_mem x
            (List.mem_cons_of_mem y h'))), ?_⟩
        intro hzy
        rw [hzy] at h'
        exact hyL2' h'
  have hxcpt : InvExcept t x := by
    refine ⟨?_, ?_, ?_, ?_, ?_, ?_⟩
    · intro h
      rw [htinit] at h
      rw [htreg1]
      exact hInv.1 h
    · intro j' hj'
      rw [htreg1] at hj'
      by_cases hjj : j' = j
      · rw [hjj]
        refine ⟨by rw [htreg2]; exact hlo0, by rw [htreg2, htreg3]; exact hlohi,
          by rw [htreg3]; exact hhi48, L1 ++ x :: L2,
          by rw [htreg2, htreg3]; exact hcnew, ?_, ?_⟩
        · intro b hb
          obtain ⟨hbL, hbny⟩ := hsubnew b hb
          have hspecb := inv_chain_spec hInv hj hcL b hbL
          by_cases hbx : b = x
          · rw [hbx]
            refine ⟨?_, ?_, ?_, ?_⟩
            · rw [htsz x, if_pos rfl, hMA]
              omega
            · rw [htsz x, if_pos rfl]
              exact Nat.dvd_add hx8 hy8
            · rw [htmp x, hmapx]
            · rw [htsz x, if_pos rfl, htft, if_pos rfl]
          · obtain ⟨hq1, hq2, hq3, hq4⟩ := hspecb.1
            have hbsz : blockSize t b = blockSize s b := by rw [htsz b, if_neg hbx]
            refine ⟨by rw [hbsz]; exact hq1, by rw [hbsz]; exact hq2,
              by rw [htmp b]; exact hq3, ?_⟩
            have hdisjb : b + blockSize s b ≤ y ∨ y + blockSize s y ≤ b :=
              chainSeq_disjoint hcL b hbL y hyL hbny
            have hne : ¬ (b + blockSize s b - FOOTER_SIZE =
                x + (blockSize s x + blockSize s y) - FOOTER_SIZE) := by
              have hbb := chainSeq_mem_bounds hcL b hbL
              have h32 : 32 ≤ blockSize s b := by
                have := hspecb.1.1
                rw [hMA] at this
                exact this
              rcases hdisjb with h | h <;> omega
            rw [hbsz, htft, if_neg hne]
            exact hq4
        · intro b hb hbx
          obtain ⟨hbL, hbny⟩ := hsubnew b hb
          have hspecb := inv_chain_spec hInv hj hcL b hbL
          have hbsz : blockSize t b = blockSize s b := by rw [htsz b, if_neg hbx]
          have hbbiff := hspecb.2
          unfold blockBucketOK at hbbiff ⊢
          rw [htfr b, hbsz, htbk]
          have hnd0 := (hInv.2.2.1 (bucket_index_from_size (blockSize s b))).2.2
          have hndx : ((s.buckets (bucket_index_from_size (blockSize s b))).erase x).Nodup :=
            hnd0.sublist (List.erase_sublist x _)
          rw [List.Nodup.mem_erase_iff hndx, List.Nodup.mem_erase_iff hnd0, hbbiff]
          constructor
          · intro h
            exact ⟨hbny, hbx, h⟩
          · intro h
            exact h.2.2
      · obtain ⟨ho1, ho2, ho3, Lj, hcj, hbasej, hbbj⟩ := hInv.2.1 j' hj'
        have hrange := hInv.2.2.2.1.2 j' j hj' hj hjj
        have hmemne : ∀ z ∈ Lj, ¬ z = x ∧ ¬ z = y := by
          intro z hz
          have hbz := chainSeq_mem_bounds hcj z hz
          constructor
          · intro hzx
            rcases hrange with h | h
            · omega
            · omega
          · intro hzy
            rcases hrange with h | h
            · omega
            · omega
        refine ⟨by rw [htreg2]; exact ho1, by rw [htreg2, htreg3]; exact ho2,
          by rw [htreg3]; exact ho3, Lj, ?_, ?_, ?_⟩
        · rw [htreg2, htreg3]
          exact chainSeq_congr hcj (fun z hz => by rw [htsz z, if_neg (hmemne z hz).1])
        · intro b hb
          obtain ⟨hq1, hq2, hq3, hq4⟩ := hbasej b hb
          have hbsz : blockSize t b = blockSize s b := by
            rw [htsz b, if_neg (hmemne b hb).1]
          refine ⟨by rw [hbsz]; exact hq1, by rw [hbsz]; exact hq2,
            by rw [htmp b]; exact hq3, ?_⟩
          have hne : ¬ (b + blockSize s b - FOOTER_SIZE =
              x + (blockSize s x + blockSize s y) - FOOTER_SIZE) := by
            have hbz := chainSeq_mem_bounds hcj b hb
            have h32 : 32 ≤ blockSize s b := by
              have := hq1
              rw [hMA] at this
              exact this
            rcases hrange with h | h <;> omega
          rw [hbsz, htft, if_neg hne]
          exact hq4
        · intro b hb hbx2
          have hbbiff := hbbj b hb
          have hbsz : blockSize t b = blockSize s b := by
            rw [htsz b, if_neg (hmemne b hb).1]
          unfold blockBucketOK at hbbiff ⊢
          rw [htfr b, hbsz, htbk]
          have hnd0 := (hInv.2.2.1 (bucket_index_from_size (blockSize s b))).2.2
          have hndx : ((s.buckets (bucket_index_from_size (blockSize s b))).erase x).Nodup :=
            hnd0.sublist (List.erase_sublist x _)
          rw [List.Nodup.mem_erase_iff hndx, List.Nodup.mem_erase_iff hnd0, hbbiff]
          constructor
          · intro h
            exact ⟨(hmemne b hb).2, (hmemne b hb).1, h⟩
          · intro h
            exact h.2.2
    · intro i
      obtain ⟨hmem0, hsort0, hnd0⟩ := hInv.2.2.1 i
      have hndx : ((s.buckets i).erase x).Nodup := hnd0.sublist (List.erase_sublist x _)
      rw [htbk i]
      refine ⟨?_, ?_, ?_⟩
      · intro b hb
        have hbny : ¬ b = y := ((List.Nodup.mem_erase_iff hndx).mp hb).1
        have hb2 := ((List.Nodup.mem_erase_iff hndx).mp hb).2
        have hbnx : ¬ b = x := ((List.Nodup.mem_erase_iff hnd0).mp hb2).1
        have hbmem : b ∈ s.buckets i := ((List.Nodup.mem_erase_iff hnd0).mp hb2).2
        obtain ⟨hidx, j'', L'', hj'', hc'', hm''⟩ := hmem0 b hbmem
        have hbsz : blockSize t b = blockSize s b := by rw [htsz b, if_neg hbnx]
        refine ⟨by rw [hbsz]; exact hidx, ?_⟩
        by_cases hjj : j'' = j
        · rw [hjj] at hc''
          have hLL := chainSeq_unique hc'' hcL
          rw [hLL] at hm''
          refine ⟨j, L1 ++ x :: L2, by rw [htreg1]; exact hj,
            by rw [htreg2, htreg3]; exact hcnew, ?_⟩
          rw [hdec] at hm''
          rcases List.mem_append.mp hm'' with h | h
          · exact List.mem_append.mpr (Or.inl h)
          · rcases List.mem_cons.mp h with h' | h'
            · refine List.mem_append.mpr (Or.inr ?_)
              rw [h']
              exact List.mem_cons_self x L2
            · rcases List.mem_cons.mp h' with h'' | h''
              · exact absurd h'' hbny
              · exact List.mem_append.mpr (Or.inr (List.mem_cons_of_mem x h''))
        · have hrange := hInv.2.2.2.1.2 j'' j hj'' hj hjj
          have hmemne : ∀ z ∈ L'', ¬ z = x := by
            intro z hz hzx
            have hbz := chainSeq_mem_bounds hc'' z hz
            rcases hrange with h | h
            · omega
            · omega
          refine ⟨j'', L'', by rw [htreg1]; exact hj'', ?_, hm''⟩
          rw [htreg2, htreg3]
          exact chainSeq_congr hc'' (fun z hz => by rw [htsz z, if_neg (hmemne z hz)])
      · have hsublist : List.Sublist (((s.buckets i).erase x).erase y) (s.buckets i) :=
          List.Sublist.trans (List.erase_sublist _ _) (List.erase_sublist _ _)
        refine List.Pairwise.imp_of_mem ?_ (hsort0.sublist hsublist)
        intro a b ha hb hab
        have hanx : ¬ a = x := ((List.Nodup.mem_erase_iff hnd0).mp
          (((List.Nodup.mem_erase_iff hndx).mp ha).2)).1
        have hbnx : ¬ b = x := ((List.Nodup.mem_erase_iff hnd0).mp
          (((List.Nodup.mem_erase_iff hndx).mp hb).2)).1
        rw [htsz a, if_neg hanx, htsz b, if_neg hbnx]
        exact hab
      · have hsublist : List.Sublist (((s.buckets i).erase x).erase y) (s.buckets i) :=
          List.Sublist.trans (List.erase_sublist _ _) (List.erase_sublist _ _)
        exact hnd0.sublist hsublist
    · refine ⟨by rw [htreg1]; exact hInv.2.2.2.1.1, ?_⟩
      intro j1 j2 hj1 hj2 hne
      rw [htreg1] at hj1 hj2
      rw [htreg2, htreg3]
      exact hInv.2.2.2.1.2 j1 j2 hj1 hj2 hne
    · intro z hz
      rw [htreg1, htreg2, htreg3] at hz
      by_cases hzx : z = x
      · exfalso
        rcases hz j hj with h | h
        · rw [hzx] at h
          omega
        · rw [hzx] at h
          omega
      · rw [hthdr z hzx]
        exact hInv.2.2.2.2 z hz
    · intro i
      rw [htbk i]
      intro hmem
      have hx2 : x ∈ (s.buckets i).erase x := List.mem_of_mem_erase hmem
      have hnd0 := (hInv.2.2.1 i).2.2
      exact ((List.Nodup.mem_erase_iff hnd0).mp hx2).1 rfl
  have hvalx : validBlock t x := ⟨j, L1 ++ x :: L2, by rw [htreg1]; exact hj,
    by rw [htreg2, htreg3]; exact hcnew,
    List.mem_append.mpr (Or.inr (List.mem_cons_self x L2))⟩
  obtain ⟨hIf, hvf, hff⟩ := insert_close t x hxcpt hvalx
  rw [hcoal]
  refine ⟨hIf, hvf, hff, ?_, ?_, ?_, ?_, ?_, ?_⟩
  · intro z
    rw [blockSize_insert_into_buckets, htsz z]
  · intro z hzx
    rw [free_insert_into_buckets, if_neg hzx, htfr z]
  · intro u hu
    rw [show (insert_into_buckets t x).footers = t.footers from rfl, htft u, if_neg hu]
  · rw [show (insert_into_buckets t x).mappingIndex = t.mappingIndex from rfl, htreg1]
  · rw [show (insert_into_buckets t x).mappingLo = t.mappingLo from rfl, htreg2]
  · rw [show (insert_into_buckets t x).mappingHi = t.mappingHi from rfl, htreg3]

/-- The backward-coalesce phase of free_: locate the previous block via
its footer and fuse if it is free.  Sound for any sound state holding a
free managed block at `a`. -/
theorem free_phase2 (s2 : AllocState) (a : Nat) (hInv2 : Inv s2)
    (hval2 : validBlock s2 a) (hfree2 : (getHeader s2 a).free = true) :
    Inv (if a = s2.mappingLo (getHeader s2 a).mapping then s2
      else if (getHeader s2 (sub64 a (getFooter s2 (sub64 a FOOTER_SIZE)))).free = true
        then coalesce s2 (sub64 a (getFooter s2 (sub64 a FOOTER_SIZE))) a else s2) := by
  by_cases hc : a = s2.mappingLo (getHeader s2 a).mapping
  · rw [if_pos hc]
    exact hInv2
  · rw [if_neg hc]
    have hMA : MIN_ALLOC = 32 := rfl
    have hF : FOOTER_SIZE = 8 := rfl
    have hS48v : SIZE48 = 281474976710656 := by norm_num [SIZE48]
    have hU64v : U64 = 18446744073709551616 := by norm_num [U64]
    obtain ⟨j, Lc, hj, hcL, haL⟩ := hval2
    have hmapa : (getHeader s2 a).mapping = j := (inv_chain_spec hInv2 hj hcL a haL).1.2.2.1
    rw [hmapa] at hc
    obtain ⟨hlo0, hlohi, hhi48, -⟩ := hInv2.2.1 j hj
    have hbnda := chainSeq_mem_bounds hcL a haL
    have ha32 : 32 ≤ blockSize s2 a := by
      have := (inv_chain_spec hInv2 hj hcL a haL).1.1
      rw [hMA] at this
      exact this
    obtain ⟨L1, L2, hdec, hc1, hposa, hc2⟩ := chainSeq_split hcL haL
    cases hL1 : L1 with
    | nil =>
      rw [hL1] at hc1
      have hae := chainSeq_nil_inv hc1
      exact absurd hae.symm hc
    | cons q qs =>
      have hn : L1 ≠ [] := by rw [hL1]; simp
      obtain ⟨L0, prev, hL1dec, hprevend, hcL0⟩ := chainSeq_last hc1 hn
      have hprevmem : prev ∈ Lc := by
        rw [hdec, hL1dec]
        exact List.mem_append.mpr (Or.inl (List.mem_append.mpr
          (Or.inr (List.mem_singleton.mpr rfl))))
      have hspecp := inv_chain_spec hInv2 hj hcL prev hprevmem
      have hbndp := chainSeq_mem_bounds hcL prev hprevmem
      have hfoot := hspecp.1.2.2.2
      have hp32 : 32 ≤ blockSize s2 prev := by
        have := hspecp.1.1
        rw [hMA] at this
        exact this
      have ha8 : sub64 a FOOTER_SIZE = a - FOOTER_SIZE :=
        sub64_eq_of_le (by omega) (by omega)
      have hfaddr : a - FOOTER_SIZE = prev + blockSize s2 prev - FOOTER_SIZE := by omega
      have hgf : getFooter s2 (sub64 a FOOTER_SIZE) = blockSize s2 prev := by
        rw [ha8, hfaddr]
        unfold getFooter
        rw [hfoot]
        rfl
      have hprev : sub64 a (getFooter s2 (sub64 a FOOTER_SIZE)) = prev := by
        rw [hgf, sub64_eq_of_le (by omega) (by omega)]
        omega
      rw [hprev]
      by_cases hcp : (getHeader s2 prev).free = true
      · rw [if_pos hcp]
        exact (coalesce_inv s2 prev a j hInv2 hj hcL hprevmem haL (by omega)).1
      · rw [if_neg hcp]
        exact hInv2

/-- A list decomposition around a non-repeated element is unique. -/
theorem list_split_unique (A B C D : List Nat) (a : Nat)
    (heq : A ++ a :: B = C ++ a :: D) (hA : ¬ a ∈ A) (hC : ¬ a ∈ C) :
    A = C ∧ B = D := by
  induction A generalizing C with
  | nil =>
    cases C with
    | nil =>
      simp only [List.nil_append] at heq
      injection heq with h1 h2
      exact ⟨rfl, h2⟩
    | cons c C' =>
      simp only [List.nil_append, List.cons_append] at heq
      injection heq with h1 h2
      refine absurd ?_ hC
      rw [h1]
      exact List.mem_cons_self c C'
  | cons x A' ih =>
    have hA' : ¬ a ∈ A' := fun h => hA (List.mem_cons_of_mem x h)
    cases C with
    | nil =>
      simp only [List.cons_append, List.nil_append] at heq
      injection heq with h1 h2
      refine absurd ?_ hA
      rw [← h1]
      exact List.mem_cons_self x A'
    | cons c C' =>
      have hC' : ¬ a ∈ C' := fun h => hC (List.mem_cons_of_mem c h)
      simp only [List.cons_append] at heq
      injection heq with h1 h2
      obtain ⟨e1, e2⟩ := ih C' h2 hA' hC'
      exact ⟨by rw [h1, e1], e2⟩

/-- Chains of mappings other than `j` keep the no-adjacent-free property
across a state change that only touches memory inside mapping `j`. -/
theorem adjInv_other_mappings (s s2 : AllocState) (j : Nat) (hInv : Inv s)
    (hj : j < s.mappingIndex)
    (hother : ∀ j', j' < s.mappingIndex → ¬ j' = j →
      ∀ L, ChainSeq s (s.mappingLo j') (s.mappingHi j') L → L.Chain' (nonAdjFree s))
    (hidx : s2.mappingIndex = s.mappingIndex)
    (hlo : s2.mappingLo = s.mappingLo) (hhi : s2.mappingHi = s.mappingHi)
    (hmod : ∀ x, x < s.mappingLo j ∨ s.mappingHi j ≤ x →
      blockSize s2 x = blockSize s x ∧
      (getHeader s2 x).free = (getHeader s x).free) :
    ∀ j', j' < s2.mappingIndex → ¬ j' = j →
      ∀ L, ChainSeq s2 (s2.mappingLo j') (s2.mappingHi j') L →
        L.Chain' (nonAdjFree s2) := by
  intro j' hj' hne L hc
  rw [hidx] at hj'
  rw [hlo, hhi] at hc
  obtain ⟨hlo0, hlh, hh48, Lj, hcLj, -, -⟩ := hInv.2.1 j' hj'
  have hdisj := hInv.2.2.2.1.2 j' j hj' hj hne
  have hmem : ∀ x ∈ Lj, x < s.mappingLo j ∨ s.mappingHi j ≤ x := by
    intro x hx
    have hb := chainSeq_mem_bounds hcLj x hx
    rcases hdisj with h | h
    · left
      omega
    · right
      omega
  have hcLj2 : ChainSeq s2 (s.mappingLo j') (s.mappingHi j') Lj :=
    chainSeq_congr hcLj (fun x hx => (hmod x (hmem x hx)).1)
  rw [chainSeq_unique hc hcLj2]
  exact chain_nonAdjFree_congr (fun x hx => (hmod x (hmem x hx)).2)
    (hother j' hj' hne Lj hcLj)

/-- Closing the adjacency invariant over free_'s second phase: the freed
(possibly next-merged) block `a` sits in its chain with no adjacent free
pair away from it and a non-free successor; the previous-neighbour check
then either coalesces `a` into a free predecessor or finds an allocated
one, and in both cases the whole invariant holds. -/
theorem adjInv_phase2 (s2 : AllocState) (a j : Nat) (L1 L2 : List Nat)
    (hInv2 : Inv s2) (hj : j < s2.mappingIndex)
    (hposa : 0 < blockSize s2 a)
    (hc1 : ChainSeq s2 (s2.mappingLo j) a L1)
    (hc2 : ChainSeq s2 (a + blockSize s2 a) (s2.mappingHi j) L2)
    (hch1 : L1.Chain' (nonAdjFree s2))
    (hch2 : L2.Chain' (nonAdjFree s2))
    (hh3 : ∀ r ∈ L2.head?, (getHeader s2 r).free = false)
    (hh4 : ∀ j', j' < s2.mappingIndex → ¬ j' = j →
      ∀ L, ChainSeq s2 (s2.mappingLo j') (s2.mappingHi j') L →
        L.Chain' (nonAdjFree s2)) :
    AdjInv (if a = s2.mappingLo (getHeader s2 a).mapping then s2
      else if (getHeader s2 (sub64 a (getFooter s2 (sub64 a FOOTER_SIZE)))).free = true
        then coalesce s2 (sub64 a (getFooter s2 (sub64 a FOOTER_SIZE))) a else s2) := by
  have hMA : MIN_ALLOC = 32 := rfl
  have hF : FOOTER_SIZE = 8 := rfl
  have hS48v : SIZE48 = 281474976710656 := by norm_num [SIZE48]
  have hU64v : U64 = 18446744073709551616 := by norm_num [U64]
  have hcj : ChainSeq s2 (s2.mappingLo j) (s2.mappingHi j) (L1 ++ a :: L2) :=
    chainSeq_append hc1 (ChainSeq.cons _ _ _ hposa hc2)
  have haL : a ∈ L1 ++ a :: L2 :=
    List.mem_append.mpr (Or.inr (List.mem_cons_self a L2))
  have hmemL1 : ∀ x ∈ L1, x < a := by
    intro x hx
    have hb := chainSeq_mem_bounds hc1 x hx
    omega
  have hmemL2 : ∀ x ∈ L2, a < x := by
    intro x hx
    have hb := chainSeq_mem_bounds hc2 x hx
    omega
  have hmapa : (getHeader s2 a).mapping = j :=
    (inv_chain_spec hInv2 hj hcj a haL).1.2.2.1
  by_cases hcnd : a = s2.mappingLo (getHeader s2 a).mapping
  · rw [if_pos hcnd]
    rw [hmapa] at hcnd
    have hL1nil : L1 = [] := by
      cases hL1 : L1 with
      | nil => rfl
      | cons q qs =>
        rw [hL1] at hc1
        obtain ⟨hq, -, -⟩ := chainSeq_cons_inv hc1
        have := hmemL1 q (by rw [hL1]; exact List.mem_cons_self q qs)
        omega
    intro j'' hj'' L hcq
    by_cases hjj : j'' = j
    · rw [hjj] at hcq
      rw [chainSeq_unique hcq hcj, hL1nil, List.nil_append]
      cases hL2 : L2 with
      | nil => exact List.chain'_singleton a
      | cons r t =>
        refine List.chain'_cons.mpr ⟨Or.inr (hh3 r (by rw [hL2]; rfl)), ?_⟩
        rw [← hL2]
        exact hch2
    · exact hh4 j'' hj'' hjj L hcq
  · rw [if_neg hcnd]
    rw [hmapa] at hcnd
    obtain ⟨hlo0, hlohi, hhi48, -⟩ := hInv2.2.1 j hj
    obtain ⟨hbnda1, hbnda2, hbnda3⟩ := chainSeq_mem_bounds hcj a haL
    have ha32 : 32 ≤ blockSize s2 a := by
      have := (inv_chain_spec hInv2 hj hcj a haL).1.1
      rw [hMA] at this
      exact this
    have hn : L1 ≠ [] := by
      intro h
      rw [h] at hc1
      exact hcnd (chainSeq_nil_inv hc1).symm
    obtain ⟨L0, prev, hL1dec, hprevend, hcL0⟩ := chainSeq_last hc1 hn
    have hprevmem : prev ∈ L1 ++ a :: L2 := by
      rw [hL1dec]
      exact List.mem_append.mpr (Or.inl (List.mem_append.mpr
        (Or.inr (List.mem_singleton.mpr rfl))))
    have hspecp := inv_chain_spec hInv2 hj hcj prev hprevmem
    obtain ⟨hbndp1, hbndp2, hbndp3⟩ := chainSeq_mem_bounds hcj prev hprevmem
    have hfoot := hspecp.1.2.2.2
    have hp32 : 32 ≤ blockSize s2 prev := by
      have := hspecp.1.1
      rw [hMA] at this
      exact this
    have ha8 : sub64 a FOOTER_SIZE = a - FOOTER_SIZE :=
      sub64_eq_of_le (by omega) (by omega)
    have hfaddr : a - FOOTER_SIZE = prev + blockSize s2 prev - FOOTER_SIZE := by omega
    have hgf : getFooter s2 (sub64 a FOOTER_SIZE) = blockSize s2 prev := by
      rw [ha8, hfaddr]
      unfold getFooter
      rw [hfoot]
      rfl
    have hprev : sub64 a (getFooter s2 (sub64 a FOOTER_SIZE)) = prev := by
      rw [hgf, sub64_eq_of_le (by omega) (by omega)]
      omega
    rw [hprev]
    have hprevlt : prev < a := by omega
    have hmemL0 : ∀ x ∈ L0, x < prev := by
      intro x hx
      have hb := chainSeq_mem_bounds hcL0 x hx
      omega
    have hch1' := hch1
    rw [hL1dec] at hch1'
    obtain ⟨hchL0, -, hjuncL0⟩ := List.chain'_append.mp hch1'
    by_cases hcp : (getHeader s2 prev).free = true
    · rw [if_pos hcp]
      obtain ⟨hIT, hvbT, hfrT, hszmap, hfrmap, hftr, hr1, hr2, hr3⟩ :=
        coalesce_inv s2 prev a j hInv2 hj hcj hprevmem haL (by omega)
      obtain ⟨M1, M2, hdecM, hcT⟩ := chainSeq_merge hcj hprevmem haL (by omega) hszmap
      have hLHS : L1 ++ a :: L2 = L0 ++ prev :: a :: L2 := by
        rw [hL1dec, List.append_assoc, List.singleton_append]
      have heqn : L0 ++ prev :: a :: L2 = M1 ++ prev :: a :: M2 := by
        rw [← hLHS]
        exact hdecM
      have hL0p : ¬ prev ∈ L0 := by
        intro hmm1
        have := hmemL0 prev hmm1
        omega
      have hnd : (L1 ++ a :: L2).Nodup := chainSeq_nodup hcj
      have hndM : (M1 ++ prev :: a :: M2).Nodup := by
        rw [← hdecM]
        exact hnd
      have hCp : ¬ prev ∈ M1 := by
        intro hmm1
        have hdisjM := List.disjoint_of_nodup_append hndM
        exact hdisjM hmm1 (List.mem_cons_self prev (a :: M2))
      obtain ⟨hM1, hM2⟩ :=
        list_split_unique L0 (a :: L2) M1 (a :: M2) prev heqn hL0p hCp
      have hM2' : L2 = M2 := by
        injection hM2
      rw [← hM1, ← hM2'] at hcT
      have hfrL0T : ∀ x ∈ L0, (getHeader (coalesce s2 prev a) x).free =
          (getHeader s2 x).free := by
        intro x hx
        refine hfrmap x ?_
        have := hmemL0 x hx
        omega
      intro j'' hj'' L hcq
      by_cases hjj : j'' = j
      · rw [hjj] at hcq
        rw [hr2, hr3] at hcq
        rw [chainSeq_unique hcq hcT]
        refine List.chain'_append.mpr ⟨chain_nonAdjFree_congr hfrL0T hchL0, ?_, ?_⟩
        · cases hL2 : L2 with
          | nil => exact List.chain'_singleton prev
          | cons r t =>
            refine List.chain'_cons.mpr ⟨?_, ?_⟩
            · refine Or.inr ?_
              have hrne : ¬ r = prev := by
                have := hmemL2 r (by rw [hL2]; exact List.mem_cons_self r t)
                omega
              rw [hfrmap r hrne]
              exact hh3 r (by rw [hL2]; rfl)
            · refine chain_nonAdjFree_congr ?_ (by rw [← hL2]; exact hch2)
              intro x hx
              have hxg : a < x := hmemL2 x (by rw [hL2]; exact hx)
              exact hfrmap x (by omega)
        · intro x hx y hy
          simp only [List.head?_cons, Option.mem_def, Option.some.injEq] at hy
          rw [← hy]
          have hxL0 : x ∈ L0 := List.mem_of_mem_getLast? hx
          have hpair := hjuncL0 x hx prev rfl
          rcases hpair with h | h
          · refine Or.inl ?_
            rw [hfrL0T x hxL0]
            exact h
          · rw [hcp] at h
            exact absurd h (by decide)
      · refine adjInv_other_mappings s2 (coalesce s2 prev a) j hInv2 hj hh4
          hr1 hr2 hr3 ?_ j'' hj'' hjj L hcq
        intro x hxout
        have hxp : ¬ x = prev := by omega
        exact ⟨by rw [hszmap x, if_neg hxp], hfrmap x hxp⟩
    · rw [if_neg hcp]
      have hpf : (getHeader s2 prev).free = false := by
        cases h : (getHeader s2 prev).free
        · rfl
        · exact absurd h hcp
      intro j'' hj'' L hcq
      by_cases hjj : j'' = j
      · rw [hjj] at hcq
        rw [chainSeq_unique hcq hcj]
        refine List.chain'_append.mpr ⟨hch1, ?_, ?_⟩
        · cases hL2 : L2 with
          | nil => exact List.chain'_singleton a
          | cons r t =>
            refine List.chain'_cons.mpr ⟨Or.inr (hh3 r (by rw [hL2]; rfl)), ?_⟩
            rw [← hL2]
            exact hch2
        · intro x hx y hy
          simp only [List.head?_cons, Option.mem_def, Option.some.injEq] at hy
          rw [← hy]
          have hxp : x = prev := by
            rw [hL1dec, List.getLast?_concat] at hx
            exact (Option.some.inj (Option.mem_def.mp hx)).symm
          rw [hxp]
          exact Or.inl hpf
      · exact hh4 j'' hj'' hjj L hcq

/-- free_ preserves the adjacency invariant on a contract-abiding pointer:
the released block is eagerly merged with whichever chain neighbours are
free, so no adjacent free pair survives. -/
theorem free_adjInv (s : AllocState) (p : Option Nat)
    (hInv : Inv s) (hAdj : AdjInv s) (hp : validFreeArg s p) :
    AdjInv (free_ s p) := by
  cases p with
  | none => exact hAdj
  | some pv =>
    rcases hp with hnone | ⟨a, hpa, hval, hfa⟩
    · exact Option.noConfusion hnone
    · have hpv : pv = a + METADATA_OFFSET := by
        injection hpa with h
      have hMA : MIN_ALLOC = 32 := rfl
      have hF : FOOTER_SIZE = 8 := rfl
      have hMO : METADATA_OFFSET = 8 := rfl
      have hS48v : SIZE48 = 281474976710656 := by norm_num [SIZE48]
      have hU64v : U64 = 18446744073709551616 := by norm_num [U64]
      obtain ⟨j, Lc, hj, hcL, haL⟩ := hval
      obtain ⟨hbnda1, hbnda2, hbnda3⟩ := chainSeq_mem_bounds hcL a haL
      have hspeca := inv_chain_spec hInv hj hcL a haL
      obtain ⟨hlo0, hlohi, hhi48, -⟩ := hInv.2.1 j hj
      have ha32 : 32 ≤ blockSize s a := by
        have := hspeca.1.1
        rw [hMA] at this
        exact this
      have hmapa : (getHeader s a).mapping = j := hspeca.1.2.2.1
      have hsub : sub64 pv METADATA_OFFSET = a := by
        rw [hpv, sub64_eq_of_le (by omega) (by omega)]
        omega
      obtain ⟨hInv1, hval1, hfree1⟩ :=
        insert_into_buckets_inv s a hInv ⟨j, Lc, hj, hcL, haL⟩ hfa
      simp only [free_]
      rw [hsub]
      set s1 : AllocState := insert_into_buckets s a with hs1d
      have hsz1 : ∀ z, blockSize s1 z = blockSize s z := fun z => by
        rw [hs1d]
        exact blockSize_insert_into_buckets s a z
      have hfr1 : ∀ z, (getHeader s1 z).free =
          if z = a then true else (getHeader s z).free := fun z => by
        rw [hs1d]
        exact free_insert_into_buckets s a z
      have hfrs1ne : ∀ z, ¬ z = a →
          (getHeader s1 z).free = (getHeader s z).free := by
        intro z hz
        rw [hfr1 z, if_neg hz]
      have hreg1 : s1.mappingIndex = s.mappingIndex := by rw [hs1d]; rfl
      have hreg2 : s1.mappingLo = s.mappingLo := by rw [hs1d]; rfl
      have hreg3 : s1.mappingHi = s.mappingHi := by rw [hs1d]; rfl
      have hnb : wrap64 (a + blockSize s1 a) = a + blockSize s a := by
        rw [hsz1 a]
        exact wrap64_eq_of_lt (by omega)
      rw [hnb]
      have hmap1 : (getHeader s1 a).mapping = j := by
        rw [hs1d, mapping_insert_into_buckets, hmapa]
      rw [hmap1]
      obtain ⟨La1, La2, hdeca, hca1, hposa, hca2⟩ := chainSeq_split hcL haL
      have hchLc : Lc.Chain' (nonAdjFree s) := hAdj j hj Lc hcL
      rw [hdeca] at hchLc
      obtain ⟨hchA1, hchaA2, hjuncA⟩ := List.chain'_append.mp hchLc
      have hchA2 : La2.Chain' (nonAdjFree s) := hchaA2.tail
      have hmemA1 : ∀ x ∈ La1, x < a := by
        intro x hx
        have hb := chainSeq_mem_bounds hca1 x hx
        omega
      have hmemA2 : ∀ x ∈ La2, a + blockSize s a ≤ x := by
        intro x hx
        have hb := chainSeq_mem_bounds hca2 x hx
        omega
      have hc1s1 : ChainSeq s1 (s1.mappingLo j) a La1 := by
        rw [hreg2]
        exact chainSeq_congr hca1 (fun z _ => hsz1 z)
      have hc2s1 : ChainSeq s1 (a + blockSize s1 a) (s1.mappingHi j) La2 := by
        rw [hreg3, hsz1 a]
        exact chainSeq_congr hca2 (fun z _ => hsz1 z)
      have hch1s1 : La1.Chain' (nonAdjFree s1) :=
        chain_nonAdjFree_congr
          (fun x hx => hfrs1ne x (by have := hmemA1 x hx; omega)) hchA1
      have hch2s1 : La2.Chain' (nonAdjFree s1) :=
        chain_nonAdjFree_congr
          (fun x hx => hfrs1ne x (by have := hmemA2 x hx; omega)) hchA2
      have hj1 : j < s1.mappingIndex := by
        rw [hreg1]
        exact hj
      have hposa1 : 0 < blockSize s1 a := by
        rw [hsz1 a]
        omega
      have hh4s1 : ∀ j', j' < s1.mappingIndex → ¬ j' = j →
          ∀ L, ChainSeq s1 (s1.mappingLo j') (s1.mappingHi j') L →
            L.Chain' (nonAdjFree s1) := by
        refine adjInv_other_mappings s s1 j hInv hj ?_ hreg1 hreg2 hreg3 ?_
        · intro j' hj' hne L hcq
          exact hAdj j' hj' L hcq
        · intro x hxout
          have hxa : ¬ x = a := by omega
          exact ⟨hsz1 x, hfrs1ne x hxa⟩
      by_cases hc1 : a + blockSize s a < s1.mappingHi j ∧
          (getHeader s1 (a + blockSize s a)).free = true
      · rw [if_pos hc1]
        have hlt : a + blockSize s a < s.mappingHi j := by
          have := hc1.1
          rw [hreg3] at this
          exact this
        cases hLa2 : La2 with
        | nil =>
          rw [hLa2] at hca2
          have := chainSeq_nil_inv hca2
          omega
        | cons q l2' =>
          rw [hLa2] at hca2 hchA2 hmemA2
          obtain ⟨hq, hposq, hca2'⟩ := chainSeq_cons_inv hca2
          have hnbmem : a + blockSize s a ∈ Lc := by
            rw [hdeca, hLa2]
            refine List.mem_append.mpr (Or.inr (List.mem_cons_of_mem a ?_))
            rw [hq]
            exact List.mem_cons_self _ _
          have hcL1 : ChainSeq s1 (s1.mappingLo j) (s1.mappingHi j) Lc := by
            rw [hreg2, hreg3]
            exact chainSeq_congr hcL (fun z _ => hsz1 z)
          obtain ⟨hInv2, hval2, hfree2, hszmapC, hfrmapC, hftrC, hrC1, hrC2, hrC3⟩ :=
            coalesce_inv s1 a (a + blockSize s a) j hInv1 hj1 hcL1 haL hnbmem
              (by rw [hsz1 a])
          set s2 : AllocState := coalesce s1 a (a + blockSize s a) with hs2d
          have hj2 : j < s2.mappingIndex := by
            rw [hrC1]
            exact hj1
          have hsz2a : blockSize s2 a =
              blockSize s a + blockSize s (a + blockSize s a) := by
            rw [hszmapC a, if_pos rfl, hsz1 a, hsz1 (a + blockSize s a)]
          have hposa2 : 0 < blockSize s2 a := by
            rw [hsz2a]
            omega
          have hsz2ne : ∀ z, ¬ z = a → blockSize s2 z = blockSize s z := by
            intro z hz
            rw [hszmapC z, if_neg hz, hsz1 z]
          have hfr2ne : ∀ z, ¬ z = a →
              (getHeader s2 z).free = (getHeader s z).free := by
            intro z hz
            rw [hfrmapC z hz, hfrs1ne z hz]
          have hc1p2 : ChainSeq s2 (s2.mappingLo j) a La1 := by
            rw [hrC2, hreg2]
            exact chainSeq_congr hca1 (fun z hz =>
              hsz2ne z (by have := hmemA1 z hz; omega))
          have hc2p2 : ChainSeq s2 (a + blockSize s2 a) (s2.mappingHi j) l2' := by
            rw [hrC3, hreg3, hsz2a,
              show a + (blockSize s a + blockSize s (a + blockSize s a)) =
                a + blockSize s a + blockSize s (a + blockSize s a) from by omega]
            refine chainSeq_congr hca2' (fun z hz => ?_)
            have hb := chainSeq_mem_bounds hca2' z hz
            exact hsz2ne z (by omega)
          have hch1p2 : La1.Chain' (nonAdjFree s2) :=
            chain_nonAdjFree_congr
              (fun x hx => hfr2ne x (by have := hmemA1 x hx; omega)) hchA1
          have hch2p2 : l2'.Chain' (nonAdjFree s2) :=
            chain_nonAdjFree_congr
              (fun x hx => hfr2ne x (by
                have := hmemA2 x (List.mem_cons_of_mem q hx)
                omega))
              hchA2.tail
          have hfq : (getHeader s q).free = true := by
            have h1 : (getHeader s1 q).free = true := by
              rw [hq]
              exact hc1.2
            rw [hfrs1ne q (by omega)] at h1
            exact h1
          have hh3p2 : ∀ r ∈ l2'.head?, (getHeader s2 r).free = false := by
            intro r hr
            cases hl2' : l2' with
            | nil =>
              rw [hl2'] at hr
              exact absurd hr (by simp)
            | cons r0 t0 =>
              rw [hl2'] at hr
              simp only [List.head?_cons, Option.mem_def, Option.some.injEq] at hr
              rw [← hr]
              have hchqr : (q :: r0 :: t0).Chain' (nonAdjFree s) := by
                rw [← hl2']
                exact hchA2
              obtain ⟨hpair, -⟩ := List.chain'_cons.mp hchqr
              rcases hpair with h | h
              · rw [hfq] at h
                exact absurd h (by decide)
              · have hr0a : ¬ r0 = a := by
                  have := hmemA2 r0 (List.mem_cons_of_mem q
                    (by rw [hl2']; exact List.mem_cons_self r0 t0))
                  omega
                rw [hfr2ne r0 hr0a]
                exact h
          have hh4p2 : ∀ j', j' < s2.mappingIndex → ¬ j' = j →
              ∀ L, ChainSeq s2 (s2.mappingLo j') (s2.mappingHi j') L →
                L.Chain' (nonAdjFree s2) := by
            refine adjInv_other_mappings s s2 j hInv hj ?_
              (by rw [hrC1, hreg1]) (by rw [hrC2, hreg2]) (by rw [hrC3, hreg3]) ?_
            · intro j' hj' hne L hcq
              exact hAdj j' hj' L hcq
            · intro x hxout
              have hxa : ¬ x = a := by omega
              exact ⟨hsz2ne x hxa, hfr2ne x hxa⟩
          exact adjInv_phase2 s2 a j La1 l2' hInv2 hj2 hposa2 hc1p2 hc2p2
            hch1p2 hch2p2 hh3p2 hh4p2
      · rw [if_neg hc1]
        have hh3s1 : ∀ r ∈ La2.head?, (getHeader s1 r).free = false := by
          intro r hr
          cases hLa2 : La2 with
          | nil =>
            rw [hLa2] at hr
            exact absurd hr (by simp)
          | cons q l2' =>
            rw [hLa2] at hr
            simp only [List.head?_cons, Option.mem_def, Option.some.injEq] at hr
            rw [← hr]
            rw [hLa2] at hca2
            obtain ⟨hq, hposq, -⟩ := chainSeq_cons_inv hca2
            have hqlt : a + blockSize s a < s1.mappingHi j := by
              have hb := chainSeq_mem_bounds hca2 q (List.mem_cons_self q l2')
              rw [hreg3]
              omega
            have hnotfree : ¬ (getHeader s1 (a + blockSize s a)).free = true := by
              intro hftrue
              exact hc1 ⟨hqlt, hftrue⟩
            rw [hq]
            cases h : (getHeader s1 (a + blockSize s a)).free
            · rfl
            · exact absurd h hnotfree
        exact adjInv_phase2 s1 a j La1 La2 hInv1 hj1 hposa1 hc1s1 hc2s1
          hch1s1 hch2s1 hh3s1 hh4s1

/-- free_ preserves the allocator invariant when handed a contract-abiding
pointer (null or a live allocation). -/
theorem free_preserves (s : AllocState) (p : Option Nat)
    (hInv : Inv s) (hp : validFreeArg s p) : Inv (free_ s p) := by
  cases p with
  | none => exact hInv
  | some pv =>
    rcases hp with hnone | ⟨a, hpa, hval, hfa⟩
    · exact Option.noConfusion hnone
    · have hpv : pv = a + METADATA_OFFSET := by
        injection hpa with h
      have hMA : MIN_ALLOC = 32 := rfl
      have hF : FOOTER_SIZE = 8 := rfl
      have hMO : METADATA_OFFSET = 8 := rfl
      have hS48v : SIZE48 = 281474976710656 := by norm_num [SIZE48]
      have hU64v : U64 = 18446744073709551616 := by norm_num [U64]
      obtain ⟨j, Lc, hj, hcL, haL⟩ := hval
      have hbnda := chainSeq_mem_bounds hcL a haL
      have hspeca := inv_chain_spec hInv hj hcL a haL
      obtain ⟨hlo0, hlohi, hhi48, -⟩ := hInv.2.1 j hj
      have ha32 : 32 ≤ blockSize s a := by
        have := hspeca.1.1
        rw [hMA] at this
        exact this
      have hmapa : (getHeader s a).mapping = j := hspeca.1.2.2.1
      have hsub : sub64 pv METADATA_OFFSET = a := by
        rw [hpv, sub64_eq_of_le (by omega) (by omega)]
        omega
      obtain ⟨hInv1, hval1, hfree1⟩ :=
        insert_into_buckets_inv s a hInv ⟨j, Lc, hj, hcL, haL⟩ hfa
      simp only [free_]
      rw [hsub]
      set s1 : AllocState := insert_into_buckets s a with hs1d
      have hsz1 : ∀ z, blockSize s1 z = blockSize s z := fun z => by
        rw [hs1d]
        exact blockSize_insert_into_buckets s a z
      have hreg1 : s1.mappingIndex = s.mappingIndex := by rw [hs1d]; rfl
      have hreg2 : s1.mappingLo = s.mappingLo := by rw [hs1d]; rfl
      have hreg3 : s1.mappingHi = s.mappingHi := by rw [hs1d]; rfl
      have hnb : wrap64 (a + blockSize s1 a) = a + blockSize s a := by
        rw [hsz1 a]
        exact wrap64_eq_of_lt (by omega)
      rw [hnb]
      have hmap1 : (getHeader s1 a).mapping = j := by
        rw [hs1d, mapping_insert_into_buckets, hmapa]
      rw [hmap1]
      by_cases hc1 : a + blockSize s a < s1.mappingHi j ∧
          (getHeader s1 (a + blockSize s a)).free = true
      · rw [if_pos hc1]
        have hlt : a + blockSize s a < s.mappingHi j := by
          have := hc1.1
          rw [hreg3] at this
          exact this
        obtain ⟨La1, La2, hdeca, hca1, hposa, hca2⟩ := chainSeq_split hcL haL
        have hnbmem : a + blockSize s a ∈ Lc := by
          cases hLa2 : La2 with
          | nil =>
            rw [hLa2] at hca2
            have := chainSeq_nil_inv hca2
            omega
          | cons q tl =>
            rw [hLa2] at hca2
            obtain ⟨hq, -, -⟩ := chainSeq_cons_inv hca2
            rw [hdeca, hLa2]
            refine List.mem_append.mpr (Or.inr (List.mem_cons_of_mem a ?_))
            rw [hq]
            exact List.mem_cons_self _ _
        have hcL1 : ChainSeq s1 (s1.mappingLo j) (s1.mappingHi j) Lc := by
          rw [hreg2, hreg3]
          exact chainSeq_congr hcL (fun z _ => hsz1 z)
        have hj1 : j < s1.mappingIndex := by
          rw [hreg1]
          exact hj
        obtain ⟨hInv2, hval2, hfree2, -, -, -, -, -, -⟩ :=
          coalesce_inv s1 a (a + blockSize s a) j hInv1 hj1 hcL1 haL hnbmem
            (by rw [hsz1 a])
        exact free_phase2 (coalesce s1 a (a + blockSize s a)) a hInv2 hval2 hfree2
      · rw [if_neg hc1]
        exact free_phase2 s1 a hInv1 hval1 hfree1

/-- Chain traversal is deterministic: a chain to `mid` is a prefix of any
chain from the same start reaching at least as far. -/
theorem chainSeq_prefix {s : AllocState} {lo mid : Nat} {L1 : List Nat}
    (h1 : ChainSeq s lo mid L1) :
    ∀ hi L, mid ≤ hi → ChainSeq s lo hi L →
      ∃ L2, L = L1 ++ L2 ∧ ChainSeq s mid hi L2 := by
  induction h1 with
  | nil a =>
    intro hi L hm h2
    exact ⟨L, rfl, h2⟩
  | cons a c L1' hpos hrest ih =>
    intro hi L hm h2
    cases h2 with
    | nil =>
      exfalso
      have h := chainSeq_le hrest
      omega
    | cons _ _ L' hpos2 hrest2 =>
      obtain ⟨L2, hdec, hc⟩ := ih hi L' hm hrest2
      exact ⟨L2, by rw [hdec]; rfl, hc⟩

/-- A managed block survives into any later sound state whose registry
kept (or grew) its mapping and whose memory below the block is untouched:
the deterministic chain walk must still pass through it. -/
theorem validBlock_persist {s t : AllocState} {a j : Nat} {L : List Nat}
    (hcL : ChainSeq s (s.mappingLo j) (s.mappingHi j) L) (haL : a ∈ L)
    (hInvT : Inv t)
    (hjt : j < t.mappingIndex)
    (hlo : t.mappingLo j = s.mappingLo j)
    (hhi : s.mappingHi j ≤ t.mappingHi j)
    (hsz : ∀ x ∈ L, x ≤ a → blockSize t x = blockSize s x) :
    validBlock t a := by
  obtain ⟨L1, L2, hdec, hc1, hposa, hc2⟩ := chainSeq_split hcL haL
  have hbnda := chainSeq_mem_bounds hcL a haL
  have hc1t : ChainSeq t (s.mappingLo j) a L1 := by
    refine chainSeq_congr hc1 ?_
    intro x hx
    have hb := chainSeq_mem_bounds hc1 x hx
    refine hsz x ?_ (by omega)
    rw [hdec]
    exact List.mem_append.mpr (Or.inl hx)
  have hsza : blockSize t a = blockSize s a := hsz a haL le_rfl
  have hext : ChainSeq t (s.mappingLo j) (a + blockSize t a) (L1 ++ [a]) := by
    refine chainSeq_append hc1t ?_
    refine ChainSeq.cons _ _ _ (by rw [hsza]; exact hposa) ?_
    exact ChainSeq.nil _
  obtain ⟨h1', h2', h3', Lt, hcLt, -⟩ := hInvT.2.1 j hjt
  have hmid : a + blockSize t a ≤ t.mappingHi j := by
    rw [hsza]
    omega
  rw [← hlo] at hext
  obtain ⟨L2t, hdect, -⟩ := chainSeq_prefix hext (t.mappingHi j) Lt hmid hcLt
  refine ⟨j, Lt, hjt, hcLt, ?_⟩
  rw [hdect]
  exact List.mem_append.mpr (Or.inl (List.mem_append.mpr
    (Or.inr (List.mem_singleton.mpr rfl))))

/-- malloc_ never disturbs a live allocation: the block behind any
allocated address is still a managed, allocated block afterwards. -/
theorem malloc_frame (s : AllocState) (n : Nat) (ans : Option Nat) (a : Nat)
    (hInv : Inv s) (hok : oracleOK s (mallocReq n) ans)
    (hval : validBlock s a) (hfa : (getHeader s a).free = false) :
    validBlock (malloc_ s n ans).2 a ∧
    (getHeader (malloc_ s n ans).2 a).free = false := by
  have hMA : MIN_ALLOC = 32 := rfl
  simp only [malloc_]
  by_cases h0 : n = 0 ∨ aligned n < n
  · rw [if_pos h0]
    obtain ⟨j, L, hj, hcL, haL⟩ := hval
    exact ⟨⟨j, L, hj, chainSeq_congr hcL (fun x _ => rfl), haL⟩, hfa⟩
  · rw [if_neg h0]
    set s1 : AllocState := if s.inited then s else init_buckets s with hs1d
    have hInv1 : Inv s1 := init_buckets_inv s hInv
    have hinit1 : s1.inited = true := by
      rw [hs1d]
      by_cases h : s.inited = true
      · rw [if_pos h]
        exact h
      · rw [if_neg h]
        rfl
    have hs1hdr : s1.headers = s.headers := by
      rw [hs1d]
      by_cases h : s.inited = true
      · rw [if_pos h]
      · rw [if_neg h]
        rfl
    have hreg1 : s1.mappingIndex = s.mappingIndex := by
      rw [hs1d]
      by_cases h : s.inited = true
      · rw [if_pos h]
      · rw [if_neg h]
        rfl
    have hreg2 : s1.mappingLo = s.mappingLo := by
      rw [hs1d]
      by_cases h : s.inited = true
      · rw [if_pos h]
      · rw [if_neg h]
        rfl
    have hreg3 : s1.mappingHi = s.mappingHi := by
      rw [hs1d]
      by_cases h : s.inited = true
      · rw [if_pos h]
      · rw [if_neg h]
        rfl
    have hok1 : oracleOK s1 (mallocReq n) ans := by
      intro m hm
      obtain ⟨h1, h2, h3⟩ := hok m hm
      refine ⟨h1, h2, ?_⟩
      intro j hj
      rw [hreg1] at hj
      rw [hreg2, hreg3]
      exact h3 j hj
    have hval1 : validBlock s1 a := by
      obtain ⟨j, L, hj, hcL, haL⟩ := hval
      refine ⟨j, L, by rw [hreg1]; exact hj, ?_, haL⟩
      rw [hreg2, hreg3]
      exact chainSeq_congr hcL (fun x _ => blockSize_headers_eq hs1hdr x)
    have hfa1 : (getHeader s1 a).free = false := by
      rw [getHeader_headers_eq hs1hdr a]
      exact hfa
    rcases hbk : get_block_from_buckets s1 (aligned n) with _ | ⟨b, s2⟩
    · -- OS path
      have hpres := get_block_from_os_preserves s1 (aligned n) ans hInv1 hinit1 hok1
        (aligned_ge n) (aligned_dvd n)
      rcases hos : get_block_from_os s1 (aligned n) ans with ⟨r, s2⟩
      cases r with
      | none =>
        show validBlock s2 a ∧ (getHeader s2 a).free = false
        obtain ⟨hI2, hh2, hi2, hl2, hhi2⟩ := hpres.1 s2 hos
        obtain ⟨j, L, hj, hcL, haL⟩ := hval1
        refine ⟨⟨j, L, by rw [hi2]; exact hj, ?_, haL⟩, ?_⟩
        · rw [hl2, hhi2]
          exact chainSeq_congr hcL (fun x _ => blockSize_headers_eq hh2 x)
        · rw [getHeader_headers_eq hh2 a]
          exact hfa1
      | some b =>
        show validBlock (setHeaderFree s2 b false) a ∧
          (getHeader (setHeaderFree s2 b false) a).free = false
        obtain ⟨hxc, hvb, hc3, hc4, hc5, hc6, -⟩ := hpres.2 b s2 hos
        have hIT : Inv (setHeaderFree s2 b false) := InvExcept_close hxc hvb
        obtain ⟨j, L, hj, hcL, haL⟩ := hval1
        have hbnda := chainSeq_mem_bounds hcL a haL
        have hhx : ∀ x, s1.mappingLo j ≤ x → x < s1.mappingHi j →
            (setHeaderFree s2 b false).headers x = s1.headers x := by
          intro x h1 h2
          have hxb : ¬ x = b := by
            rcases hc6 j hj with h | h
            · omega
            · omega
          rw [headers_setHeaderFree_ne _ _ _ hxb]
          exact hc5 x j hj h1 h2
        refine ⟨?_, ?_⟩
        · refine validBlock_persist hcL haL hIT ?_ ?_ ?_ ?_
          · show j < s2.mappingIndex
            omega
          · show s2.mappingLo j = s1.mappingLo j
            exact (hc4 j hj).1
          · show s1.mappingHi j ≤ s2.mappingHi j
            exact (hc4 j hj).2
          · intro x hx hxa
            have hb2 := chainSeq_mem_bounds hcL x hx
            unfold blockSize getHeader
            rw [hhx x hb2.1 (by omega)]
        · rw [free_setHeaderFree]
          by_cases hab : a = b
          · rw [if_pos hab]
          · rw [if_neg hab]
            have hha := hc5 a j hj hbnda.1 (by omega)
            unfold getHeader
            rw [hha]
            exact hfa1
    · -- bucket path
      show validBlock (setHeaderFree s2 b false) a ∧
        (getHeader (setHeaderFree s2 b false) a).free = false
      have hpos : ∀ i c, c ∈ s1.buckets i → 0 < blockSize s1 c := by
        intro i c hc
        have hge := (inv_bucket_member hInv1 hc).2.2.2
        rw [MIN_ALLOC_eq] at hge
        omega
      obtain ⟨jj, hij, hjN, hmiss, hloop, hadjeq⟩ :=
        gbfb_loop_some s1 (aligned n) hpos NUM_BUCKETS
          (bucket_index_from_size (aligned n)) b s2 hbk
      obtain ⟨hwa, pre, post, hdecomp, hprelt⟩ := bucket_loop_some _ _ _ _ hloop
      have hbmem : b ∈ s1.buckets jj := by
        rw [hdecomp]
        exact List.mem_append.mpr (Or.inr (List.mem_cons_self b post))
      have hfb : (getHeader s1 b).free = true := (inv_bucket_member hInv1 hbmem).2.2.1
      have hab : ¬ a = b := by
        intro h
        rw [h] at hfa1
        rw [hfa1] at hfb
        exact absurd hfb (by decide)
      obtain ⟨hxc, hvb⟩ := remove_from_bucket_invExcept s1 b jj hInv1 hbmem
      have hadjp := adjusted_block_preserves (remove_from_bucket s1 b) b (aligned n)
        hxc hvb (aligned_ge n) (aligned_dvd n)
        (by show aligned n ≤ blockSize s1 b; exact hwa)
      have hs2eq : s2 = (adjusted_block (remove_from_bucket s1 b) b (aligned n)).2 :=
        congrArg Prod.snd hadjeq
      obtain ⟨ja, La, hja, hcLa, haLa⟩ := hval1
      have hcLa0 : ChainSeq (remove_from_bucket s1 b)
          ((remove_from_bucket s1 b).mappingLo ja)
          ((remove_from_bucket s1 b).mappingHi ja) La := by
        show ChainSeq _ (s1.mappingLo ja) (s1.mappingHi ja) La
        exact chainSeq_congr hcLa (fun x _ => rfl)
      have hvalt0a : validBlock (remove_from_bucket s1 b) a := ⟨ja, La, hja, hcLa0, haLa⟩
      have hfat0 : (getHeader (remove_from_bucket s1 b) a).free = false := hfa1
      rcases hadjp.2.2.2.2.2.2.2.2.2 with hunch | ⟨hwle32, hszd, hfrd⟩
      · have hs2t0 : s2 = remove_from_bucket s1 b := by
          rw [hs2eq, show adjusted_block (remove_from_bucket s1 b) b (aligned n) =
            (b, remove_from_bucket s1 b) from hunch]
        rw [hs2t0]
        refine ⟨?_, ?_⟩
        · obtain ⟨j', L', hj', hc', hm'⟩ := hvalt0a
          exact ⟨j', L', hj',
            chainSeq_congr hc' (fun x _ => blockSize_setHeaderFree _ _ _ x), hm'⟩
        · rw [free_setHeaderFree, if_neg hab]
          exact hfat0
      · have hw0 : 0 < aligned n := by
          have hge := aligned_ge n
          rw [hMA] at hge
          omega
        have hwlt : aligned n < blockSize (remove_from_bucket s1 b) b := by
          rw [hMA] at hwle32
          omega
        obtain ⟨jb, Lb, hjb, hcLb, hbLb⟩ := hvb
        have hmokt0 : mappingsOK (remove_from_bucket s1 b) := hInv1.2.2.2.1
        have hdisjab := valid_blocks_disjoint hmokt0 hvalt0a ⟨jb, Lb, hjb, hcLb, hbLb⟩ hab
        have habw : ¬ a = b + aligned n := by
          rcases hdisjab with h | h
          · omega
          · omega
        have hfra : (getHeader (adjusted_block (remove_from_bucket s1 b) b
            (aligned n)).2 a).free = false := by
          rw [hfrd a, if_neg habw]
          exact hfat0
        have hvala2 : validBlock
            (adjusted_block (remove_from_bucket s1 b) b (aligned n)).2 a := by
          by_cases hjab : ja = jb
          · have hLL : La = Lb := by
              rw [hjab] at hcLa0
              exact chainSeq_unique hcLa0 hcLb
            have haLb : a ∈ Lb := by
              rw [← hLL]
              exact haLa
            obtain ⟨l1, l2, hdk, hcnew⟩ := chainSeq_carve hcLb hbLb hw0 hwlt hszd
            refine ⟨jb, l1 ++ b :: (b + aligned n) :: l2, ?_, ?_, ?_⟩
            · rw [hadjp.2.2.2.2.1]
              exact hjb
            · rw [hadjp.2.2.2.2.2.1, hadjp.2.2.2.2.2.2.1]
              exact hcnew
            · rw [hdk] at haLb
              rcases List.mem_append.mp haLb with h | h
              · exact List.mem_append.mpr (Or.inl h)
              · rcases List.mem_cons.mp h with h' | h'
                · exact absurd h' hab
                · exact List.mem_append.mpr (Or.inr (List.mem_cons_of_mem _
                    (List.mem_cons_of_mem _ h')))
          · have hrange := hmokt0.2 ja jb hja hjb hjab
            have hbbnd := chainSeq_mem_bounds hcLb b hbLb
            have hmemne : ∀ x ∈ La, ¬ x = b ∧ ¬ x = b + aligned n := by
              intro x hx
              have hbx := chainSeq_mem_bounds hcLa0 x hx
              rcases hrange with h | h
              · constructor <;> omega
              · constructor <;> omega
            refine ⟨ja, La, ?_, ?_, haLa⟩
            · rw [hadjp.2.2.2.2.1]
              exact hja
            · rw [hadjp.2.2.2.2.2.1, hadjp.2.2.2.2.2.2.1]
              exact chainSeq_congr hcLa0 (fun x hx => by
                rw [hszd x, if_neg (hmemne x hx).1, if_neg (hmemne x hx).2])
        rw [hs2eq]
        refine ⟨?_, ?_⟩
        · obtain ⟨j', L', hj', hc', hm'⟩ := hvala2
          exact ⟨j', L', hj',
            chainSeq_congr hc' (fun x _ => blockSize_setHeaderFree _ _ _ x), hm'⟩
        · rw [free_setHeaderFree, if_neg hab]
          exact hfra

/-- free_ never touches the mapping registry. -/
theorem regs_free_ (s : AllocState) (p : Option Nat) :
    (free_ s p).mappingIndex = s.mappingIndex ∧
    (free_ s p).mappingLo = s.mappingLo ∧
    (free_ s p).mappingHi = s.mappingHi := by
  cases p with
  | none => exact ⟨rfl, rfl, rfl⟩
  | some pv =>
    simp only [free_]
    refine ⟨?_, ?_, ?_⟩ <;>
      · repeat' split
        all_goals rfl

/-- calloc_ preserves the allocator invariant. -/
theorem calloc_preserves (s : AllocState) (num sz : Nat) (ans : Option Nat)
    (hInv : Inv s) (hok : oracleOK s (mallocReq (wrap64 (num * sz))) ans) :
    Inv (calloc_ s num sz ans).2 := by
  simp only [calloc_]
  by_cases h : num = 0 ∨ (U64 - 1) / num < sz
  · rw [if_pos h]
    exact Inv_errno s EINVAL hInv
  · rw [if_neg h]
    exact malloc_preserves s (wrap64 (num * sz)) ans hInv hok

/-- calloc_ preserves the adjacency invariant (it delegates to malloc_). -/
theorem calloc_adjInv (s : AllocState) (num sz : Nat) (ans : Option Nat)
    (hInv : Inv s) (hAdj : AdjInv s)
    (hok : oracleOK s (mallocReq (wrap64 (num * sz))) ans) :
    AdjInv (calloc_ s num sz ans).2 := by
  simp only [calloc_]
  by_cases h : num = 0 ∨ (U64 - 1) / num < sz
  · rw [if_pos h]
    refine adjInv_congr ?_ ?_ ?_ ?_ ?_ hAdj
    all_goals first
      | rfl
      | exact fun x => rfl
  · rw [if_neg h]
    exact malloc_adjInv s (wrap64 (num * sz)) ans hInv hAdj hok

theorem pair_snd (x : Option Nat) (y : AllocState) : (x, y).2 = y := rfl

/-- realloc_ preserves the allocator invariant on contract-abiding input. -/
theorem realloc_preserves (s : AllocState) (p : Option Nat) (n : Nat) (ans : Option Nat)
    (hInv : Inv s) (hok : oracleOK s (mallocReq n) ans) (hp : validFreeArg s p) :
    Inv (realloc_ s p n ans).2 := by
  have hMA : MIN_ALLOC = 32 := rfl
  have hF : FOOTER_SIZE = 8 := rfl
  have hMO : METADATA_OFFSET = 8 := rfl
  have hMU : MEM_UNIT = 8 := rfl
  have hS48v : SIZE48 = 281474976710656 := by norm_num [SIZE48]
  have hU64v : U64 = 18446744073709551616 := by norm_num [U64]
  have hokfree : ∀ q : Option Nat, oracleOK (free_ s q) (mallocReq n) ans := by
    intro q m hm
    obtain ⟨u1, u2, u3⟩ := hok m hm
    obtain ⟨e1, e2, e3⟩ := regs_free_ s q
    refine ⟨u1, u2, ?_⟩
    intro j hj
    rw [e1] at hj
    rw [e2, e3]
    exact u3 j hj
  cases p with
  | none =>
    exact malloc_preserves s n ans hInv hok
  | some pv =>
    simp only [realloc_]
    by_cases h0 : n = 0
    · rw [if_pos h0]
      exact malloc_preserves (free_ s (some pv)) n ans
        (free_preserves s (some pv) hInv hp) (hokfree (some pv))
    · rw [if_neg h0]
      rcases hp with hnone | ⟨a, hpa, hval, hfa⟩
      · exact Option.noConfusion hnone
      · have hpv : pv = a + METADATA_OFFSET := by
          injection hpa with h
        obtain ⟨j, Lc, hj, hcL, haL⟩ := hval
        have hbnda := chainSeq_mem_bounds hcL a haL
        have hspeca := inv_chain_spec hInv hj hcL a haL
        obtain ⟨hlo0, hlohi, hhi48, -⟩ := hInv.2.1 j hj
        have ha32 : 32 ≤ blockSize s a := by
          have := hspeca.1.1
          rw [hMA] at this
          exact this
        have ha8 : MEM_UNIT ∣ blockSize s a := hspeca.1.2.1
        have hsub : sub64 pv METADATA_OFFSET = a := by
          rw [hpv, sub64_eq_of_le (by omega) (by omega)]
          omega
        rw [hsub]
        by_cases hsh : n ≤ sub64 (sub64 (blockSize s a) METADATA_OFFSET) FOOTER_SIZE
        · -- in-place shrink via adjusted_block
          rw [if_pos hsh]
          have hin : sub64 (blockSize s a) METADATA_OFFSET = blockSize s a - 8 := by
            rw [hMO]
            exact sub64_eq_of_le (by omega) (by omega)
          have holdsz : sub64 (sub64 (blockSize s a) METADATA_OFFSET) FOOTER_SIZE =
              blockSize s a - 16 := by
            rw [hin, hF, sub64_eq_of_le (by omega) (by omega)]
            omega
          rw [holdsz] at hsh
          have hdvd16 : (8 : Nat) ∣ blockSize s a - 16 := by
            obtain ⟨k, hk⟩ := ha8
            rw [hMU] at hk
            refine ⟨k - 2, ?_⟩
            omega
          have hr8 : round_up_power_of_two n MEM_UNIT ≤ blockSize s a - 16 := by
            unfold round_up_power_of_two wrap64
            rw [hMU]
            rw [Nat.mod_eq_of_lt (by omega)]
            obtain ⟨k, hk⟩ := hdvd16
            omega
          have halign : aligned n ≤ blockSize s a := by
            show (if MIN_ALLOC ≤ wrap64 (round_up_power_of_two n MEM_UNIT +
                (METADATA_OFFSET + FOOTER_SIZE))
              then wrap64 (round_up_power_of_two n MEM_UNIT +
                (METADATA_OFFSET + FOOTER_SIZE))
              else MIN_ALLOC) ≤ blockSize s a
            have hw : wrap64 (round_up_power_of_two n MEM_UNIT +
                (METADATA_OFFSET + FOOTER_SIZE)) =
                round_up_power_of_two n MEM_UNIT + 16 := by
              rw [show METADATA_OFFSET + FOOTER_SIZE = 16 from rfl]
              exact wrap64_eq_of_lt (by omega)
            rw [hw]
            by_cases hcc : MIN_ALLOC ≤ round_up_power_of_two n MEM_UNIT + 16
            · rw [if_pos hcc]
              omega
            · rw [if_neg hcc]
              rw [hMA]
              omega
          have hnotin := allocated_not_in_buckets hInv hfa
          have hxc := Inv_to_InvExcept hInv hnotin
          have hadj := adjusted_block_preserves s a (aligned n) hxc
            ⟨j, Lc, hj, hcL, haL⟩ (aligned_ge n) (aligned_dvd n) halign
          show Inv (adjusted_block s a (aligned n)).2
          refine InvExcept_close_of_false hadj.2.1 ?_
          rw [hadj.2.2.2.1]
          exact hfa
        · -- grow: fresh allocation, then release of the original
          rw [if_neg hsh]
          have hI1 := malloc_preserves s n ans hInv hok
          have hfrm := malloc_frame s n ans a hInv hok ⟨j, Lc, hj, hcL, haL⟩ hfa
          have hvf1 : validFreeArg (malloc_ s n ans).2 (some pv) :=
            Or.inr ⟨a, by rw [hpv], hfrm.1, hfrm.2⟩
          rw [pair_snd]
          exact free_preserves (malloc_ s n ans).2 (some pv) hI1 hvf1

/-- The allocator invariant holds in every reachable state. -/
theorem Reachable_inv (s : AllocState) (hs : Reachable s) : Inv s := by
  induction hs with
  | init => exact Inv_initialState
  | step_malloc s n ans hs hok ih => exact malloc_preserves s n ans ih hok
  | step_free s p hs hp ih => exact free_preserves s p ih hp
  | step_calloc s num sz ans hs hok ih => exact calloc_preserves s num sz ans ih hok
  | step_realloc s p n ans hs hok hp ih => exact realloc_preserves s p n ans ih hok hp

/-- Decomposition of a snoc list around its (non-repeated) last element. -/
theorem list_snoc_decomp (A l1 l2 : List Nat) (m : Nat)
    (hdk : A ++ [m] = l1 ++ m :: l2) (hnm : ¬ m ∈ A) : l1 = A ∧ l2 = [] := by
  induction A generalizing l1 with
  | nil =>
    cases l1 with
    | nil =>
      simp only [List.nil_append] at hdk
      injection hdk with h1 h2
      exact ⟨rfl, h2.symm⟩
    | cons b t =>
      simp only [List.nil_append, List.cons_append] at hdk
      injection hdk with h1 h2
      exact absurd h2 (by simp)
  | cons a A' ih =>
    have hnm' : ¬ m ∈ A' := fun h => hnm (List.mem_cons_of_mem a h)
    cases l1 with
    | nil =>
      simp only [List.cons_append, List.nil_append] at hdk
      injection hdk with h1 h2
      exact absurd (h1.symm) (fun h => hnm (by rw [h]; exact List.mem_cons_self _ _))
    | cons b t =>
      simp only [List.cons_append] at hdk
      injection hdk with h1 h2
      obtain ⟨e1, e2⟩ := ih t h2 hnm'
      refine ⟨?_, e2⟩
      rw [h1, e1]

/-- The adjacency invariant holds at process load (no mappings yet). -/
theorem AdjInv_initialState : AdjInv initialState := by
  intro j hj L hc
  exfalso
  have h0 : initialState.mappingIndex = 0 := rfl
  omega

/-- C7: in every reachable state every bucket is sorted by block size in
non-decreasing order with no block filed twice (the circular list's size-0
sentinel is the model's list end), and the insertion walk of
insert_into_bucket places a new block after every member of size at most
its own -- in particular after all equal-sized members, the oldest-first
tie-break. -/
theorem claim_C7 (s : AllocState) (hs : Reachable s) (i : Nat) :
    ((s.buckets i).Pairwise (fun x y => blockSize s x ≤ blockSize s y) ∧
      (s.buckets i).Nodup) ∧
    (∀ a w, ∃ L1 L2, s.buckets i = L1 ++ L2 ∧
      insert_walk s a w (s.buckets i) = L1 ++ a :: L2 ∧
      (∀ b ∈ L1, blockSize s b ≤ w) ∧ (∀ b ∈ L2, w < blockSize s b)) := by
  have hInv := Reachable_inv s hs
  have hsort := (hInv.2.2.1 i).2.1
  refine ⟨⟨hsort, (hInv.2.2.1 i).2.2⟩, ?_⟩
  intro a w
  exact insert_walk_position s a w (s.buckets i)
    (fun b hb => inv_bucket_pos hInv i b hb) hsort

/-- Witness for C7: the cold-start `malloc_ 8` state, whose bucket 134
holds the free tail block. -/
theorem claim_C7_witness :
    ((coldMalloc8.2.buckets 134).Pairwise
        (fun x y => blockSize coldMalloc8.2 x ≤ blockSize coldMalloc8.2 y) ∧
      (coldMalloc8.2.buckets 134).Nodup) ∧
    (∀ a w, ∃ L1 L2, coldMalloc8.2.buckets 134 = L1 ++ L2 ∧
      insert_walk coldMalloc8.2 a w (coldMalloc8.2.buckets 134) = L1 ++ a :: L2 ∧
      (∀ b ∈ L1, blockSize coldMalloc8.2 b ≤ w) ∧
      (∀ b ∈ L2, w < blockSize coldMalloc8.2 b)) :=
  claim_C7 coldMalloc8.2
    (Reachable.step_malloc initialState 8 (some 4096) Reachable.init (by
      intro m hm
      injection hm with hm1
      refine ⟨?_, ?_, ?_⟩
      · rw [← hm1]
        norm_num
      · rw [← hm1]
        decide
      · intro j hj
        have h0 : initialState.mappingIndex = 0 := rfl
        exfalso
        omega))
    134

/-- C8 counterexample: after `acquire(64); resize(p, 8)` (the `shrunk`
scenario) the in-place shrink files the carved 48-byte tail at 4128
without coalescing it into the adjacent free 130992-byte block at 4176:
two physically adjacent blocks of mapping 0, both free. -/
theorem claim_C8_counterexample :
    shrunk.2.mappingIndex = 1 ∧
    shrunk.2.mappingLo 0 = 4096 ∧ shrunk.2.mappingHi 0 = 135168 ∧
    ChainSeq shrunk.2 4096 135168 [4096, 4128, 4176] ∧
    4128 + blockSize shrunk.2 4128 = 4176 ∧
    (getHeader shrunk.2 4128).free = true ∧
    (getHeader shrunk.2 4176).free = true := by
  have h1 : blockSize shrunk.2 4096 = 32 := by decide
  have h2 : blockSize shrunk.2 4128 = 48 := by decide
  have h3 : blockSize shrunk.2 4176 = 130992 := by decide
  refine ⟨by decide, by decide, by decide, ?_, ?_, by decide, by decide⟩
  · refine ChainSeq.cons _ _ _ (by rw [h1]; norm_num) ?_
    rw [h1, show (4096 : Nat) + 32 = 4128 from by norm_num]
    refine ChainSeq.cons _ _ _ (by rw [h2]; norm_num) ?_
    rw [h2, show (4128 : Nat) + 48 = 4176 from by norm_num]
    refine ChainSeq.cons _ _ _ (by rw [h3]; norm_num) ?_
    rw [h3, show (4176 : Nat) + 130992 = 135168 from by norm_num]
    exact ChainSeq.nil _
  · rw [h2]

/-- C8 amended: the no-adjacent-free-pair invariant holds at process load
and is preserved by acquire, release and acquire_zero on any reachable
state, so it holds after every facade call of a resize-free call
sequence; resize's in-place shrink (claim_C8_counterexample) breaks it,
because adjusted_block files the carved tail without coalescing. -/
theorem claim_C8_amended :
    AdjInv initialState ∧
    (∀ s, Reachable s → AdjInv s →
      (∀ n ans, oracleOK s (mallocReq n) ans → AdjInv (malloc_ s n ans).2) ∧
      (∀ p, validFreeArg s p → AdjInv (free_ s p)) ∧
      (∀ num sz ans, oracleOK s (mallocReq (wrap64 (num * sz))) ans →
        AdjInv (calloc_ s num sz ans).2)) := by
  refine ⟨AdjInv_initialState, ?_⟩
  intro s hs hAdj
  have hInv := Reachable_inv s hs
  exact ⟨fun n ans hok => malloc_adjInv s n ans hInv hAdj hok,
    fun p hp => free_adjInv s p hInv hAdj hp,
    fun num sz ans hok => calloc_adjInv s num sz ans hInv hAdj hok⟩

end MallocModel
